import Mathlib

/-!
# MyShell: the pooled link list, the pipe splitter and the pipeline driver

A shallow embedding of `src/main.c`.

Conventions of the embedding.

* A C pointer that may be `NULL` is an `Option`; `none` is `NULL`.
* The nodes of one list live in a memory of their own, `LinkList.mem`; the address of a
  node is its index there and `malloc` hands out the next free index.
* A function whose C body dereferences a pointer returns an `Option`; `none` means that
  the C code dereferences an invalid pointer or does not terminate.
* `size_t` counters are natural numbers.  `curLen` and `maxLen` never exceed the number
  of nodes that were allocated, each of which occupies at least sixteen bytes of a
  64-bit address space, so they cannot wrap.
* The outcome of a `malloc` call is an argument (`true`: a block is returned).
-/

namespace MyShell

/-! ## Reusable link list (lines 15-165) -/

/-- The `struct LinkNode`: data field and next pointer. -/
structure LinkNode (α : Type) where
  data : Option α
  next : Option Nat
deriving DecidableEq

/-- The `struct LinkList`.  `mem` is the storage of the nodes of this list; `head`,
`curTail` and `maxTail` are addresses into it.  `deleter` records whether a custom
deleter function is registered (`deleter != NULL`); the calls made to it are returned
by the functions that make them. -/
structure LinkList (α : Type) where
  mem : List (LinkNode α)
  head : Nat
  curTail : Nat
  maxTail : Nat
  deleter : Bool
  curLen : Nat
  maxLen : Nat
deriving DecidableEq

variable {α : Type}

/-- The list that `LinkList_Create` initialises (lines 41-51): a head guard with no data
and no successor, both tails on it, both lengths 0. -/
def emptyList (deleter : Bool) : LinkList α :=
  { mem := [{ data := none, next := none }]
    head := 0
    curTail := 0
    maxTail := 0
    deleter := deleter
    curLen := 0
    maxLen := 0 }

/-- The function `LinkList_Create` (lines 34-53).  `okList` and `okHead` are the outcomes
of the two `malloc` calls; the result is `none` when the function returns `NULL`. -/
def LinkList_Create (deleter : Bool) (okList okHead : Bool) : Option (LinkList α) :=
  if okList = false then none
  else if okHead = false then none
  else some (emptyList deleter)

/-- The function `LinkList_Size` (lines 56-58). -/
def LinkList_Size (ptr : Option (LinkList α)) : Nat :=
  match ptr with
  | none => 0
  | some l => l.curLen

/-- The function `LinkList_Begin` (lines 61-63). -/
def LinkList_Begin (ptr : Option (LinkList α)) : Option (Option Nat) :=
  match ptr with
  | none => some none
  | some l =>
    if l.curLen = 0 then some none
    else
      match l.mem[l.head]? with
      | none => none
      | some h => some h.next

/-- The function `LinkList_Next` (lines 66-68). -/
def LinkList_Next (ptr1 : Option (LinkList α)) (ptr2 : Option Nat) : Option (Option Nat) :=
  match ptr1, ptr2 with
  | none, _ => some none
  | some _, none => some none
  | some l, some p =>
    if l.curTail = p then some none
    else
      match l.mem[p]? with
      | none => none
      | some n => some n.next

/-- The function `LinkList_IsFirst` (lines 71-73). -/
def LinkList_IsFirst (ptr1 : Option (LinkList α)) (ptr2 : Option Nat) : Option Int :=
  match ptr1 with
  | none => some 0
  | some l =>
    match l.mem[l.head]? with
    | none => none
    | some h => if ptr2 ≠ h.next then some 0 else some 1

/-- The function `LinkList_IsLast` (lines 76-78). -/
def LinkList_IsLast (ptr1 : Option (LinkList α)) (ptr2 : Option Nat) : Int :=
  match ptr1 with
  | none => 0
  | some l => if ptr2 ≠ some l.curTail then 0 else 1

/-- The function `LinkList_Extend` (lines 103-122).  `mallocOk` is the outcome of the
`malloc` call.  The result is the return value and the list after the call. -/
def LinkList_Extend (ptr : Option (LinkList α)) (dat : Option α) (mallocOk : Bool) :
    Option (Int × Option (LinkList α)) :=
  match ptr with
  | none => some (-1, none)
  | some l =>
    if mallocOk = false then some (-2, some l)
    else
      let tmp := l.mem.length
      match l.mem[l.maxTail]? with
      | none => none
      | some t =>
        some (0, some
          { l with
            mem := (l.mem ++ [({ data := dat, next := none } : LinkNode α)]).set l.maxTail
              { t with next := some tmp }
            maxTail := tmp
            maxLen := l.maxLen + 1 })

/-- The function `LinkList_Push` (lines 125-146).  `mallocOk` is the outcome of the
`malloc` call of `LinkList_Extend`, should the push reach it. -/
def LinkList_Push (ptr : Option (LinkList α)) (dat : Option α) (mallocOk : Bool) :
    Option (Int × Option (LinkList α)) :=
  match ptr with
  | none => some (-1, none)
  | some l =>
    if l.curLen ≥ l.maxLen then
      match LinkList_Extend (some l) dat mallocOk with
      | none => none
      | some (rtn, ptr1) =>
        if rtn = 0 then
          some (rtn, ptr1.map fun l1 =>
            { l1 with curTail := l1.maxTail, curLen := l1.curLen + 1 })
        else some (rtn, ptr1)
    else
      match l.mem[l.curTail]? with
      | none => none
      | some c =>
        match c.next with
        | none => none
        | some a =>
          match l.mem[a]? with
          | none => none
          | some n =>
            some (0, some
              { l with
                curTail := a
                mem := l.mem.set a { n with data := dat }
                curLen := l.curLen + 1 })

/-- The loop `for (i = ...; i != NULL; i = LinkList_Next(ptr, i)) visit(i->data)` of
lines 88-89 and 156-157, started at iterator `i`: the nodes visited, each with the
payload the body reads from it, in order.  The result is `none` when a node pointer is
invalid or when `fuel` iterations do not reach the end of the loop. -/
def LinkList_walk (l : LinkList α) : Nat → Option Nat → Option (List (Nat × Option α))
  | _, none => some []
  | 0, some _ => none
  | fuel + 1, some p =>
    match l.mem[p]? with
    | none => none
    | some n =>
      match LinkList_Next (some l) (some p) with
      | none => none
      | some nxt =>
        match LinkList_walk l fuel nxt with
        | none => none
        | some rest => some ((p, n.data) :: rest)

/-- Forward iteration from `LinkList_Begin`: the nodes visited and their payloads, in
order.  A loop that visits more nodes than the memory holds has come back to a node it
visited before and, as the loop body leaves the list alone, never ends. -/
def LinkList_iterate (ptr : Option (LinkList α)) : Option (List (Nat × Option α)) :=
  match ptr with
  | none => some []
  | some l =>
    match LinkList_Begin ptr with
    | none => none
    | some b => LinkList_walk l (l.mem.length + 1) b

/-- The function `LinkList_Clear` (lines 149-163): return value, list after the call and
the arguments of the calls made to the deleter, in order. -/
def LinkList_Clear (ptr : Option (LinkList α)) :
    Option (Int × Option (LinkList α) × List (Option α)) :=
  match ptr with
  | none => some (-1, none, [])
  | some l =>
    match (if l.deleter then LinkList_iterate ptr else some []) with
    | none => none
    | some visits =>
      some (0, some { l with curTail := l.head, curLen := 0 }, visits.map Prod.snd)

/-! ### Sequences of calls on one list -/

/-- A call made on a list by its user: a push of `dat`, with the outcome of the `malloc`
call the push may make, or a clear. -/
inductive Op (α : Type) where
  | push (dat : Option α) (mallocOk : Bool)
  | clear
deriving DecidableEq

/-- One call on the list `l`: its return value and the list after it. -/
def applyOp (l : LinkList α) : Op α → Option (Int × LinkList α)
  | Op.push dat mallocOk =>
    match LinkList_Push (some l) dat mallocOk with
    | some (r, some l1) => some (r, l1)
    | _ => none
  | Op.clear =>
    match LinkList_Clear (some l) with
    | some (r, some l1, _) => some (r, l1)
    | _ => none

/-- A sequence of calls on the list `l`: for each call, in order, its return value and
the list after it. -/
def runOps (l : LinkList α) : List (Op α) → Option (List (Int × LinkList α))
  | [] => some []
  | o :: os =>
    match applyOp l o with
    | none => none
    | some (r, l1) =>
      match runOps l1 os with
      | none => none
      | some rest => some ((r, l1) :: rest)

/-- The list after a sequence of calls whose results are `tr`, started from `l`. -/
def finalState (l : LinkList α) : List (Int × LinkList α) → LinkList α
  | [] => l
  | x :: rest => finalState x.2 rest

/-- The largest logical length among the list `l` and the lists of `tr`. -/
def peakLen (l : LinkList α) : List (Int × LinkList α) → Nat
  | [] => l.curLen
  | x :: rest => max l.curLen (peakLen x.2 rest)

/-- The lists that exist in a run of the program: those obtained from a successful
`LinkList_Create` by a sequence of pushes and clears. -/
def Reachable (l : LinkList α) : Prop :=
  ∃ (deleter : Bool) (l0 : LinkList α) (ops : List (Op α)) (tr : List (Int × LinkList α)),
    LinkList_Create deleter true true = some l0 ∧ runOps l0 ops = some tr ∧
      finalState l0 tr = l

/-- The payloads pushed since the last clear, in push order, given the calls made and
the value each returned: a clear empties the sequence, a push that returned 0 appends
its payload, a push that failed appends nothing. -/
def pushedSinceClear : List (Op α × Int) → List (Option α) → List (Option α)
  | [], acc => acc
  | (Op.clear, _) :: rest, _ => pushedSinceClear rest []
  | (Op.push dat _, r) :: rest, acc =>
    pushedSinceClear rest (if r = 0 then acc ++ [dat] else acc)

/-- The node reached from address `p` by following `k` next pointers. -/
def nthAfter (l : LinkList α) (p : Nat) : Nat → Option Nat
  | 0 => some p
  | k + 1 =>
    match l.mem[p]? with
    | none => none
    | some n =>
      match n.next with
      | none => none
      | some q => nthAfter l q k

/-- The payloads stored in the first `curLen` nodes after the head guard. -/
def payloads (l : LinkList α) : List (Option α) :=
  ((l.mem.drop 1).take l.curLen).map fun n => n.data

/-! ## The pipe splitter (lines 384-411) -/

/-- The string terminator. -/
def NUL : Char := Char.ofNat 0

/-- The double quote character. -/
def QUOTE : Char := Char.ofNat 34

/-- The backslash character. -/
def BACKSLASH : Char := Char.ofNat 92

/-- The pipe character. -/
def PIPE : Char := Char.ofNat 124

/-- The C string that starts at offset `p` of the buffer `buf`: the characters from `p`
up to the first terminator. -/
def cstr (buf : List Char) (p : Nat) : List Char :=
  (buf.drop p).takeWhile fun c => c ≠ NUL

/-- The loop of `splitPipe` (lines 393-404) followed by its last lines (407-410), from
the state where the cursor `i`, the stage start `start` (both offsets into the buffer
`cmd`) and `flag` have the given values.  `alloc k` is the outcome of the `malloc` call
of the `k`-th push still to come.  The result is the return value, the buffer and the
stage list; it is `none` when the cursor leaves the buffer. -/
def splitPipe_scan : Nat → (Nat → Bool) → List Char → Nat → Nat → Nat →
    Option (LinkList Nat) → Option (Int × List Char × Option (LinkList Nat))
  | 0, _, _, _, _, _, _ => none
  | fuel + 1, alloc, cmd, flag, start, i, g_List =>
    match cmd[i]? with
    | none => none
    | some c =>
      if c = NUL then
        if start ≠ i then
          match LinkList_Push g_List (some start) (alloc 0) with
          | none => none
          | some (r, g_List1) => if r < 0 then some (-2, cmd, g_List1) else some (0, cmd, g_List1)
        else some (0, cmd, g_List)
      else if c = QUOTE ∧ (i = 0 ∨ cmd[i - 1]? ≠ some BACKSLASH) then
        splitPipe_scan fuel alloc cmd (flag ^^^ 1) start (i + 1) g_List
      else if c = PIPE ∧ flag = 0 then
        match LinkList_Push g_List (some start) (alloc 0) with
        | none => none
        | some (r, g_List1) =>
          if r < 0 then some (-2, cmd.set i NUL, g_List1)
          else
            splitPipe_scan fuel (fun k => alloc (k + 1)) (cmd.set i NUL) flag (i + 1) (i + 1)
              g_List1
      else splitPipe_scan fuel alloc cmd flag start (i + 1) g_List

/-- The function `splitPipe` (lines 385-411) on the buffer `cmd` and the stage list
`g_List`: return value, buffer and stage list after the call.  The stage list is created
without a deleter (line 474), so its clear makes no deleter call.  The cursor moves by
one character per iteration and stops at the terminator, so `cmd.length + 1` iterations
are never used up. -/
def splitPipe (alloc : Nat → Bool) (cmd : List Char) (g_List : Option (LinkList Nat)) :
    Option (Int × List Char × Option (LinkList Nat)) :=
  match LinkList_Clear g_List with
  | none => none
  | some (r, g_List1, _) =>
    if r < 0 then some (-1, cmd, g_List1)
    else splitPipe_scan (cmd.length + 1) alloc cmd 0 0 0 g_List1

/-- The stage texts held by the stage list: for each node of the forward iteration, the
C string its payload points to in the buffer `cmd`.  The result is `none` when the
iteration fails or a payload is `NULL`. -/
def stagesOf (cmd : List Char) (g_List : Option (LinkList Nat)) : Option (List (List Char)) :=
  match LinkList_iterate g_List with
  | none => none
  | some visits => visits.mapM fun v => v.2.map (cstr cmd)

/-- Closed form of a complete scan over the unread part of the line: what the loop
writes in place of the unread characters and the stage starts it pushes, given the
flag, the character before the cursor (`none` at the start of the line), the stage
start and the cursor. -/
def scanRest (flag : Nat) (prev : Option Char) (start i : Nat) :
    List Char → List Char × List Nat
  | [] => ([], if start ≠ i then [start] else [])
  | c :: rest =>
    if c = QUOTE ∧ prev ≠ some BACKSLASH then
      let r := scanRest (flag ^^^ 1) (some c) start (i + 1) rest
      (c :: r.1, r.2)
    else if c = PIPE ∧ flag = 0 then
      let r := scanRest flag (some NUL) (i + 1) (i + 1) rest
      (NUL :: r.1, start :: r.2)
    else
      let r := scanRest flag (some c) start (i + 1) rest
      (c :: r.1, r.2)

/-- Closed form of the stage texts of a complete scan: `cur` is the text between the
stage start and the cursor. -/
def segments (flag : Nat) (prev : Option Char) (cur : List Char) :
    List Char → List (List Char)
  | [] => if cur ≠ [] then [cur] else []
  | c :: rest =>
    if c = QUOTE ∧ prev ≠ some BACKSLASH then
      segments (flag ^^^ 1) (some c) (cur ++ [c]) rest
    else if c = PIPE ∧ flag = 0 then cur :: segments flag (some NUL) [] rest
    else segments flag (some c) (cur ++ [c]) rest

/-- The number of unescaped double quotes in a text, `prev` being the character before
it (`none` at the start of the line): a double quote is unescaped when it is the first
character of the line or the character before it is not a backslash. -/
def countUnescaped : Option Char → List Char → Nat
  | _, [] => 0
  | prev, c :: cs =>
    (if c = QUOTE ∧ prev ≠ some BACKSLASH then 1 else 0) + countUnescaped (some c) cs

/-! ## Easy pipe (lines 168-246) -/

/-- The `struct EasyPipe`: the descriptors `fd[0]` (read end) and `fd[1]` (write end). -/
structure EasyPipe where
  fd0 : Int
  fd1 : Int
deriving DecidableEq

/-- The calls the shell process makes to its environment.  `spawn` stands for a
successful `fork`: a child now runs the command text with the given input and output
pipes (lines 293-306); `wait` is the `waitpid` call of the parent. -/
inductive Event where
  | close (fd : Int)
  | puts (msg : String)
  | write (fd : Int) (text : String)
  | chdir (path : List Char)
  | printf (format : String) (arg : Int)
  | spawn (cmd : List Char) (inp out : Option EasyPipe)
  | wait
deriving DecidableEq

/-- The flag `EASY_PIPE_READ` (line 173). -/
def EASY_PIPE_READ : Nat := 1

/-- The flag `EASY_PIPE_WRITE` (line 174). -/
def EASY_PIPE_WRITE : Nat := 2

/-- The function `EasyPipe_Create` (lines 182-194): `mallocOk` is the outcome of the
`malloc` call and `pipeRes` what the `pipe` call stores, `none` when it fails. -/
def EasyPipe_Create (mallocOk : Bool) (pipeRes : Option (Int × Int)) : Option EasyPipe :=
  if mallocOk = false then none
  else
    match pipeRes with
    | none => none
    | some (r, w) => some { fd0 := r, fd1 := w }

/-- The function `EasyPipe_Close` (lines 197-209): the `close` calls it makes. -/
def EasyPipe_Close (ptr : Option EasyPipe) (flag : Nat) : List Event :=
  match ptr with
  | none => []
  | some p =>
    (if flag &&& EASY_PIPE_READ ≠ 0 then [Event.close p.fd0] else []) ++
      (if flag &&& EASY_PIPE_WRITE ≠ 0 then [Event.close p.fd1] else [])

/-- The function `EasyPipe_Destroy` (lines 212-222): the `close` calls it makes.  The
release of the structure is not recorded. -/
def EasyPipe_Destroy (ptr : Option EasyPipe) : List Event :=
  match ptr with
  | none => []
  | some p => EasyPipe_Close (some p) (EASY_PIPE_READ ||| EASY_PIPE_WRITE)

/-! ## Run command utilities (lines 259-381) -/

/-- The outcomes of the system calls one stage may make: whether `chdir` returns 0, the
string `getcwd` stores (`none` when it returns `NULL`), whether the `k`-th `write` call
returns a non-negative value, whether `fork` succeeds, and the `WIFEXITED` and
`WEXITSTATUS` of the status `waitpid` stores. -/
structure StageOS where
  chdirOk : Bool
  getcwd : Option (List Char)
  writeOk : Nat → Bool
  forkOk : Bool
  wifexited : Bool
  wexitstatus : Nat

/-- The global state of the shell that the stages act on: the line buffer `cmd` that
`readline` returned, the prompt variables (lines 250-251), the two lists (lines 255-256)
and the calls made to the environment so far. -/
structure Shell where
  cmd : List Char
  g_UserHost : List Char
  g_Dir : List Char
  g_Prompt : List Char
  g_TmpDir : List Char
  g_List : Option (LinkList Nat)
  g_Pipe : Option (LinkList EasyPipe)
  trace : List Event
deriving DecidableEq

/-- The help list `gc_HelpList` (lines 261-267), without its `NULL` sentinel. -/
def gc_HelpList : List String :=
  ["======== Naive bash help list ========\n",
   "cd [path]\tChange directory\n",
   "exit\t\tExit bash\n",
   "help\t\tShow help list\n"]

/-- The library function `strtok` with the delimiter string `" "`, after the C standard:
`s` is the first argument (`none` for `NULL`) and `save` the position the previous call
kept.  The result is the token returned (`none` for `NULL`), the buffer and the position
kept for the next call; it is `none` when the scan leaves the buffer. -/
def strtok (buf : List Char) (s : Option Nat) (save : Nat) :
    Option (Option Nat × List Char × Nat) :=
  let from0 := match s with
    | some p => p
    | none => save
  let tok := from0 + ((buf.drop from0).takeWhile fun c => c = ' ').length
  match buf[tok]? with
  | none => none
  | some c =>
    if c = NUL then some (none, buf, tok)
    else
      let e := tok + ((buf.drop tok).takeWhile fun c => c ≠ ' ' ∧ c ≠ NUL).length
      match buf[e]? with
      | none => none
      | some d =>
        if d = NUL then some (some tok, buf, e)
        else some (some tok, buf.set e NUL, e + 1)

/-- The function `runExternal` (lines 270-308) as the shell process runs it: return
value and calls made. -/
def runExternal (os : StageOS) (cmd : List Char) (inp out : Option EasyPipe) :
    Int × List Event :=
  if os.forkOk = false then (-1, [Event.puts "Error: Cannot fork process"])
  else
    let ev := [Event.spawn cmd inp out] ++ EasyPipe_Close inp EASY_PIPE_READ ++
      EasyPipe_Close out EASY_PIPE_WRITE ++ [Event.wait]
    if os.wifexited = false ∨ (os.wifexited = true ∧ os.wexitstatus ≠ 0) then (-2, ev)
    else (0, ev)

/-- The loop of lines 352-356 over the help lines still to print, `k` being the number
of `write` calls made so far: whether every write succeeded, and the calls made. -/
def printHelp (os : StageOS) (fd : Int) : Nat → List String → Bool × List Event
  | _, [] => (true, [])
  | k, line :: rest =>
    if os.writeOk k = false then
      (false, [Event.write fd line, Event.puts "Error: Fail to print help list"])
    else
      let r := printHelp os fd (k + 1) rest
      (r.1, Event.write fd line :: r.2)

/-- The function `runCommand` (lines 311-379): `cmd` is the stage text as an offset into
the line buffer.  The result is the return value and the state after the call; it is
`none` when the C code dereferences `NULL`, leaves the line buffer or writes past the
end of `g_TmpDir` (1024 bytes, line 472) or `g_Prompt` (2048 bytes, line 469). -/
def runCommand (os : StageOS) (sh : Shell) (cmd : Option Nat) (inp out : Option EasyPipe) :
    Option (Int × Shell) :=
  match cmd with
  | none => none
  | some p =>
    let len := (cstr sh.cmd p).length
    match strtok sh.cmd (some p) 0 with
    | none => none
    | some (none, _, _) => none
    | some (some handle, buf1, save1) =>
      if cstr buf1 handle = ['c', 'd'] then
        match strtok buf1 none save1 with
        | none => none
        | some (none, _, _) => none
        | some (some tmp, buf2, _) =>
          let path :=
            if buf2[tmp]? = some '/' then cstr buf2 tmp
            else sh.g_Dir ++ ['/'] ++ cstr buf2 tmp
          if 1024 ≤ path.length then none
          else
            let sh1 := { sh with cmd := buf2, g_TmpDir := path,
                                 trace := sh.trace ++ [Event.chdir path] }
            if os.chdirOk then
              match os.getcwd with
              | none =>
                some (-1, { sh1 with trace := sh1.trace ++
                  [Event.puts "Error: Cannot get current working diretory"] })
              | some dir =>
                if 1024 ≤ dir.length then
                  some (-1, { sh1 with trace := sh1.trace ++
                    [Event.puts "Error: Cannot get current working diretory"] })
                else if 2048 ≤ (sh.g_UserHost ++ [':'] ++ dir ++ [' ', '>', ' ']).length then none
                else
                  some (0, { sh1 with g_Dir := dir,
                                      g_Prompt := sh.g_UserHost ++ [':'] ++ dir ++ [' ', '>', ' '] })
            else
              some (0, { sh1 with trace := sh1.trace ++
                [Event.puts "Error: Fail to change directory, please check path"] })
      else if cstr buf1 handle = ['e', 'x', 'i', 't'] then
        some (-2, { sh with cmd := buf1, trace := sh.trace ++ [Event.puts "Bye"] })
      else if cstr buf1 handle = ['h', 'e', 'l', 'p'] then
        let fd : Int := match out with
          | some o => o.fd1
          | none => 1
        let r := printHelp os fd 0 gc_HelpList
        if r.1 = false then some (-3, { sh with cmd := buf1, trace := sh.trace ++ r.2 })
        else
          some (0, { sh with cmd := buf1,
                             trace := sh.trace ++ r.2 ++ EasyPipe_Close out EASY_PIPE_WRITE })
      else
        let lst := p + (cstr buf1 p).length
        let buf2 := if lst ≠ p + len then buf1.set lst ' ' else buf1
        let r := runExternal os (cstr buf2 p) inp out
        if r.1 < 0 then
          some (1, { sh with cmd := buf2, trace := sh.trace ++ r.2 ++
            [Event.printf "Warning: Some error occurred while executing, code: %d\n" r.1] })
        else some (0, { sh with cmd := buf2, trace := sh.trace ++ r.2 })

/-! ## The main loop (lines 490-560) -/

/-- The data field of the node a pointer of a list points to; `none` when the list or
the pointer is `NULL` or the pointer is invalid. -/
def nodeData {β : Type} (ptr : Option (LinkList β)) (p : Option Nat) : Option (Option β) :=
  match ptr, p with
  | some l, some a =>
    match l.mem[a]? with
    | none => none
    | some n => some n.data
  | _, _ => none

/-- The arguments of one `runCommand` call: stage text, input pipe, output pipe. -/
abbrev Call (α β : Type) := Option α × Option β × Option β

/-- The loop of lines 538-550, from the state where `rdPipe`, `wrPipe` and the iterator
`i` have the given values and `k` stages have been run.  `run` stands for `runCommand`:
it is given the number of the stage, the state and the three arguments.  The result is
the value of `flag`, the state and the arguments of the calls made, in order. -/
def enumerate {α β σ : Type}
    (run : Nat → σ → Option α → Option β → Option β → Option (Int × σ))
    (g_List : Option (LinkList α)) (g_Pipe : Option (LinkList β)) :
    Nat → Nat → Option Nat → Option Nat → Option Nat → σ →
      Option (Int × σ × List (Call α β))
  | _, _, _, _, none, w => some (0, w, [])
  | 0, _, _, _, some _, _ => none
  | fuel + 1, k, rdPipe, wrPipe, some i, w =>
    let inp :=
      if LinkList_Size g_Pipe = 0 then some none
      else
        match LinkList_IsFirst g_Pipe wrPipe with
        | none => none
        | some f => if f ≠ 0 then some none else nodeData g_Pipe rdPipe
    let out :=
      if LinkList_Size g_Pipe = 0 then some none
      else if LinkList_IsLast g_Pipe rdPipe ≠ 0 then some none
      else nodeData g_Pipe wrPipe
    match inp, out, nodeData g_List (some i) with
    | some inp, some out, some dat =>
      match run k w dat inp out with
      | none => none
      | some (ret, w1) =>
        if ret < 0 then some (1, w1, [(dat, inp, out)])
        else if ret > 0 then some (0, w1, [(dat, inp, out)])
        else
          match LinkList_Next g_Pipe wrPipe, LinkList_Next g_List (some i) with
          | some wrNext, some iNext =>
            match enumerate run g_List g_Pipe fuel (k + 1) wrPipe wrNext iNext w1 with
            | none => none
            | some (flag, w2, calls) => some (flag, w2, (dat, inp, out) :: calls)
          | _, _ => none
    | _, _, _ => none

/-- The stage loop of `main` (lines 535-550) on the two lists.  The loop visits each
node of the stage list at most once, so more iterations than the list has nodes in
memory are never needed. -/
def runStages {α β σ : Type}
    (run : Nat → σ → Option α → Option β → Option β → Option (Int × σ))
    (g_List : Option (LinkList α)) (g_Pipe : Option (LinkList β)) (w : σ) :
    Option (Int × σ × List (Call α β)) :=
  match g_Pipe, LinkList_Begin g_Pipe, LinkList_Begin g_List with
  | some pl, some wrPipe, some i =>
    enumerate run g_List g_Pipe
      ((match g_List with
        | some l => l.mem.length
        | none => 0) + 1) 0 (some pl.head) wrPipe i w
  | _, _, _ => none

/-- The outcomes of the system calls one line may make: for the `k`-th push on the stage
list, the `k`-th pipe creation and the `k`-th push on the pipe list the outcome of
their `malloc` call, for the `k`-th pipe creation what `pipe` stores, and for the `k`-th
stage the outcomes of its calls. -/
structure LineOS where
  listAlloc : Nat → Bool
  pipeMalloc : Nat → Bool
  pipeSys : Nat → Option (Int × Int)
  pipeAlloc : Nat → Bool
  stage : Nat → StageOS

/-- The loop of lines 516-528 from the state where the counter is `i`: the value of
`flag`, the pipe list and the calls made. -/
def initPipe (os : LineOS) (lmt : Nat) :
    Nat → Nat → Option (LinkList EasyPipe) →
      Option (Int × Option (LinkList EasyPipe) × List Event)
  | 0, _, _ => none
  | fuel + 1, i, g_Pipe =>
    if i < lmt then
      match EasyPipe_Create (os.pipeMalloc (i - 1)) (os.pipeSys (i - 1)) with
      | none => some (1, g_Pipe, [Event.puts "Error: Fail to create pipe"])
      | some tmp =>
        match LinkList_Push g_Pipe (some tmp) (os.pipeAlloc (i - 1)) with
        | none => none
        | some (r, g_Pipe1) =>
          if r < 0 then some (1, g_Pipe1, [Event.puts "Error: Fail to store pipe"])
          else initPipe os lmt fuel (i + 1) g_Pipe1
    else some (0, g_Pipe, [])

/-- The clear-and-rebuild step of `main` (lines 510-528) for `lmt` stages: the return
value of the clear, the value of `flag`, the pipe list and the calls made; the deleter of
the pipe list is `EasyPipe_Destroy` (line 479).  The counter starts at 1 and grows by one
per iteration, so `lmt + 1` iterations are never used up. -/
def rebuildPipes (os : LineOS) (lmt : Nat) (g_Pipe : Option (LinkList EasyPipe)) :
    Option (Int × Int × Option (LinkList EasyPipe) × List Event) :=
  match LinkList_Clear g_Pipe with
  | none => none
  | some (rc, g_Pipe1, calls) =>
    let ev := (calls.map EasyPipe_Destroy).flatten
    if rc < 0 then some (rc, 0, g_Pipe1, ev ++ [Event.puts "Error: Fail to clear pipe buffer"])
    else
      match initPipe os lmt (lmt + 1) 1 g_Pipe1 with
      | none => none
      | some (flag, g_Pipe2, ev2) => some (rc, flag, g_Pipe2, ev ++ ev2)

/-- One iteration of the main loop (lines 491-560): `line` is what `readline` returned,
`none` for `NULL` and else the buffer with its terminator.  The result tells whether the
loop is left (`true`: `main` returns and the session ends) and gives the state. -/
def mainLoopBody (os : LineOS) (sh : Shell) (line : Option (List Char)) :
    Option (Bool × Shell) :=
  match line with
  | none => some (false, sh)
  | some cmd =>
    match cmd[0]? with
    | none => none
    | some c =>
      if c = NUL then some (false, sh)
      else
        match splitPipe os.listAlloc cmd sh.g_List with
        | none => none
        | some (r, cmd1, g_List1) =>
          let sh1 := { sh with cmd := cmd1, g_List := g_List1 }
          if r < 0 then
            some (false, { sh1 with trace := sh1.trace ++
              [Event.puts "Error: Fail to parse pipe info"] })
          else
            match rebuildPipes os (LinkList_Size g_List1) sh1.g_Pipe with
            | none => none
            | some (rc, flag, g_Pipe1, ev) =>
              let sh2 := { sh1 with g_Pipe := g_Pipe1, trace := sh1.trace ++ ev }
              if rc < 0 then some (false, sh2)
              else if flag ≠ 0 then some (false, sh2)
              else
                match runStages (fun k w dat inp out => runCommand (os.stage k) w dat inp out)
                    g_List1 g_Pipe1 sh2 with
                | none => none
                | some (flag2, sh3, _) => some (decide (flag2 ≠ 0), sh3)

/-- The endpoints the spec assigns to the stages of a pipeline (section 4.5): stage `k`
reads from the pair before it and writes to the pair after it, the first stage has no
upstream and the last no downstream. -/
def expectedCalls {α β : Type} (stages : List (Option α)) (pipes : List (Option β)) :
    List (Call α β) :=
  List.zipWith (fun s io => (s, io)) stages (List.zip (none :: pipes) (pipes ++ [none]))

/-- The stage loop as the spec describes it (sections 4.4 and 4.5): run the given calls
in order, stop after a call that returns a non-zero value, and raise the flag when that
value is negative. -/
def driveSpec {α β σ : Type}
    (run : Nat → σ → Option α → Option β → Option β → Option (Int × σ)) :
    Nat → σ → List (Call α β) → Option (Int × σ × List (Call α β))
  | _, w, [] => some (0, w, [])
  | k, w, c :: cs =>
    match run k w c.1 c.2.1 c.2.2 with
    | none => none
    | some (ret, w1) =>
      if ret < 0 then some (1, w1, [c])
      else if ret > 0 then some (0, w1, [c])
      else
        match driveSpec run (k + 1) w1 cs with
        | none => none
        | some (flag, w2, calls) => some (flag, w2, c :: calls)

/-- The list obtained from a freshly created one by a sequence of calls. -/
def listOf (deleter : Bool) (ops : List (Op α)) : LinkList α :=
  match runOps (emptyList deleter) ops with
  | some tr => finalState (emptyList deleter) tr
  | none => emptyList deleter

/-- The command word of the stage text at offset `p` of the line buffer: the token the
first `strtok` call of `runCommand` returns (line 316), `none` when there is none. -/
def commandWord (buf : List Char) (p : Nat) : Option (List Char) :=
  match strtok buf (some p) 0 with
  | some (some handle, buf1, _) => some (cstr buf1 handle)
  | _ => none

/-- The state after the given calls when each of them returns 0 (Continue); `none` when
one of them does not. -/
def afterContinue {α β σ : Type}
    (run : Nat → σ → Option α → Option β → Option β → Option (Int × σ)) :
    Nat → σ → List (Call α β) → Option σ
  | _, w, [] => some w
  | k, w, c :: cs =>
    match run k w c.1 c.2.1 c.2.2 with
    | none => none
    | some (ret, w1) => if ret = 0 then afterContinue run (k + 1) w1 cs else none

/-- Outcomes of the system calls of a stage in which every call succeeds. -/
def benignStage : StageOS :=
  { chdirOk := true
    getcwd := some ['/', 't', 'm', 'p']
    writeOk := fun _ => true
    forkOk := true
    wifexited := true
    wexitstatus := 0 }

/-- Outcomes of the system calls of a line in which every call succeeds; the `k`-th pipe
gets the descriptors `3 + 2k` and `4 + 2k`. -/
def benignOS : LineOS :=
  { listAlloc := fun _ => true
    pipeMalloc := fun _ => true
    pipeSys := fun k => some (3 + 2 * (k : Int), 4 + 2 * (k : Int))
    pipeAlloc := fun _ => true
    stage := fun _ => benignStage }

/-- A state of the shell right after the initialisation of `main` (lines 452-488), for
the user `u` on the host `h` with home directory `/home/u`. -/
def startShell : Shell :=
  { cmd := []
    g_UserHost := ['u', '@', 'h']
    g_Dir := ['/', 'h', 'o', 'm', 'e', '/', 'u']
    g_Prompt := ['u', '@', 'h', ':', '/', 'h', 'o', 'm', 'e', '/', 'u', ' ', '>', ' ']
    g_TmpDir := []
    g_List := some (emptyList false)
    g_Pipe := some (emptyList true)
    trace := [] }

/-- Outcomes of the system calls of a stage whose child exits with status 1. -/
def exitOneStage : StageOS := { benignStage with wexitstatus := 1 }

/-- Outcomes of the system calls of a line in which every call succeeds and the child of
every stage exits with status 1. -/
def exitOneOS : LineOS := { benignOS with stage := fun _ => exitOneStage }

/-- The first space-delimited token of a text, as the spec names the command word of a
stage (section 4.4): the longest run of non-space characters after the leading spaces;
empty when the text has no non-space character. -/
def firstToken (t : List Char) : List Char :=
  (t.dropWhile fun c => c = ' ').takeWhile fun c => c ≠ ' '

/-- The part of a text after its first space-delimited token. -/
def afterFirstToken (t : List Char) : List Char :=
  (t.dropWhile fun c => c = ' ').dropWhile fun c => c ≠ ' '

/-- The path a `cd` stage hands to the directory change, after the spec (section 6, path
resolution of `cd`): the argument itself when it begins with `/`, else the cached working
directory, a `/` and the argument. -/
def cdPath (dir arg : List Char) : List Char :=
  if arg.head? = some '/' then arg else dir ++ ['/'] ++ arg

/-- The number of `close` calls on the descriptor `fd` among the calls made. -/
def closeCount (fd : Int) (tr : List Event) : Nat :=
  tr.count (Event.close fd)

/-- Outcomes of the system calls of a line in which every call succeeds except the second
`pipe` call. -/
def secondPipeFailOS : LineOS :=
  { benignOS with
    pipeSys := fun k => if k = 1 then none else some (3 + 2 * (k : Int), 4 + 2 * (k : Int)) }

/-- A `cd` stage text with an argument of `n` characters `a`. -/
def longCd (n : Nat) : List Char := ['c', 'd', ' '] ++ List.replicate n 'a'

/-- The shape of every list of a run: node `k` of the chain sits at address `k`, the
chain has `maxLen` nodes after the head guard, and the two tails sit at their lengths. -/
structure Chain (l : LinkList α) : Prop where
  head_eq : l.head = 0
  mem_len : l.mem.length = l.maxLen + 1
  next_eq : ∀ k n, l.mem[k]? = some n → n.next = if k < l.maxLen then some (k + 1) else none
  curTail_eq : l.curTail = l.curLen
  maxTail_eq : l.maxTail = l.maxLen
  le : l.curLen ≤ l.maxLen

/-! ## Theorems -/

theorem chain_create (d : Bool) (l : LinkList α) (h : LinkList_Create d true true = some l) :
    Chain l ∧ l.curLen = 0 ∧ l.maxLen = 0 ∧ l.deleter = d := by
  simp [LinkList_Create, emptyList] at h
  subst h
  refine ⟨⟨rfl, rfl, ?_, rfl, rfl, le_refl _⟩, rfl, rfl, rfl⟩
  intro k n hk
  cases k with
  | zero => simp at hk; subst hk; rfl
  | succ k => simp at hk

theorem push_fail (l : LinkList α) (dat : Option α) (h : l.maxLen ≤ l.curLen) :
    LinkList_Push (some l) dat false = some (-2, some l) := by
  simp [LinkList_Push, LinkList_Extend, h]

theorem payloads_length (l : LinkList α) (hc : Chain l) : (payloads l).length = l.curLen := by
  have h1 := hc.mem_len
  have h2 := hc.le
  simp [payloads]
  omega

theorem take_succ_set {β : Type} (L : List β) (c : Nat) (x : β) (h : c < L.length) :
    (L.set c x).take (c + 1) = L.take c ++ [x] := by
  induction L generalizing c with
  | nil => simp at h
  | cons a L ih =>
    cases c with
    | zero => simp
    | succ c =>
      simp at h
      simp [ih c h]

theorem set_self_of_getElem? {β : Type} (L : List β) (i : Nat) (x : β)
    (h : L[i]? = some x) : L.set i x = L := by
  induction L generalizing i with
  | nil => simp
  | cons a L ih =>
    cases i with
    | zero => simp at h; simp [h]
    | succ i => simp at h; simp [ih i h]

theorem payloads_eq (l : LinkList α) :
    payloads l = ((l.mem.map fun n => n.data).drop 1).take l.curLen := by
  simp [payloads, List.map_take, List.map_drop]

theorem push_extend (l : LinkList α) (dat : Option α) (hc : Chain l)
    (h : l.curLen = l.maxLen) :
    ∃ l1, LinkList_Push (some l) dat true = some (0, some l1) ∧ Chain l1 ∧
      l1.curLen = l.curLen + 1 ∧ l1.maxLen = l.maxLen + 1 ∧
      l1.mem.length = l.mem.length + 1 ∧ l1.deleter = l.deleter ∧
      payloads l1 = payloads l ++ [dat] := by
  obtain ⟨h0, hlen, hnext, hct, hmt, hle⟩ := hc
  have hlt : l.maxTail < l.mem.length := by omega
  obtain ⟨t, ht⟩ : ∃ t, l.mem[l.maxTail]? = some t :=
    ⟨_, List.getElem?_eq_getElem hlt⟩
  refine ⟨{ l with
      mem := (l.mem ++ [({ data := dat, next := none } : LinkNode α)]).set l.maxTail
        { t with next := some l.mem.length }
      maxTail := l.mem.length
      maxLen := l.maxLen + 1
      curTail := l.mem.length
      curLen := l.curLen + 1 }, ?_, ?_, ?_⟩
  · simp [LinkList_Push, LinkList_Extend, h, ht]
  · refine ⟨h0, by simp [hlen], ?_, by simp [hlen, h], by simp [hlen], by simp [h]⟩
    intro k n hk
    simp only [List.getElem?_set, List.length_append, List.length_singleton] at hk
    split at hk
    · next hkk =>
      split at hk
      · simp at hk
        subst hk
        simp
        omega
      · simp at hk
    · next hkk =>
      rw [List.getElem?_append] at hk
      split at hk
      · have := hnext k n hk
        rw [this]
        have : k < l.maxLen := by omega
        simp [this]
        omega
      · have hk0 : k = l.mem.length := by
          by_contra hne
          have : 1 ≤ k - l.mem.length := by omega
          rw [List.getElem?_eq_none (by simpa using this)] at hk
          exact absurd hk (by simp)
        subst hk0
        simp at hk
        subst hk
        simp [hlen]
  · refine ⟨rfl, rfl, by simp, rfl, ?_⟩
    have hd : ((l.mem ++ [({ data := dat, next := none } : LinkNode α)]).set l.maxTail
        { t with next := some l.mem.length }).map (fun n => n.data)
        = (l.mem.map fun n => n.data) ++ [dat] := by
      rw [List.map_set, set_self_of_getElem?]
      · simp
      · have hlt1 : l.maxTail < (l.mem.map fun n => n.data).length := by simpa using hlt
        rw [List.map_append, List.getElem?_append_left hlt1]
        simp [ht]
    rw [payloads_eq, payloads_eq]
    simp only [hd]
    have hl : (l.mem.map fun n => n.data).length = l.curLen + 1 := by simp [hlen, h]
    rw [List.drop_append_eq_append_drop, List.take_append_eq_append_take]
    have e1 : (List.drop 1 (l.mem.map fun n => n.data)).length = l.curLen := by
      simp [hlen, h]
    simp only [hl, e1]
    simp
    omega

theorem push_reuse (l : LinkList α) (dat : Option α) (ok : Bool) (hc : Chain l)
    (h : l.curLen < l.maxLen) :
    ∃ l1, LinkList_Push (some l) dat ok = some (0, some l1) ∧ Chain l1 ∧
      l1.curLen = l.curLen + 1 ∧ l1.maxLen = l.maxLen ∧
      l1.mem.length = l.mem.length ∧ l1.deleter = l.deleter ∧
      payloads l1 = payloads l ++ [dat] := by
  obtain ⟨h0, hlen, hnext, hct, hmt, hle⟩ := hc
  have hlt : l.curTail < l.mem.length := by omega
  obtain ⟨c, hcn⟩ : ∃ c, l.mem[l.curTail]? = some c :=
    ⟨_, List.getElem?_eq_getElem hlt⟩
  have hcnext : c.next = some (l.curLen + 1) := by
    rw [hnext _ _ hcn, hct]
    simp [h]
  have hlt2 : l.curLen + 1 < l.mem.length := by omega
  obtain ⟨n, hn⟩ : ∃ n, l.mem[l.curLen + 1]? = some n :=
    ⟨_, List.getElem?_eq_getElem hlt2⟩
  refine ⟨{ l with
      curTail := l.curLen + 1
      mem := l.mem.set (l.curLen + 1) { n with data := dat }
      curLen := l.curLen + 1 }, ?_, ?_, ?_⟩
  · have : ¬ l.maxLen ≤ l.curLen := by omega
    simp [LinkList_Push, this, hcn, hcnext, hn]
  · refine ⟨h0, by simp [hlen], ?_, rfl, hmt, by simp; omega⟩
    intro k m hk
    simp only [List.getElem?_set] at hk
    split at hk
    · next hkk =>
      subst hkk
      simp [hlt2] at hk
      subst hk
      simpa using hnext _ _ hn
    · exact hnext k m hk
  · refine ⟨rfl, rfl, by simp, rfl, ?_⟩
    rw [payloads_eq, payloads_eq]
    simp only [List.map_set, List.drop_set]
    have : ¬ l.curLen + 1 < 1 := by omega
    simp only [this, if_false, Nat.add_sub_cancel]
    rw [take_succ_set]
    simp [hlen]
    omega

theorem push_total (l : LinkList α) (dat : Option α) (ok : Bool) (hc : Chain l) :
    ∃ r l1, LinkList_Push (some l) dat ok = some (r, some l1) ∧ Chain l1 ∧
      l1.deleter = l.deleter ∧
      ((r = 0 ∧ l1.curLen = l.curLen + 1 ∧ payloads l1 = payloads l ++ [dat] ∧
          ((l.curLen < l.maxLen ∧ l1.maxLen = l.maxLen ∧ l1.mem.length = l.mem.length) ∨
           (l.curLen = l.maxLen ∧ ok = true ∧ l1.maxLen = l.maxLen + 1 ∧
              l1.mem.length = l.mem.length + 1))) ∨
       (r = -2 ∧ l1 = l ∧ ok = false ∧ l.curLen = l.maxLen)) := by
  rcases Nat.lt_or_ge l.curLen l.maxLen with h | h
  · obtain ⟨l1, e, c1, a1, a2, a3, a4, a5⟩ := push_reuse l dat ok hc h
    exact ⟨0, l1, e, c1, a4, Or.inl ⟨rfl, a1, a5, Or.inl ⟨h, a2, a3⟩⟩⟩
  · have heq : l.curLen = l.maxLen := le_antisymm hc.le h
    cases ok with
    | true =>
      obtain ⟨l1, e, c1, a1, a2, a3, a4, a5⟩ := push_extend l dat hc heq
      exact ⟨0, l1, e, c1, a4, Or.inl ⟨rfl, a1, a5, Or.inr ⟨heq, rfl, a2, a3⟩⟩⟩
    | false =>
      exact ⟨-2, l, push_fail l dat h, hc, rfl, Or.inr ⟨rfl, rfl, rfl, heq⟩⟩

theorem walk_chain (l : LinkList α) (hc : Chain l) :
    ∀ (fuel p : Nat), p ≤ l.curLen → l.curLen + 1 - p ≤ fuel →
      LinkList_walk l fuel (some p) =
        some ((List.range' p (l.curLen + 1 - p)).map fun k =>
          (k, (l.mem[k]?).bind fun n => n.data)) := by
  intro fuel
  induction fuel with
  | zero => intro p h1 h2; omega
  | succ fuel ih =>
    intro p h1 h2
    have hlt : p < l.mem.length := by have := hc.mem_len; have := hc.le; omega
    obtain ⟨n, hn⟩ : ∃ n, l.mem[p]? = some n := ⟨_, List.getElem?_eq_getElem hlt⟩
    have hsplit : l.curLen + 1 - p = (l.curLen - p) + 1 := by omega
    rcases Nat.eq_or_lt_of_le h1 with heq | hlt2
    · subst heq
      simp [LinkList_walk, hn, LinkList_Next, hc.curTail_eq, List.range']
    · have hne : ¬ l.curTail = p := by rw [hc.curTail_eq]; omega
      have hnx : n.next = some (p + 1) := by
        rw [hc.next_eq _ _ hn]
        have : p < l.maxLen := by have := hc.le; omega
        simp [this]
      have e : l.curLen + 1 - (p + 1) = l.curLen - p := by omega
      have := ih (p + 1) (by omega) (by omega)
      rw [LinkList_walk]
      simp only [hn, LinkList_Next, hne, if_false, hnx, this, hsplit, List.range', e,
        List.map_cons]
      simp [hn]

theorem range_map_payloads (l : LinkList α) (hc : Chain l) :
    ((List.range' 1 l.curLen).map fun k => (l.mem[k]?).bind fun n => n.data) = payloads l := by
  apply List.ext_getElem?
  intro i
  have h1 := hc.mem_len
  have h2 := hc.le
  simp only [payloads, List.getElem?_map, List.getElem?_take, List.getElem?_drop,
    List.getElem?_range']
  by_cases hi : i < l.curLen
  · have hlt : 1 + i < l.mem.length := by omega
    simp [hi, List.getElem?_eq_getElem hlt]
  · simp [hi]
    omega

theorem iterate_chain (l : LinkList α) (hc : Chain l) :
    LinkList_iterate (some l) =
      some ((List.range' 1 l.curLen).map fun k => (k, (l.mem[k]?).bind fun n => n.data)) := by
  by_cases h0 : l.curLen = 0
  · simp [LinkList_iterate, LinkList_Begin, h0, LinkList_walk]
  · have hlt : 0 < l.mem.length := by have := hc.mem_len; omega
    obtain ⟨n, hn⟩ : ∃ n, l.mem[0]? = some n := ⟨_, List.getElem?_eq_getElem hlt⟩
    have hnx : n.next = some 1 := by
      rw [hc.next_eq _ _ hn]
      have : 0 < l.maxLen := by have := hc.le; omega
      simp [this]
    have hw := walk_chain l hc (l.mem.length + 1) 1 (by omega)
      (by have := hc.mem_len; have := hc.le; omega)
    simp only [LinkList_iterate, LinkList_Begin, h0, if_false, hc.head_eq, hn, hnx, hw]
    simp

theorem iterate_payloads (l : LinkList α) (hc : Chain l) :
    (LinkList_iterate (some l)).map (fun v => v.map Prod.snd) = some (payloads l) := by
  rw [iterate_chain l hc]
  simp only [Option.map_some', List.map_map]
  rw [← range_map_payloads l hc]
  rfl

theorem clear_chain (l : LinkList α) (hc : Chain l) :
    LinkList_Clear (some l) =
        some (0, some { l with curTail := l.head, curLen := 0 },
          if l.deleter then payloads l else []) ∧
      Chain { l with curTail := l.head, curLen := 0 } := by
  constructor
  · have h := iterate_payloads l hc
    cases hi : LinkList_iterate (some l) with
    | none => rw [hi] at h; simp at h
    | some v =>
      rw [hi] at h
      simp at h
      cases hd : l.deleter <;> simp [LinkList_Clear, hd, hi, h]
  · exact ⟨hc.head_eq, hc.mem_len, hc.next_eq, hc.head_eq, hc.maxTail_eq, Nat.zero_le _⟩

theorem applyOp_chain (l : LinkList α) (hc : Chain l) (o : Op α) :
    ∃ r l1, applyOp l o = some (r, l1) ∧ Chain l1 ∧ l1.deleter = l.deleter ∧
      payloads l1 = pushedSinceClear [(o, r)] (payloads l) ∧
      l1.maxLen = max l.maxLen l1.curLen ∧
      (r = 0 ∨ ∃ dat, o = Op.push dat false) := by
  cases o with
  | push dat ok =>
    obtain ⟨r, l1, e, c1, hd, h⟩ := push_total l dat ok hc
    refine ⟨r, l1, by simp [applyOp, e], c1, hd, ?_, ?_, ?_⟩
    · rcases h with ⟨hr, -, hp, -⟩ | ⟨hr, hl, -, -⟩
      · simp [pushedSinceClear, hr, hp]
      · subst hl
        simp [pushedSinceClear, hr]
    · have := hc.le
      rcases h with ⟨-, h1, -, ⟨h2, h3, -⟩ | ⟨h2, -, h3, -⟩⟩ | ⟨-, hl, -, -⟩
      · omega
      · omega
      · subst hl
        omega
    · rcases h with ⟨hr, -⟩ | ⟨-, -, hok, -⟩
      · exact Or.inl hr
      · subst hok
        exact Or.inr ⟨dat, rfl⟩
  | clear =>
    obtain ⟨e, c1⟩ := clear_chain l hc
    refine ⟨0, _, by simp [applyOp, e], c1, rfl, ?_, ?_, Or.inl rfl⟩
    · simp [pushedSinceClear, payloads]
    · simp

theorem runOps_chain (ops : List (Op α)) :
    ∀ l : LinkList α, Chain l →
      ∃ tr, runOps l ops = some tr ∧ tr.length = ops.length ∧
        Chain (finalState l tr) ∧ (finalState l tr).deleter = l.deleter ∧
        payloads (finalState l tr) =
          pushedSinceClear (ops.zip (tr.map Prod.fst)) (payloads l) ∧
        (finalState l tr).maxLen = max l.maxLen (peakLen l tr) ∧
        (∀ x ∈ tr, Chain x.2) ∧
        ((∀ dat, Op.push dat false ∉ ops) → ∀ x ∈ tr, x.1 = 0) := by
  induction ops with
  | nil =>
    intro l hc
    have := hc.le
    exact ⟨[], rfl, rfl, hc, rfl, rfl, by simp [finalState, peakLen]; omega, by simp, by simp⟩
  | cons o os ih =>
    intro l hc
    obtain ⟨r, l1, e, c1, hd, hp, hm, hr⟩ := applyOp_chain l hc o
    obtain ⟨tr, e2, hl, c2, hd2, hp2, hm2, hall, hok⟩ := ih l1 c1
    refine ⟨(r, l1) :: tr, by simp [runOps, e, e2], by simp [hl], c2, by rw [← hd]; exact hd2,
      ?_, ?_, ?_, ?_⟩
    · simp only [finalState, List.map_cons, List.zip_cons_cons]
      rw [hp2, hp]
      cases o <;> simp [pushedSinceClear]
    · simp only [finalState, peakLen]
      rw [hm2, hm]
      have h1 : l1.curLen ≤ peakLen l1 tr := by
        cases tr <;> simp [peakLen]
      have := hc.le
      omega
    · intro x hx
      rcases List.mem_cons.1 hx with hx | hx
      · subst hx
        exact c1
      · exact hall x hx
    · intro hno x hx
      rcases List.mem_cons.1 hx with hx | hx
      · subst hx
        rcases hr with hr | ⟨dat, hr⟩
        · exact hr
        · exact absurd (by simp [hr]) (hno dat)
      · exact hok (fun dat hm => hno dat (List.mem_cons_of_mem _ hm)) x hx

theorem nthAfter_chain (l : LinkList α) (hc : Chain l) :
    ∀ (k p : Nat), p + k ≤ l.maxLen → nthAfter l p k = some (p + k) := by
  intro k
  induction k with
  | zero => intro p _; rfl
  | succ k ih =>
    intro p h
    have hlt : p < l.mem.length := by have := hc.mem_len; omega
    obtain ⟨n, hn⟩ : ∃ n, l.mem[p]? = some n := ⟨_, List.getElem?_eq_getElem hlt⟩
    have hnx : n.next = some (p + 1) := by
      rw [hc.next_eq _ _ hn]
      have : p < l.maxLen := by omega
      simp [this]
    simp only [nthAfter, hn, hnx]
    rw [ih (p + 1) (by omega)]
    congr 1
    omega

theorem reachable_chain (l : LinkList α) (h : Reachable l) : Chain l := by
  obtain ⟨d, l0, ops, tr, hcr, hrun, hfin⟩ := h
  obtain ⟨tr1, e, -, c, -⟩ := runOps_chain ops l0 (chain_create d l0 hcr).1
  rw [hrun] at e
  cases e
  rw [← hfin]
  exact c

/-! ### The scan of `splitPipe` -/

theorem set_mid (pre rest : List Char) (c x : Char) :
    (pre ++ c :: rest).set pre.length x = pre ++ x :: rest := by
  induction pre with
  | nil => simp
  | cons a pre ih => simp [ih]

theorem getElem?_mid (pre rest : List Char) (c : Char) :
    (pre ++ c :: rest)[pre.length]? = some c := by
  rw [List.getElem?_append_right (le_refl _)]
  simp

theorem prev_char (pre rest : List Char) :
    (pre.length = 0 ∨ (pre ++ rest)[pre.length - 1]? ≠ some BACKSLASH) ↔
      pre.getLast? ≠ some BACKSLASH := by
  rcases List.eq_nil_or_concat pre with h | ⟨L, b, h⟩
  · subst h
    simp
  · rw [List.concat_eq_append] at h
    subst h
    have h1 : (L ++ [b] ++ rest)[L.length]? = some b := by
      rw [List.append_assoc]
      exact getElem?_mid L _ b
    have h2 : (L ++ [b]).length - 1 = L.length := by simp
    have h3 : ¬ (L ++ [b]).length = 0 := by simp
    rw [h2, h1, List.getLast?_concat]
    simp [h3]

theorem scan_spec (rest : List Char) :
    ∀ (fuel : Nat) (alloc : Nat → Bool) (pre : List Char) (flag start : Nat)
      (l : LinkList Nat), Chain l → NUL ∉ rest → rest.length < fuel →
      ∃ ret buf l1,
        splitPipe_scan fuel alloc (pre ++ (rest ++ [NUL])) flag start pre.length (some l) =
          some (ret, buf, some l1) ∧ Chain l1 ∧ l1.deleter = l.deleter ∧
        ((ret = 0 ∧
            buf = pre ++ ((scanRest flag pre.getLast? start pre.length rest).1 ++ [NUL]) ∧
            payloads l1 = payloads l ++
              (scanRest flag pre.getLast? start pre.length rest).2.map some) ∨
          (ret = -2 ∧ (∃ n, alloc n = false) ∧
            ∃ k m, buf = pre ++ ((scanRest flag pre.getLast? start pre.length rest).1.take k ++
                (rest.drop k ++ [NUL])) ∧
              payloads l1 = payloads l ++
                ((scanRest flag pre.getLast? start pre.length rest).2.take m).map some)) := by
  induction rest with
  | nil =>
    intro fuel alloc pre flag start l hc hn hf
    obtain ⟨fuel, rfl⟩ : ∃ f, fuel = f + 1 := ⟨fuel - 1, by simp at hf; omega⟩
    have hget : (pre ++ ([] ++ [NUL]))[pre.length]? = some NUL := getElem?_mid pre [] NUL
    rw [splitPipe_scan]
    simp only [hget, if_true]
    by_cases hs : start = pre.length
    · refine ⟨0, pre ++ ([] ++ [NUL]), l, by simp [hs], hc, rfl, Or.inl ⟨rfl, ?_, ?_⟩⟩
      · simp [scanRest]
      · simp [scanRest, hs]
    · obtain ⟨r, l1, e, c1, hd, h⟩ := push_total l (some start) (alloc 0) hc
      simp only [ne_eq, hs, not_false_eq_true, if_true, e]
      rcases h with ⟨hr, -, hp, -⟩ | ⟨hr, hl, hok, -⟩
      · subst hr
        refine ⟨0, pre ++ ([] ++ [NUL]), l1, by simp, c1, hd, Or.inl ⟨rfl, ?_, ?_⟩⟩
        · simp [scanRest]
        · simp [scanRest, hs, hp]
      · subst hr
        subst hl
        refine ⟨-2, pre ++ ([] ++ [NUL]), l1, by simp, c1, hd,
          Or.inr ⟨rfl, ⟨0, hok⟩, 0, 0, ?_, ?_⟩⟩
        · simp [scanRest]
        · simp
  | cons c rest ih =>
    intro fuel alloc pre flag start l hc hn hf
    obtain ⟨fuel, rfl⟩ : ∃ f, fuel = f + 1 := ⟨fuel - 1, by simp at hf; omega⟩
    have hcn : c ≠ NUL := fun h => hn (by simp [h])
    have hn1 : NUL ∉ rest := fun h => hn (List.mem_cons_of_mem _ h)
    have hf1 : rest.length < fuel := by simp at hf; omega
    have hbuf : pre ++ (c :: rest ++ [NUL]) = pre ++ (c :: (rest ++ [NUL])) := rfl
    have hget : (pre ++ (c :: (rest ++ [NUL])))[pre.length]? = some c := getElem?_mid pre _ c
    have hprev := prev_char pre (c :: (rest ++ [NUL]))
    have hpre1 : ∀ x : Char, pre ++ (x :: (rest ++ [NUL])) = (pre ++ [x]) ++ (rest ++ [NUL]) := by
      intro x; simp
    have hlen1 : ∀ x : Char, pre.length + 1 = (pre ++ [x]).length := by intro x; simp
    rw [hbuf, splitPipe_scan]
    simp only [hget, hcn, if_false, hprev]
    by_cases hq : c = QUOTE ∧ pre.getLast? ≠ some BACKSLASH
    · rw [if_pos hq, hpre1 c, hlen1 c]
      obtain ⟨ret, buf, l1, e, c1, hd, h⟩ :=
        ih fuel alloc (pre ++ [c]) (flag ^^^ 1) start l hc hn1 hf1
      refine ⟨ret, buf, l1, e, c1, hd, ?_⟩
      have hsr : scanRest flag pre.getLast? start pre.length (c :: rest) =
          (c :: (scanRest (flag ^^^ 1) (some c) start (pre.length + 1) rest).1,
            (scanRest (flag ^^^ 1) (some c) start (pre.length + 1) rest).2) := by
        rw [scanRest, if_pos hq]
      simp only [List.getLast?_concat, List.length_append, List.length_singleton] at h
      rw [hsr]
      rcases h with ⟨h1, h2, h3⟩ | ⟨h1, h2, k, m, h3, h4⟩
      · exact Or.inl ⟨h1, by simp [h2], h3⟩
      · exact Or.inr ⟨h1, h2, k + 1, m, by simp [h3], h4⟩
    · rw [if_neg hq]
      by_cases hp : c = PIPE ∧ flag = 0
      · rw [if_pos hp]
        have hsr : scanRest flag pre.getLast? start pre.length (c :: rest) =
            (NUL :: (scanRest flag (some NUL) (pre.length + 1) (pre.length + 1) rest).1,
              start :: (scanRest flag (some NUL) (pre.length + 1) (pre.length + 1) rest).2) := by
          rw [scanRest, if_neg hq, if_pos hp]
        have hset : (pre ++ (c :: (rest ++ [NUL]))).set pre.length NUL =
            (pre ++ [NUL]) ++ (rest ++ [NUL]) := by
          rw [set_mid]
          simp
        obtain ⟨r, l1, e, c1, hd, h⟩ := push_total l (some start) (alloc 0) hc
        rw [e]
        simp only [hset]
        rcases h with ⟨hr, -, hpl, -⟩ | ⟨hr, hl, hok, -⟩
        · subst hr
          simp only [lt_self_iff_false, if_false]
          rw [hlen1 NUL]
          obtain ⟨ret, buf, l2, e2, c2, hd2, h2⟩ :=
            ih fuel (fun k => alloc (k + 1)) (pre ++ [NUL]) flag (pre ++ [NUL]).length l1 c1 hn1 hf1
          refine ⟨ret, buf, l2, e2, c2, by rw [hd2, hd], ?_⟩
          simp only [List.getLast?_concat, List.length_append, List.length_singleton] at h2
          rw [hsr]
          rcases h2 with ⟨h1, h2, h3⟩ | ⟨h1, ⟨n, hn2⟩, k, m, h3, h4⟩
          · exact Or.inl ⟨h1, by simp [h2], by simp [h3, hpl]⟩
          · exact Or.inr ⟨h1, ⟨n + 1, hn2⟩, k + 1, m + 1, by simp [h3], by simp [h4, hpl]⟩
        · subst hr
          subst hl
          refine ⟨-2, pre ++ [NUL] ++ (rest ++ [NUL]), l1, by simp, c1, hd,
            Or.inr ⟨rfl, ⟨0, hok⟩, 1, 0, ?_, by simp⟩⟩
          rw [hsr]
          simp
      · rw [if_neg hp, hpre1 c, hlen1 c]
        obtain ⟨ret, buf, l1, e, c1, hd, h⟩ :=
          ih fuel alloc (pre ++ [c]) flag start l hc hn1 hf1
        refine ⟨ret, buf, l1, e, c1, hd, ?_⟩
        have hsr : scanRest flag pre.getLast? start pre.length (c :: rest) =
            (c :: (scanRest flag (some c) start (pre.length + 1) rest).1,
              (scanRest flag (some c) start (pre.length + 1) rest).2) := by
          rw [scanRest, if_neg hq, if_neg hp]
        simp only [List.getLast?_concat, List.length_append, List.length_singleton] at h
        rw [hsr]
        rcases h with ⟨h1, h2, h3⟩ | ⟨h1, h2, k, m, h3, h4⟩
        · exact Or.inl ⟨h1, by simp [h2], h3⟩
        · exact Or.inr ⟨h1, h2, k + 1, m, by simp [h3], h4⟩

theorem cstr_mid (pre0 cur t : List Char) (h : NUL ∉ cur) :
    cstr (pre0 ++ (cur ++ NUL :: t)) pre0.length = cur := by
  rw [cstr, List.drop_left]
  induction cur with
  | nil => simp [List.takeWhile]
  | cons a cur ih =>
    have ha : a ≠ NUL := fun e => h (by simp [e])
    have hc : NUL ∉ cur := fun e => h (List.mem_cons_of_mem _ e)
    have := ih hc
    simp only [List.cons_append, List.takeWhile_cons, ha, ne_eq, not_false_eq_true,
      decide_True, if_true, this]

theorem scanRest_texts (rest : List Char) :
    ∀ (flag : Nat) (prev : Option Char) (pre0 cur : List Char), NUL ∉ cur → NUL ∉ rest →
      (scanRest flag prev pre0.length (pre0.length + cur.length) rest).2.map
          (cstr (pre0 ++ (cur ++
            ((scanRest flag prev pre0.length (pre0.length + cur.length) rest).1 ++ [NUL])))) =
        segments flag prev cur rest := by
  induction rest with
  | nil =>
    intro flag prev pre0 cur hcur _
    by_cases h : cur = []
    · subst h
      simp [scanRest, segments]
    · have hl : ¬ pre0.length = pre0.length + cur.length := by
        have : cur.length ≠ 0 := fun e => h (List.length_eq_zero.1 e)
        omega
      simp only [scanRest, ne_eq, hl, not_false_eq_true, if_true, segments, h, List.map_cons,
        List.map_nil, List.nil_append]
      rw [cstr_mid pre0 cur [] hcur]
  | cons c rest ih =>
    intro flag prev pre0 cur hcur hn
    have hcn : c ≠ NUL := fun h => hn (by simp [h])
    have hn1 : NUL ∉ rest := fun h => hn (List.mem_cons_of_mem _ h)
    have hcur1 : NUL ∉ cur ++ [c] := by
      intro h
      rcases List.mem_append.1 h with h | h
      · exact hcur h
      · simp at h
        exact hcn h.symm
    have hlen : pre0.length + cur.length + 1 = pre0.length + (cur ++ [c]).length := by
      simp; omega
    have hassoc : ∀ t : List Char, pre0 ++ (cur ++ (c :: t)) = pre0 ++ ((cur ++ [c]) ++ t) := by
      intro t; simp
    by_cases hq : c = QUOTE ∧ prev ≠ some BACKSLASH
    · rw [scanRest, if_pos hq, segments, if_pos hq]
      simp only
      rw [List.cons_append, hassoc, hlen]
      exact ih _ _ pre0 (cur ++ [c]) hcur1 hn1
    · by_cases hp : c = PIPE ∧ flag = 0
      · rw [scanRest, if_neg hq, if_pos hp, segments, if_neg hq, if_pos hp]
        simp only [List.map_cons, List.cons_append]
        rw [cstr_mid pre0 cur _ hcur]
        congr 1
        have h1 : pre0.length + cur.length + 1 = (pre0 ++ (cur ++ [NUL])).length + ([] : List Char).length := by
          simp; omega
        have h2 : pre0.length + cur.length + 1 = (pre0 ++ (cur ++ [NUL])).length := by
          simp; omega
        have h3 : ∀ t : List Char, pre0 ++ (cur ++ NUL :: t) = (pre0 ++ (cur ++ [NUL])) ++ ([] ++ t) := by
          intro t; simp
        rw [h3]
        have := ih flag (some NUL) (pre0 ++ (cur ++ [NUL])) [] (by simp) hn1
        rw [← h2] at this
        simpa using this
      · rw [scanRest, if_neg hq, if_neg hp, segments, if_neg hq, if_neg hp]
        simp only
        rw [List.cons_append, hassoc, hlen]
        exact ih _ _ pre0 (cur ++ [c]) hcur1 hn1

theorem mapM_payload (f : Nat → List Char) :
    ∀ (visits : List (Nat × Option Nat)) (ps : List Nat),
      visits.map Prod.snd = ps.map some →
      visits.mapM (fun v => v.2.map f) = some (ps.map f) := by
  intro visits
  induction visits with
  | nil =>
    intro ps h
    cases ps with
    | nil => rfl
    | cons p ps => simp at h
  | cons v visits ih =>
    intro ps h
    cases ps with
    | nil => simp at h
    | cons p ps =>
      simp only [List.map_cons, List.cons.injEq] at h
      rw [List.mapM_cons, ih ps h.2, h.1]
      rfl

theorem stagesOf_payloads (buf : List Char) (l : LinkList Nat) (hc : Chain l) (ps : List Nat)
    (h : payloads l = ps.map some) : stagesOf buf (some l) = some (ps.map (cstr buf)) := by
  have hi := iterate_payloads l hc
  cases hv : LinkList_iterate (some l) with
  | none => rw [hv] at hi; simp at hi
  | some visits =>
    rw [hv] at hi
    simp only [Option.map_some', Option.some.injEq] at hi
    rw [stagesOf, hv]
    exact mapM_payload _ visits ps (by rw [hi, h])

theorem splitPipe_spec (alloc : Nat → Bool) (line : List Char) (l : LinkList Nat)
    (hc : Chain l) (hn : NUL ∉ line) :
    ∃ ret buf l1, splitPipe alloc (line ++ [NUL]) (some l) = some (ret, buf, some l1) ∧
      Chain l1 ∧ l1.deleter = l.deleter ∧
      ((ret = 0 ∧ buf = (scanRest 0 none 0 0 line).1 ++ [NUL] ∧
          payloads l1 = (scanRest 0 none 0 0 line).2.map some ∧
          stagesOf buf (some l1) = some (segments 0 none [] line)) ∨
        (ret = -2 ∧ (∃ n, alloc n = false) ∧
          ∃ k m, buf = (scanRest 0 none 0 0 line).1.take k ++ (line.drop k ++ [NUL]) ∧
            payloads l1 = ((scanRest 0 none 0 0 line).2.take m).map some)) := by
  obtain ⟨e0, c0⟩ := clear_chain l hc
  obtain ⟨ret, buf, l1, e, c1, hd, h⟩ :=
    scan_spec line (line.length + 1 + 1) alloc [] 0 0 _ c0 hn (by omega)
  have hp0 : payloads { l with curTail := l.head, curLen := 0 } = [] := by simp [payloads]
  simp only [List.nil_append, List.getLast?_nil, List.length_nil, hp0] at e h
  refine ⟨ret, buf, l1, ?_, c1, hd, ?_⟩
  · rw [splitPipe, e0]
    simpa using e
  · rcases h with ⟨h1, h2, h3⟩ | ⟨h1, h2, k, m, h3, h4⟩
    · refine Or.inl ⟨h1, h2, h3, ?_⟩
      rw [stagesOf_payloads buf l1 c1 _ h3, h2]
      have := scanRest_texts line 0 none [] [] (by simp) hn
      simpa using this
    · exact Or.inr ⟨h1, h2, k, m, h3, h4⟩

theorem segments_splitOn (rest : List Char) :
    ∀ (prev : Option Char) (cur : List Char), QUOTE ∉ rest → cur ++ rest ≠ [] →
      (∀ t, cur ++ rest ≠ t ++ [PIPE]) →
      segments 0 prev cur rest = List.modifyHead (fun x => cur ++ x) (rest.splitOn PIPE) := by
  induction rest with
  | nil =>
    intro prev cur _ hne _
    have : cur ≠ [] := by simpa using hne
    simp [segments, this, List.splitOn, List.modifyHead]
  | cons c rest ih =>
    intro prev cur hq hne hlast
    have hcq : ¬ (c = QUOTE ∧ prev ≠ some BACKSLASH) := fun h => hq (by simp [h.1])
    have hq1 : QUOTE ∉ rest := fun h => hq (List.mem_cons_of_mem _ h)
    rw [segments, if_neg hcq]
    by_cases hp : c = PIPE
    · subst hp
      have hr : rest ≠ [] := by
        intro h
        subst h
        exact hlast cur rfl
      have hl1 : ∀ t, [] ++ rest ≠ t ++ [PIPE] := by
        intro t h
        apply hlast (cur ++ PIPE :: t)
        simp only [List.nil_append] at h
        rw [h]
        simp
      have := ih (some NUL) [] hq1 (by simpa using hr) hl1
      simp only [and_self, if_true, this]
      simp [List.splitOn, List.splitOnP_cons, List.modifyHead]
      cases List.splitOnP (fun x => x == PIPE) rest <;> rfl
    · have hl1 : ∀ t, (cur ++ [c]) ++ rest ≠ t ++ [PIPE] := by
        intro t h
        apply hlast t
        rw [← h]
        simp
      have := ih (some c) (cur ++ [c]) hq1 (by simp) hl1
      simp only [hp, false_and, if_false, this]
      simp [List.splitOn, List.splitOnP_cons, hp, List.modifyHead_modifyHead]
      congr 1

theorem scanRest_length (rest : List Char) :
    ∀ (flag : Nat) (prev : Option Char) (start i : Nat),
      (scanRest flag prev start i rest).1.length = rest.length := by
  induction rest with
  | nil => intro _ _ _ _; rfl
  | cons c rest ih =>
    intro flag prev start i
    rw [scanRest]
    split
    · simp [ih]
    · split <;> simp [ih]

theorem scanRest_bound (rest : List Char) :
    ∀ (flag : Nat) (prev : Option Char) (start i : Nat), start ≤ i →
      ∀ p ∈ (scanRest flag prev start i rest).2, p < i + rest.length := by
  induction rest with
  | nil =>
    intro flag prev start i hle p hp
    simp only [scanRest] at hp
    split at hp
    · simp at hp
      subst hp
      simp
      omega
    · simp at hp
  | cons c rest ih =>
    intro flag prev start i hle p hp
    rw [scanRest] at hp
    simp only [List.length_cons]
    split at hp
    · have := ih _ _ start (i + 1) (by omega) p hp
      omega
    · split at hp
      · rcases List.mem_cons.1 hp with h | h
        · omega
        · have := ih _ _ (i + 1) (i + 1) (le_refl _) p h
          omega
      · have := ih _ _ start (i + 1) (by omega) p hp
        omega

theorem xor_one_parity (flag x : Nat) (h : flag < 2) :
    ((flag ^^^ 1) + x) % 2 = (flag + (1 + x)) % 2 ∧ flag ^^^ 1 < 2 := by
  have : flag = 0 ∨ flag = 1 := by omega
  rcases this with h0 | h0 <;> subst h0 <;> simp
  omega

theorem scanRest_char (rest : List Char) :
    ∀ (flag : Nat) (prev prevO : Option Char) (start i j : Nat), flag < 2 →
      (prev = some BACKSLASH ↔ prevO = some BACKSLASH) → rest[j]? = some PIPE →
      (scanRest flag prev start i rest).1[j]? =
        some (if (flag + countUnescaped prevO (rest.take j)) % 2 = 1 then PIPE else NUL) := by
  induction rest with
  | nil => intro _ _ _ _ _ j _ _ h; simp at h
  | cons c rest ih =>
    intro flag prev prevO start i j hf hprev hj
    have hpq : PIPE ≠ QUOTE := by decide
    have hpb : (some PIPE = some BACKSLASH ↔ some NUL = some BACKSLASH) := by decide
    have hflag : flag = 0 ∨ flag = 1 := by omega
    cases j with
    | zero =>
      simp only [List.getElem?_cons_zero, Option.some.injEq] at hj
      subst hj
      rw [scanRest]
      simp only [hpq, false_and, if_false, true_and, List.take_zero, countUnescaped, Nat.add_zero]
      rcases hflag with h0 | h0 <;> subst h0 <;> simp
    | succ j =>
      simp only [List.getElem?_cons_succ] at hj
      rw [scanRest]
      simp only [List.take_succ_cons, countUnescaped]
      have hcond : (c = QUOTE ∧ prevO ≠ some BACKSLASH) ↔ (c = QUOTE ∧ prev ≠ some BACKSLASH) := by
        rw [ne_eq, ne_eq, hprev]
      by_cases hq : c = QUOTE ∧ prev ≠ some BACKSLASH
      · have hcnt : (if c = QUOTE ∧ prevO ≠ some BACKSLASH then 1 else 0) = 1 :=
          if_pos (hcond.2 hq)
        rw [if_pos hq]
        simp only [List.getElem?_cons_succ, hcnt]
        obtain ⟨hx, hlt⟩ := xor_one_parity flag (countUnescaped (some c) (List.take j rest)) hf
        rw [ih (flag ^^^ 1) (some c) (some c) start (i + 1) j hlt Iff.rfl hj]
        simp only [hx]
      · have hcnt : (if c = QUOTE ∧ prevO ≠ some BACKSLASH then 1 else 0) = 0 :=
          if_neg (fun h => hq (hcond.1 h))
        rw [if_neg hq]
        simp only [hcnt, Nat.zero_add]
        by_cases hp : c = PIPE ∧ flag = 0
        · rw [if_pos hp]
          simp only [List.getElem?_cons_succ]
          rw [ih flag (some NUL) (some c) (i + 1) (i + 1) j hf (by rw [hp.1]; exact hpb.symm) hj]
        · rw [if_neg hp]
          simp only [List.getElem?_cons_succ]
          rw [ih flag (some c) (some c) start (i + 1) j hf Iff.rfl hj]

theorem scanRest_cur (rest : List Char) :
    ∀ (flag : Nat) (prev : Option Char) (pre0 cur : List Char), cur ≠ [] → NUL ∉ cur →
      NUL ∉ rest →
      pre0.length ∈ (scanRest flag prev pre0.length (pre0.length + cur.length) rest).2 ∧
      cur.length ≤ (cstr (pre0 ++ (cur ++
        ((scanRest flag prev pre0.length (pre0.length + cur.length) rest).1 ++ [NUL])))
          pre0.length).length := by
  induction rest with
  | nil =>
    intro flag prev pre0 cur hne hcur _
    have hl : ¬ pre0.length = pre0.length + cur.length := by
      have : cur.length ≠ 0 := fun e => hne (List.length_eq_zero.1 e)
      omega
    simp only [scanRest, ne_eq, hl, not_false_eq_true, if_true, List.nil_append,
      List.mem_singleton, true_and]
    rw [cstr_mid pre0 cur [] hcur]
  | cons c rest ih =>
    intro flag prev pre0 cur hne hcur hn
    have hcn : c ≠ NUL := fun h => hn (by simp [h])
    have hn1 : NUL ∉ rest := fun h => hn (List.mem_cons_of_mem _ h)
    have hcur1 : NUL ∉ cur ++ [c] := by
      intro h
      rcases List.mem_append.1 h with h | h
      · exact hcur h
      · simp at h
        exact hcn h.symm
    have hlen : pre0.length + cur.length + 1 = pre0.length + (cur ++ [c]).length := by
      simp; omega
    have hassoc : ∀ t : List Char, pre0 ++ (cur ++ (c :: t)) = pre0 ++ ((cur ++ [c]) ++ t) := by
      intro t; simp
    have hstep : ∀ f q,
        pre0.length ∈ (scanRest f q pre0.length (pre0.length + cur.length + 1) rest).2 ∧
        cur.length ≤ (cstr (pre0 ++ (cur ++ (c ::
          ((scanRest f q pre0.length (pre0.length + cur.length + 1) rest).1 ++ [NUL]))))
            pre0.length).length := by
      intro f q
      rw [hassoc, hlen]
      have := ih f q pre0 (cur ++ [c]) (by simp) hcur1 hn1
      refine ⟨this.1, le_trans ?_ this.2⟩
      simp
    by_cases hq : c = QUOTE ∧ prev ≠ some BACKSLASH
    · rw [scanRest, if_pos hq]
      exact hstep _ _
    · by_cases hp : c = PIPE ∧ flag = 0
      · rw [scanRest, if_neg hq, if_pos hp]
        simp only [List.mem_cons, true_or, List.cons_append, true_and]
        rw [cstr_mid pre0 cur _ hcur]
      · rw [scanRest, if_neg hq, if_neg hp]
        exact hstep _ _

theorem scanRest_inside (rest : List Char) :
    ∀ (flag : Nat) (prev prevO : Option Char) (pre0 cur : List Char) (j : Nat), flag < 2 →
      (prev = some BACKSLASH ↔ prevO = some BACKSLASH) → NUL ∉ cur → NUL ∉ rest →
      rest[j]? = some PIPE → (flag + countUnescaped prevO (rest.take j)) % 2 = 1 →
      ∃ p ∈ (scanRest flag prev pre0.length (pre0.length + cur.length) rest).2,
        p ≤ pre0.length + cur.length + j ∧
        pre0.length + cur.length + j < p + (cstr (pre0 ++ (cur ++
          ((scanRest flag prev pre0.length (pre0.length + cur.length) rest).1 ++ [NUL])))
            p).length := by
  induction rest with
  | nil => intro _ _ _ _ _ j _ _ _ _ h; simp at h
  | cons c rest ih =>
    intro flag prev prevO pre0 cur j hf hprev hcur hn hj hodd
    have hcn : c ≠ NUL := fun h => hn (by simp [h])
    have hn1 : NUL ∉ rest := fun h => hn (List.mem_cons_of_mem _ h)
    have hcur1 : NUL ∉ cur ++ [c] := by
      intro h
      rcases List.mem_append.1 h with h | h
      · exact hcur h
      · simp at h
        exact hcn h.symm
    have hlen : pre0.length + cur.length + 1 = pre0.length + (cur ++ [c]).length := by
      simp; omega
    have hassoc : ∀ t : List Char, pre0 ++ (cur ++ (c :: t)) = pre0 ++ ((cur ++ [c]) ++ t) := by
      intro t; simp
    have hpq : PIPE ≠ QUOTE := by decide
    have hpb : (some NUL = some BACKSLASH ↔ some PIPE = some BACKSLASH) := by decide
    cases j with
    | zero =>
      simp only [List.getElem?_cons_zero, Option.some.injEq] at hj
      subst hj
      simp only [List.take_zero, countUnescaped, Nat.add_zero] at hodd
      have hf1 : flag = 1 := by omega
      have hq : ¬ (PIPE = QUOTE ∧ prev ≠ some BACKSLASH) := fun h => hpq h.1
      have hp : ¬ (PIPE = PIPE ∧ flag = 0) := fun h => by omega
      rw [scanRest, if_neg hq, if_neg hp]
      simp only [List.cons_append]
      rw [hassoc, hlen]
      obtain ⟨h1, h2⟩ := scanRest_cur rest flag (some PIPE) pre0 (cur ++ [PIPE]) (by simp) hcur1 hn1
      refine ⟨pre0.length, h1, by omega, ?_⟩
      simp only [List.length_append, List.length_singleton] at h2 ⊢
      omega
    | succ j =>
      simp only [List.getElem?_cons_succ] at hj
      simp only [List.take_succ_cons, countUnescaped] at hodd
      have hcond : (c = QUOTE ∧ prevO ≠ some BACKSLASH) ↔ (c = QUOTE ∧ prev ≠ some BACKSLASH) := by
        rw [ne_eq, ne_eq, hprev]
      have hstep : ∀ f, f < 2 → (f + countUnescaped (some c) (rest.take j)) % 2 = 1 →
          ∃ p ∈ (scanRest f (some c) pre0.length (pre0.length + cur.length + 1) rest).2,
            p ≤ pre0.length + cur.length + (j + 1) ∧
            pre0.length + cur.length + (j + 1) < p + (cstr (pre0 ++ (cur ++ (c ::
              ((scanRest f (some c) pre0.length (pre0.length + cur.length + 1) rest).1 ++
                [NUL])))) p).length := by
        intro f hf2 hodd2
        rw [hassoc, hlen]
        obtain ⟨p, hp1, hp2, hp3⟩ :=
          ih f (some c) (some c) pre0 (cur ++ [c]) j hf2 Iff.rfl hcur1 hn1 hj hodd2
        refine ⟨p, hp1, ?_, ?_⟩
        · simp only [List.length_append, List.length_singleton] at hp2
          omega
        · simp only [List.length_append, List.length_singleton] at hp3 ⊢
          omega
      by_cases hq : c = QUOTE ∧ prev ≠ some BACKSLASH
      · have hcnt : (if c = QUOTE ∧ prevO ≠ some BACKSLASH then 1 else 0) = 1 :=
          if_pos (hcond.2 hq)
        simp only [hcnt] at hodd
        obtain ⟨hx, hlt⟩ := xor_one_parity flag (countUnescaped (some c) (List.take j rest)) hf
        rw [scanRest, if_pos hq]
        exact hstep (flag ^^^ 1) hlt (by rw [hx]; exact hodd)
      · have hcnt : (if c = QUOTE ∧ prevO ≠ some BACKSLASH then 1 else 0) = 0 :=
          if_neg (fun h => hq (hcond.1 h))
        simp only [hcnt, Nat.zero_add] at hodd
        by_cases hp : c = PIPE ∧ flag = 0
        · rw [scanRest, if_neg hq, if_pos hp]
          have h2 : pre0.length + cur.length + 1 = (pre0 ++ (cur ++ [NUL])).length := by
            simp; omega
          have h3 : ∀ t : List Char,
              pre0 ++ (cur ++ NUL :: t) = (pre0 ++ (cur ++ [NUL])) ++ ([] ++ t) := by
            intro t; simp
          obtain ⟨p, hp1, hp2, hp3⟩ :=
            ih flag (some NUL) (some c) (pre0 ++ (cur ++ [NUL])) [] j hf
              (by rw [hp.1]; exact hpb) (by simp) hn1 hj hodd
          simp only [List.length_nil, Nat.add_zero] at hp1 hp2 hp3
          rw [← h2] at hp1 hp2 hp3
          refine ⟨p, List.mem_cons_of_mem _ hp1, by omega, ?_⟩
          simp only [List.cons_append]
          rw [h3]
          omega
        · rw [scanRest, if_neg hq, if_neg hp]
          exact hstep flag hf hodd

theorem segments_single (s : List Char) :
    ∀ (prev : Option Char) (cur : List Char), PIPE ∉ s → QUOTE ∉ s →
      segments 0 prev cur (s ++ [PIPE]) = [cur ++ s] := by
  induction s with
  | nil =>
    intro prev cur _ _
    have hpq : PIPE ≠ QUOTE := by decide
    simp [segments, hpq]
  | cons c s ih =>
    intro prev cur hp hq
    have h1 : c ≠ PIPE := fun h => hp (by simp [h])
    have h2 : c ≠ QUOTE := fun h => hq (by simp [h])
    have hp1 : PIPE ∉ s := fun h => hp (List.mem_cons_of_mem _ h)
    have hq1 : QUOTE ∉ s := fun h => hq (List.mem_cons_of_mem _ h)
    rw [List.cons_append, segments]
    simp only [h1, h2, false_and, if_false]
    rw [ih _ _ hp1 hq1]
    simp

theorem partial_buffer (b line : List Char) (k i : Nat) (x : Char)
    (hlen : b.length = line.length) (hb : b[i]? = some x) (hl : (line)[i]? = some x) :
    (b.take k ++ (line.drop k ++ [NUL]))[i]? = some x := by
  have hi : i < line.length := by
    rcases List.getElem?_eq_some.1 hl with ⟨h, -⟩
    exact h
  by_cases hk : i < k
  · rw [List.getElem?_append_left (by simp; omega), List.getElem?_take, if_pos hk, hb]
  · rw [List.getElem?_append_right (by simp; omega)]
    have e1 : (List.take k b).length = k := by simp; omega
    rw [e1, List.getElem?_append_left (by simp; omega), List.getElem?_drop]
    rw [show k + (i - k) = i by omega, hl]

theorem iterate_values (l : LinkList Nat) (hc : Chain l) :
    ∃ visits, LinkList_iterate (some l) = some visits ∧ visits.map Prod.snd = payloads l := by
  have hi := iterate_payloads l hc
  cases hv : LinkList_iterate (some l) with
  | none => rw [hv] at hi; simp at hi
  | some visits =>
    rw [hv] at hi
    simp only [Option.map_some', Option.some.injEq] at hi
    exact ⟨visits, rfl, hi⟩

/-! ### The stage loop -/

theorem chain_node {β : Type} (l : LinkList β) (hc : Chain l) (a : Nat) (ha : a ≤ l.maxLen) :
    ∃ n, l.mem[a]? = some n ∧ n.next = if a < l.maxLen then some (a + 1) else none := by
  have hlt : a < l.mem.length := by have := hc.mem_len; omega
  obtain ⟨n, hn⟩ : ∃ n, l.mem[a]? = some n := ⟨_, List.getElem?_eq_getElem hlt⟩
  exact ⟨n, hn, hc.next_eq _ _ hn⟩

theorem payloads_getElem? {β : Type} (l : LinkList β) (k : Nat)
    (hk : k < l.curLen) (n : LinkNode β) (hn : l.mem[k + 1]? = some n) :
    (payloads l)[k]? = some n.data := by
  simp only [payloads, List.getElem?_map, List.getElem?_take, hk, if_true, List.getElem?_drop]
  rw [Nat.add_comm 1 k, hn]
  rfl

theorem drop_of_getElem? {γ : Type} (l : List γ) (k : Nat) (x : γ) (h : l[k]? = some x) :
    l.drop k = x :: l.drop (k + 1) := by
  obtain ⟨hlt, hx⟩ := List.getElem?_eq_some.1 h
  rw [List.drop_eq_getElem_cons hlt, hx]

theorem expectedCalls_getElem? {α β : Type} (stages : List (Option α))
    (pipes : List (Option β)) (k : Nat) (s : Option α) (hs : stages[k]? = some s)
    (hlen : stages.length = pipes.length + 1) :
    (expectedCalls stages pipes)[k]? =
      some (s, (if k = 0 then none else (pipes[k - 1]?).join),
        (if k = pipes.length then none else (pipes[k]?).join)) := by
  have hk : k < stages.length := (List.getElem?_eq_some.1 hs).1
  have h1 : (none :: pipes)[k]? = some (if k = 0 then none else (pipes[k - 1]?).join) := by
    cases k with
    | zero => simp
    | succ k =>
      have : k < pipes.length := by omega
      simp [List.getElem?_eq_getElem this]
  have h2 : (pipes ++ [none])[k]? = some (if k = pipes.length then none else (pipes[k]?).join) := by
    by_cases hkp : k = pipes.length
    · subst hkp
      simp
    · have : k < pipes.length := by omega
      rw [List.getElem?_append_left this]
      simp [hkp, List.getElem?_eq_getElem this]
  have h3 : (List.zip (none :: pipes) (pipes ++ [none]))[k]? =
      some ((if k = 0 then none else (pipes[k - 1]?).join),
        (if k = pipes.length then none else (pipes[k]?).join)) :=
    List.getElem?_zip_eq_some.2 ⟨h1, h2⟩
  rw [expectedCalls, List.getElem?_zipWith, hs, h3]

theorem enumerate_step {α β σ : Type}
    (run : Nat → σ → Option α → Option β → Option β → Option (Int × σ))
    (lS : LinkList α) (lP : LinkList β) (hS : Chain lS) (hP : Chain lP)
    (hN : lS.curLen = lP.curLen + 1) (k fuel : Nat) (w : σ) (hk : k < lS.curLen)
    (c : Call α β) (hc : (expectedCalls (payloads lS) (payloads lP))[k]? = some c) :
    enumerate run (some lS) (some lP) (fuel + 1) k (some k)
        (if k + 1 ≤ lP.curLen then some (k + 1) else none) (some (k + 1)) w =
      match run k w c.1 c.2.1 c.2.2 with
      | none => none
      | some (ret, w1) =>
        if ret < 0 then some (1, w1, [c])
        else if ret > 0 then some (0, w1, [c])
        else
          match enumerate run (some lS) (some lP) fuel (k + 1)
              (if k + 1 ≤ lP.curLen then some (k + 1) else none)
              (if k + 2 ≤ lP.curLen then some (k + 2) else none)
              (if k + 1 < lS.curLen then some (k + 2) else none) w1 with
          | none => none
          | some (flag, w2, calls) => some (flag, w2, c :: calls) := by
  have hSle := hS.le
  have hPle := hP.le
  obtain ⟨nS, hnS, hnSx⟩ := chain_node lS hS (k + 1) (by omega)
  obtain ⟨nR, hnR, hnRx⟩ := chain_node lP hP k (by omega)
  obtain ⟨n0, hn0, hn0x⟩ := chain_node lP hP 0 (by omega)
  have hlenS : (payloads lS).length = (payloads lP).length + 1 := by
    rw [payloads_length lS hS, payloads_length lP hP, hN]
  have hsk := payloads_getElem? lS k hk nS hnS
  have hE := expectedCalls_getElem? (payloads lS) (payloads lP) k nS.data hsk hlenS
  rw [hE] at hc
  simp only [Option.some.injEq] at hc
  rw [payloads_length lP hP] at hc
  have hdat : nodeData (some lS) (some (k + 1)) = some nS.data := by simp [nodeData, hnS]
  -- the input endpoint
  have hinp : (if LinkList_Size (some lP) = 0 then some none
      else
        match LinkList_IsFirst (some lP) (if k + 1 ≤ lP.curLen then some (k + 1) else none) with
        | none => none
        | some f => if f ≠ 0 then some none else nodeData (some lP) (some k)) =
      some (if k = 0 then none else ((payloads lP)[k - 1]?).join) := by
    by_cases hM : lP.curLen = 0
    · have : k = 0 := by omega
      simp [LinkList_Size, hM, this]
    · simp only [LinkList_Size, hM, if_false, LinkList_IsFirst, hP.head_eq, hn0]
      have h0lt : 0 < lP.maxLen := by omega
      rw [hn0x, if_pos h0lt]
      by_cases hk0 : k = 0
      · subst hk0
        have : 0 + 1 ≤ lP.curLen := by omega
        simp [this]
      · have hne : (if k + 1 ≤ lP.curLen then some (k + 1) else none) ≠ some (0 + 1) := by
          split
          · simp; omega
          · simp
        have hpk := payloads_getElem? lP (k - 1) (by omega) nR (by rw [← hnR]; congr 1; omega)
        simp [hne, hk0, nodeData, hnR, hpk]
  -- the output endpoint
  have hout : (if LinkList_Size (some lP) = 0 then some none
      else if LinkList_IsLast (some lP) (some k) ≠ 0 then some none
      else nodeData (some lP) (if k + 1 ≤ lP.curLen then some (k + 1) else none)) =
      some (if k = lP.curLen then none else ((payloads lP)[k]?).join) := by
    by_cases hM : lP.curLen = 0
    · have : k = lP.curLen := by omega
      simp [LinkList_Size, hM, this]
    · simp only [LinkList_Size, hM, if_false, LinkList_IsLast, hP.curTail_eq]
      by_cases hkM : k = lP.curLen
      · simp [hkM]
      · have hlt : k + 1 ≤ lP.curLen := by omega
        obtain ⟨nW, hnW, -⟩ := chain_node lP hP (k + 1) (by omega)
        have hpk := payloads_getElem? lP k (by omega) nW hnW
        simp [hkM, hlt, nodeData, hnW, hpk]
  -- the next iterators
  have hwr : LinkList_Next (some lP) (if k + 1 ≤ lP.curLen then some (k + 1) else none) =
      some (if k + 2 ≤ lP.curLen then some (k + 2) else none) := by
    by_cases hlt : k + 1 ≤ lP.curLen
    · obtain ⟨nW, hnW, hnWx⟩ := chain_node lP hP (k + 1) (by omega)
      simp only [hlt, if_true, LinkList_Next, hP.curTail_eq, hnW, hnWx]
      by_cases he : lP.curLen = k + 1
      · have : ¬ k + 2 ≤ lP.curLen := by omega
        simp [he]
      · have h1 : k + 2 ≤ lP.curLen := by omega
        have h2 : k + 1 < lP.maxLen := by omega
        simp [he, h1, h2]
    · have : ¬ k + 2 ≤ lP.curLen := by omega
      simp [hlt, this, LinkList_Next]
  have hit : LinkList_Next (some lS) (some (k + 1)) =
      some (if k + 1 < lS.curLen then some (k + 2) else none) := by
    simp only [LinkList_Next, hS.curTail_eq, hnS, hnSx]
    by_cases he : lS.curLen = k + 1
    · have : ¬ k + 1 < lS.curLen := by omega
      simp [he]
    · have h1 : k + 1 < lS.curLen := by omega
      have h2 : k + 1 < lS.maxLen := by omega
      simp [he, h1, h2]
  rw [enumerate]
  simp only [hinp, hout, hdat, hwr, hit]
  rw [← hc]


theorem expectedCalls_length {α β : Type} (stages : List (Option α))
    (pipes : List (Option β)) (hlen : stages.length = pipes.length + 1) :
    (expectedCalls stages pipes : List (Call α β)).length = stages.length := by
  simp [expectedCalls, hlen]

theorem enumerate_spec {α β σ : Type}
    (run : Nat → σ → Option α → Option β → Option β → Option (Int × σ))
    (lS : LinkList α) (lP : LinkList β) (hS : Chain lS) (hP : Chain lP)
    (hN : lS.curLen = lP.curLen + 1) :
    ∀ (n k fuel : Nat) (w : σ), k + n + 1 = lS.curLen → n < fuel →
      enumerate run (some lS) (some lP) fuel k (some k)
          (if k + 1 ≤ lP.curLen then some (k + 1) else none) (some (k + 1)) w =
        driveSpec run k w ((expectedCalls (payloads lS) (payloads lP)).drop k) := by
  have hlenS : (payloads lS).length = (payloads lP).length + 1 := by
    rw [payloads_length lS hS, payloads_length lP hP, hN]
  have hElen := expectedCalls_length (payloads lS) (payloads lP) hlenS
  rw [payloads_length lS hS] at hElen
  intro n
  induction n with
  | zero =>
    intro k fuel w hk hf
    obtain ⟨fuel, rfl⟩ : ∃ f, fuel = f + 1 := ⟨fuel - 1, by omega⟩
    obtain ⟨c, hc⟩ : ∃ c, (expectedCalls (payloads lS) (payloads lP))[k]? = some c :=
      ⟨_, List.getElem?_eq_getElem (by omega)⟩
    rw [enumerate_step run lS lP hS hP hN k fuel w (by omega) c hc, drop_of_getElem? _ k c hc,
      driveSpec]
    have h1 : ¬ k + 1 < lS.curLen := by omega
    have h2 : List.drop (k + 1) (expectedCalls (payloads lS) (payloads lP)) = [] :=
      List.drop_eq_nil_of_le (by omega)
    simp only [h1, if_false, h2, driveSpec]
    cases hr : run k w c.1 c.2.1 c.2.2 with
    | none => rfl
    | some r => simp [enumerate]
  | succ n ih =>
    intro k fuel w hk hf
    obtain ⟨fuel, rfl⟩ : ∃ f, fuel = f + 1 := ⟨fuel - 1, by omega⟩
    obtain ⟨c, hc⟩ : ∃ c, (expectedCalls (payloads lS) (payloads lP))[k]? = some c :=
      ⟨_, List.getElem?_eq_getElem (by omega)⟩
    rw [enumerate_step run lS lP hS hP hN k fuel w (by omega) c hc, drop_of_getElem? _ k c hc,
      driveSpec]
    have h1 : k + 1 < lS.curLen := by omega
    have h2 : k + 1 ≤ lP.curLen := by omega
    simp only [h1, h2, if_true]
    cases hr : run k w c.1 c.2.1 c.2.2 with
    | none => rfl
    | some r =>
      have := ih (k + 1) fuel r.2 (by omega) (by omega)
      simp only [this]

theorem runStages_spec {α β σ : Type}
    (run : Nat → σ → Option α → Option β → Option β → Option (Int × σ))
    (lS : LinkList α) (lP : LinkList β) (hS : Chain lS) (hP : Chain lP)
    (hN : lS.curLen = lP.curLen + 1) (w : σ) :
    runStages run (some lS) (some lP) w =
      driveSpec run 0 w (expectedCalls (payloads lS) (payloads lP)) := by
  have hSle := hS.le
  have hPle := hP.le
  obtain ⟨n0, hn0, hn0x⟩ := chain_node lP hP 0 (by omega)
  obtain ⟨m0, hm0, hm0x⟩ := chain_node lS hS 0 (by omega)
  have hbS : LinkList_Begin (some lS) = some (some (0 + 1)) := by
    have h1 : ¬ lS.curLen = 0 := by omega
    have h2 : 0 < lS.maxLen := by omega
    simp [LinkList_Begin, h1, hS.head_eq, hm0, hm0x, h2]
  have hbP : LinkList_Begin (some lP) = some (if 0 + 1 ≤ lP.curLen then some (0 + 1) else none) := by
    by_cases hM : lP.curLen = 0
    · simp [LinkList_Begin, hM]
    · have h1 : 0 + 1 ≤ lP.curLen := by omega
      have h2 : 0 < lP.maxLen := by omega
      simp only [LinkList_Begin, hM, if_false, hP.head_eq, hn0, hn0x, h2, if_true, h1]
  have := enumerate_spec run lS lP hS hP hN (lS.curLen - 1) 0 (lS.mem.length + 1) w (by omega)
    (by have := hS.mem_len; omega)
  unfold runStages
  simp only [hbS, hbP, hP.head_eq]
  rw [this]
  rfl

theorem reachable_listOf (deleter : Bool) (ops : List (Op α)) :
    Reachable (listOf deleter ops) := by
  obtain ⟨tr, e, -⟩ := runOps_chain ops (emptyList deleter)
    (chain_create deleter (emptyList deleter) rfl).1
  exact ⟨deleter, emptyList deleter, ops, tr, rfl, e, by simp [listOf, e]⟩

/-! ### The pipe fabric -/

theorem initPipe_chain (os : LineOS) (lmt : Nat) :
    ∀ (fuel i : Nat) (l : LinkList EasyPipe), Chain l → lmt - i < fuel →
      ∃ flag l1 ev, initPipe os lmt fuel i (some l) = some (flag, some l1, ev) ∧ Chain l1 ∧
        l1.deleter = l.deleter ∧
        ((flag = 0 ∧ ev = [] ∧ l1.curLen = l.curLen + (lmt - i) ∧
            payloads l1 = payloads l ++ (List.range' i (lmt - i)).map fun j =>
              EasyPipe_Create (os.pipeMalloc (j - 1)) (os.pipeSys (j - 1))) ∨
          (flag = 1 ∧ l.curLen ≤ l1.curLen ∧
            ∃ j, os.pipeMalloc j = false ∨ os.pipeSys j = none ∨ os.pipeAlloc j = false)) := by
  intro fuel
  induction fuel with
  | zero => intro i l _ h; omega
  | succ fuel ih =>
    intro i l hc hf
    rw [initPipe]
    by_cases hi : i < lmt
    · rw [if_pos hi]
      cases hcr : EasyPipe_Create (os.pipeMalloc (i - 1)) (os.pipeSys (i - 1)) with
      | none =>
        refine ⟨1, l, _, rfl, hc, rfl, Or.inr ⟨rfl, le_refl _, i - 1, ?_⟩⟩
        simp only [EasyPipe_Create] at hcr
        by_cases hm : os.pipeMalloc (i - 1) = false
        · exact Or.inl hm
        · rw [if_neg hm] at hcr
          cases hs : os.pipeSys (i - 1) with
          | none => exact Or.inr (Or.inl rfl)
          | some v => rw [hs] at hcr; simp at hcr
      | some tmp =>
        obtain ⟨r, l1, e, c1, hd, h⟩ := push_total l (some tmp) (os.pipeAlloc (i - 1)) hc
        simp only [e]
        rcases h with ⟨hr, hlen, hp, -⟩ | ⟨hr, hl, hok, -⟩
        · subst hr
          simp only [lt_self_iff_false, if_false]
          obtain ⟨flag, l2, ev, e2, c2, hd2, h2⟩ := ih (i + 1) l1 c1 (by omega)
          refine ⟨flag, l2, ev, e2, c2, by rw [hd2, hd], ?_⟩
          rcases h2 with ⟨hf0, hev, hl2, hp2⟩ | ⟨hf1, hle, hj⟩
          · refine Or.inl ⟨hf0, hev, by omega, ?_⟩
            rw [hp2, hp]
            have hsplit : lmt - i = (lmt - (i + 1)) + 1 := by omega
            rw [hsplit, List.range'_succ]
            simp [hcr]
          · exact Or.inr ⟨hf1, by omega, hj⟩
        · subst hr
          subst hl
          exact ⟨1, l1, [Event.puts "Error: Fail to store pipe"], by simp, c1, hd,
            Or.inr ⟨rfl, le_refl _, i - 1, Or.inr (Or.inr hok)⟩⟩
    · rw [if_neg hi]
      have : lmt - i = 0 := by omega
      exact ⟨0, l, [], rfl, hc, rfl, Or.inl ⟨rfl, rfl, by omega, by simp [this]⟩⟩

theorem rebuildPipes_chain (os : LineOS) (lmt : Nat) (l : LinkList EasyPipe) (hc : Chain l) :
    ∃ flag l1 ev, rebuildPipes os lmt (some l) = some (0, flag, some l1, ev) ∧ Chain l1 ∧
      l1.deleter = l.deleter ∧
      ((flag = 0 ∧ l1.curLen = lmt - 1 ∧
          ev = ((if l.deleter then payloads l else []).map EasyPipe_Destroy).flatten ∧
          payloads l1 = (List.range' 1 (lmt - 1)).map fun j =>
            EasyPipe_Create (os.pipeMalloc (j - 1)) (os.pipeSys (j - 1))) ∨
        (flag = 1 ∧
          ∃ j, os.pipeMalloc j = false ∨ os.pipeSys j = none ∨ os.pipeAlloc j = false)) := by
  obtain ⟨e0, c0⟩ := clear_chain l hc
  obtain ⟨flag, l1, ev, e, c1, hd, h⟩ :=
    initPipe_chain os lmt (lmt + 1) 1 _ c0 (by omega)
  have hp0 : payloads { l with curTail := l.head, curLen := 0 } = [] := by simp [payloads]
  refine ⟨flag, l1, ((if l.deleter then payloads l else []).map EasyPipe_Destroy).flatten ++ ev,
    by simp [rebuildPipes, e0, e], c1, hd, ?_⟩
  rcases h with ⟨hf0, hev, hl, hp⟩ | ⟨hf1, -, hj⟩
  · refine Or.inl ⟨hf0, by simpa using hl, by simp [hev], ?_⟩
    rw [hp, hp0]
    simp
  · exact Or.inr ⟨hf1, hj⟩

theorem driveSpec_stop {α β σ : Type}
    (run : Nat → σ → Option α → Option β → Option β → Option (Int × σ)) :
    ∀ (k : Nat) (E : List (Call α β)) (k0 : Nat) (w wk w1 : σ) (c : Call α β) (ret : Int),
      afterContinue run k0 w (E.take k) = some wk → E[k]? = some c →
      run (k0 + k) wk c.1 c.2.1 c.2.2 = some (ret, w1) → ret < 0 →
      driveSpec run k0 w E = some (1, w1, E.take (k + 1)) := by
  intro k
  induction k with
  | zero =>
    intro E k0 w wk w1 c ret hcont hc hrun hret
    cases E with
    | nil => simp at hc
    | cons c0 cs =>
      simp only [List.getElem?_cons_zero, Option.some.injEq] at hc
      subst hc
      simp only [List.take_zero, afterContinue, Option.some.injEq] at hcont
      subst hcont
      simp only [Nat.add_zero] at hrun
      simp [driveSpec, hrun, hret]
  | succ k ih =>
    intro E k0 w wk w1 c ret hcont hc hrun hret
    cases E with
    | nil => simp at hc
    | cons c0 cs =>
      simp only [List.getElem?_cons_succ] at hc
      simp only [List.take_succ_cons, afterContinue] at hcont
      cases hr0 : run k0 w c0.1 c0.2.1 c0.2.2 with
      | none => rw [hr0] at hcont; simp at hcont
      | some r0 =>
        obtain ⟨r, w0⟩ := r0
        rw [hr0] at hcont
        simp only at hcont
        by_cases hz : r = 0
        · subst hz
          simp only [if_true] at hcont
          have := ih cs (k0 + 1) w0 wk w1 c ret hcont hc
            (by rw [show k0 + 1 + k = k0 + (k + 1) by omega]; exact hrun) hret
          simp [driveSpec, hr0, this]
        · rw [if_neg hz] at hcont
          simp at hcont

theorem runCommand_exit (os : StageOS) (sh : Shell) (p : Nat) (inp out : Option EasyPipe)
    (h : commandWord sh.cmd p = some ['e', 'x', 'i', 't']) :
    ∃ buf1, runCommand os sh (some p) inp out =
      some (-2, { sh with cmd := buf1, trace := sh.trace ++ [Event.puts "Bye"] }) := by
  simp only [commandWord] at h
  cases hs : strtok sh.cmd (some p) 0 with
  | none => rw [hs] at h; simp at h
  | some r =>
    obtain ⟨handle, buf1, save⟩ := r
    rw [hs] at h
    cases handle with
    | none => simp at h
    | some hd =>
      simp only [Option.some.injEq] at h
      refine ⟨buf1, ?_⟩
      simp only [runCommand, hs, h]
      simp

theorem scanRest_nonempty (rest : List Char) :
    ∀ (flag : Nat) (prev : Option Char) (start i : Nat), rest ≠ [] → start ≤ i →
      (scanRest flag prev start i rest).2 ≠ [] := by
  induction rest with
  | nil => intro _ _ _ _ h; exact absurd rfl h
  | cons c rest ih =>
    intro flag prev start i _ hle
    have key : ∀ (f : Nat) (pv : Option Char), (scanRest f pv start (i + 1) rest).2 ≠ [] := by
      intro f pv
      cases rest with
      | nil =>
        have : start ≠ i + 1 := by omega
        simp [scanRest, this]
      | cons d r => exact ih f pv start (i + 1) (by simp) (by omega)
    unfold scanRest
    split_ifs
    · exact key _ _
    · simp
    · exact key _ _

/-- The stage loop stops after a call that returns a non-zero value; the flag tells
whether the value was negative. -/
theorem driveSpec_halt {α β σ : Type}
    (run : Nat → σ → Option α → Option β → Option β → Option (Int × σ)) :
    ∀ (k : Nat) (E : List (Call α β)) (k0 : Nat) (w wk w1 : σ) (c : Call α β) (ret : Int),
      afterContinue run k0 w (E.take k) = some wk → E[k]? = some c →
      run (k0 + k) wk c.1 c.2.1 c.2.2 = some (ret, w1) → 0 < ret →
      driveSpec run k0 w E = some (0, w1, E.take (k + 1)) := by
  intro k
  induction k with
  | zero =>
    intro E k0 w wk w1 c ret hcont hc hrun hret
    cases E with
    | nil => simp at hc
    | cons c0 cs =>
      simp only [List.getElem?_cons_zero, Option.some.injEq] at hc
      subst hc
      simp only [List.take_zero, afterContinue, Option.some.injEq] at hcont
      subst hcont
      simp only [Nat.add_zero] at hrun
      have h1 : ¬ ret < 0 := by omega
      simp [driveSpec, hrun, hret, h1]
  | succ k ih =>
    intro E k0 w wk w1 c ret hcont hc hrun hret
    cases E with
    | nil => simp at hc
    | cons c0 cs =>
      simp only [List.getElem?_cons_succ] at hc
      simp only [List.take_succ_cons, afterContinue] at hcont
      cases hr0 : run k0 w c0.1 c0.2.1 c0.2.2 with
      | none => rw [hr0] at hcont; simp at hcont
      | some r0 =>
        obtain ⟨r, w0⟩ := r0
        rw [hr0] at hcont
        simp only at hcont
        by_cases hz : r = 0
        · subst hz
          simp only [if_true] at hcont
          have := ih cs (k0 + 1) w0 wk w1 c ret hcont hc
            (by rw [show k0 + 1 + k = k0 + (k + 1) by omega]; exact hrun) hret
          simp [driveSpec, hr0, this]
        · rw [if_neg hz] at hcont
          simp at hcont

/-- One iteration of the main loop on a line that is split and whose fabric is built: the
two lists have the shape of the lists of a run, there is one pipe less than stages, and
the iteration is the stage loop of the spec. -/
theorem mainLoopBody_stages (os : LineOS) (sh : Shell) (line cmd1 : List Char)
    (gl lS : LinkList Nat) (gp lP : LinkList EasyPipe) (ev : List Event)
    (hgl : sh.g_List = some gl) (hgp : sh.g_Pipe = some gp) (hRl : Reachable gl)
    (hRp : Reachable gp) (hne : line ≠ []) (hnul : NUL ∉ line)
    (hsplit : splitPipe os.listAlloc (line ++ [NUL]) sh.g_List = some (0, cmd1, some lS))
    (hbuild : rebuildPipes os (LinkList_Size (some lS)) sh.g_Pipe = some (0, 0, some lP, ev)) :
    Chain lS ∧ Chain lP ∧ lS.curLen = lP.curLen + 1 ∧
      runStages (fun j w dat inp out => runCommand (os.stage j) w dat inp out) (some lS)
          (some lP)
          { sh with cmd := cmd1, g_List := some lS, g_Pipe := some lP,
                    trace := sh.trace ++ ev } =
        driveSpec (fun j w dat inp out => runCommand (os.stage j) w dat inp out) 0
          { sh with cmd := cmd1, g_List := some lS, g_Pipe := some lP,
                    trace := sh.trace ++ ev }
          (expectedCalls (payloads lS) (payloads lP)) ∧
      mainLoopBody os sh (some (line ++ [NUL])) =
        (driveSpec (fun j w dat inp out => runCommand (os.stage j) w dat inp out) 0
          { sh with cmd := cmd1, g_List := some lS, g_Pipe := some lP,
                    trace := sh.trace ++ ev }
          (expectedCalls (payloads lS) (payloads lP))).map
          fun r => (decide (r.1 ≠ 0), r.2.1) := by
  obtain ⟨ret, buf, l0, e, c0, -, h0⟩ :=
    splitPipe_spec os.listAlloc line gl (reachable_chain gl hRl) hnul
  rw [hgl] at hsplit
  rw [hsplit] at e
  simp only [Option.some.injEq, Prod.mk.injEq] at e
  obtain ⟨hret, -, hl0⟩ := e
  subst hl0
  have cS : Chain lS := c0
  have hpos : 1 ≤ lS.curLen := by
    rcases h0 with ⟨-, -, hp, -⟩ | ⟨h2, -⟩
    · have hlen := congrArg List.length hp
      rw [payloads_length lS cS, List.length_map] at hlen
      have := scanRest_nonempty line 0 none 0 0 hne (le_refl 0)
      have : 0 < (scanRest 0 none 0 0 line).2.length := List.length_pos.2 this
      omega
    · rw [← hret] at h2
      exact absurd h2 (by decide)
  obtain ⟨flag, l1, ev1, e, c1, -, h⟩ :=
    rebuildPipes_chain os (LinkList_Size (some lS)) gp (reachable_chain gp hRp)
  rw [hgp] at hbuild
  rw [hbuild] at e
  simp only [Option.some.injEq, Prod.mk.injEq] at e
  obtain ⟨-, hflag, hl1, -⟩ := e
  subst hl1
  have hM : lP.curLen = lS.curLen - 1 := by
    rcases h with ⟨-, hl, -⟩ | ⟨hf1, -⟩
    · simpa [LinkList_Size] using hl
    · rw [← hflag] at hf1
      exact absurd hf1 (by decide)
  have hN : lS.curLen = lP.curLen + 1 := by omega
  have hstages := runStages_spec
    (fun j w dat inp out => runCommand (os.stage j) w dat inp out) lS lP cS c1 hN
    { sh with cmd := cmd1, g_List := some lS, g_Pipe := some lP, trace := sh.trace ++ ev }
  refine ⟨cS, c1, hN, hstages, ?_⟩
  obtain ⟨a, t, hline⟩ : ∃ a t, line = a :: t := by
    cases line with
    | nil => exact absurd rfl hne
    | cons a t => exact ⟨a, t, rfl⟩
  have ha : a ≠ NUL := fun h => hnul (by rw [hline, h]; simp)
  have hfirst : (line ++ [NUL])[0]? = some a := by rw [hline]; simp
  simp only [mainLoopBody, hfirst, ha, if_false, hgl, hsplit, lt_self_iff_false, hgp, hbuild,
    ne_eq, not_true_eq_false, hstages]
  cases driveSpec (fun j w dat inp out => runCommand (os.stage j) w dat inp out) 0
      { sh with cmd := cmd1, g_List := some lS, g_Pipe := some lP, trace := sh.trace ++ ev }
      (expectedCalls (payloads lS) (payloads lP)) with
  | none => rfl
  | some r => rfl

/-- A stage whose command word is none of the three built-in ones and whose child is not
forked, does not exit or exits with a non-zero status returns 1 after the warning. -/
theorem runCommand_external_fail (os : StageOS) (sh : Shell) (p : Nat)
    (inp out : Option EasyPipe) (w : List Char)
    (h : commandWord sh.cmd p = some w) (hcd : w ≠ ['c', 'd'])
    (hexit : w ≠ ['e', 'x', 'i', 't']) (hhelp : w ≠ ['h', 'e', 'l', 'p'])
    (hfail : os.forkOk = false ∨ os.wifexited = false ∨ os.wexitstatus ≠ 0) :
    ∃ buf2 text, runCommand os sh (some p) inp out =
      some (1, { sh with cmd := buf2, trace := sh.trace ++ (runExternal os text inp out).2 ++
        [Event.printf "Warning: Some error occurred while executing, code: %d\n"
          (runExternal os text inp out).1] }) ∧ (runExternal os text inp out).1 < 0 := by
  simp only [commandWord] at h
  cases hs : strtok sh.cmd (some p) 0 with
  | none => rw [hs] at h; simp at h
  | some r =>
    obtain ⟨handle, buf1, save⟩ := r
    rw [hs] at h
    cases handle with
    | none => simp at h
    | some hd =>
      simp only [Option.some.injEq] at h
      have hneg : ∀ text, (runExternal os text inp out).1 < 0 := by
        intro text
        unfold runExternal
        by_cases hf : os.forkOk = false
        · simp [hf]
        · rw [if_neg hf]
          rcases hfail with h1 | h1 | h1
          · exact absurd h1 hf
          · simp [h1]
          · cases hw : os.wifexited <;> simp [h1]
      refine ⟨if p + (cstr buf1 p).length ≠ p + (cstr sh.cmd p).length then
          buf1.set (p + (cstr buf1 p).length) ' ' else buf1,
        cstr (if p + (cstr buf1 p).length ≠ p + (cstr sh.cmd p).length then
          buf1.set (p + (cstr buf1 p).length) ' ' else buf1) p, ?_, hneg _⟩
      simp only [runCommand, hs, h, hcd, hexit, hhelp, if_false]
      rw [if_pos (hneg _)]

/-- A text is its leading spaces, its first token and the rest, and the rest is empty or
starts with a space. -/
theorem text_split (t : List Char) :
    t = (t.takeWhile fun c => c = ' ') ++ firstToken t ++ afterFirstToken t ∧
      (∀ c ∈ t.takeWhile fun c => c = ' ', c = ' ') ∧
      (∀ c ∈ firstToken t, c ≠ ' ') ∧
      (afterFirstToken t = [] ∨ ∃ r, afterFirstToken t = ' ' :: r) := by
  refine ⟨?_, ?_, ?_, ?_⟩
  · rw [List.append_assoc]
    simp only [firstToken, afterFirstToken, List.takeWhile_append_dropWhile]
  · intro c hc
    simpa using List.mem_takeWhile_imp hc
  · intro c hc
    simpa using List.mem_takeWhile_imp hc
  · cases h : afterFirstToken t with
    | nil => exact Or.inl rfl
    | cons a r =>
      right
      have hne : (List.dropWhile (fun c => decide (c ≠ ' '))
          (t.dropWhile fun c => c = ' ')) ≠ [] := by
        intro h0
        simp only [afterFirstToken] at h
        rw [h0] at h
        cases h
      have := List.head_dropWhile_not (fun c => decide (c ≠ ' '))
        (t.dropWhile fun c => c = ' ') hne
      simp only [afterFirstToken] at h
      simp only [h, List.head_cons] at this
      have ha : a = ' ' := by simpa using this
      exact ⟨r, by rw [ha]⟩

/-- The library function `strtok` on a buffer that holds, from the position where the scan
starts, spaces, then a token, then a space or the terminator: the token is returned, a
terminator stands after it, and the next scan starts after that terminator (at it when it
was there before). -/
theorem strtok_layout (pre sp tok rest : List Char) (d : Char) (s : Option Nat) (save : Nat)
    (hfrom : (match s with
      | some p => p
      | none => save) = pre.length)
    (hsp : ∀ c ∈ sp, c = ' ') (htok : tok ≠ []) (hts : ∀ c ∈ tok, c ≠ ' ' ∧ c ≠ NUL)
    (hd : d = ' ' ∨ d = NUL) :
    strtok (pre ++ sp ++ tok ++ d :: rest) s save =
      some (some (pre.length + sp.length), pre ++ sp ++ tok ++ NUL :: rest,
        pre.length + sp.length + tok.length + (if d = NUL then 0 else 1)) := by
  obtain ⟨a, tk, hatk⟩ : ∃ a tk, tok = a :: tk := by
    cases tok with
    | nil => exact absurd rfl htok
    | cons a tk => exact ⟨a, tk, rfl⟩
  have ha := hts a (by rw [hatk]; simp)
  have hdrop1 : (pre ++ sp ++ tok ++ d :: rest).drop pre.length = sp ++ (tok ++ d :: rest) := by
    rw [List.append_assoc, List.append_assoc, List.drop_left]
  have htw1 : ((sp ++ (tok ++ d :: rest)).takeWhile fun c => c = ' ') = sp := by
    rw [List.takeWhile_append_of_pos (by simpa using hsp), hatk]
    simp [ha.1]
  have hdrop2 : (pre ++ sp ++ tok ++ d :: rest).drop (pre.length + sp.length) =
      tok ++ d :: rest := by
    rw [List.append_assoc (pre ++ sp), ← List.length_append, List.drop_left]
  have htw2 : ((tok ++ d :: rest).takeWhile fun c => c ≠ ' ' ∧ c ≠ NUL) = tok := by
    rw [List.takeWhile_append_of_pos (by simpa using hts)]
    rcases hd with h | h <;> simp [h]
  have hget1 : (pre ++ sp ++ tok ++ d :: rest)[pre.length + sp.length]? = some a := by
    rw [hatk, List.append_assoc (pre ++ sp), ← List.length_append]
    exact getElem?_mid (pre ++ sp) (tk ++ d :: rest) a
  have hget2 : (pre ++ sp ++ tok ++ d :: rest)[pre.length + sp.length + tok.length]? =
      some d := by
    rw [← List.length_append, ← List.length_append]
    exact getElem?_mid (pre ++ sp ++ tok) rest d
  have key : ∀ q, q = pre.length → strtok (pre ++ sp ++ tok ++ d :: rest) (some q) save =
      some (some (pre.length + sp.length), pre ++ sp ++ tok ++ NUL :: rest,
        pre.length + sp.length + tok.length + (if d = NUL then 0 else 1)) := by
    intro q hq
    subst hq
    simp only [strtok, hdrop1, htw1, hget1, ha.2, if_false, hdrop2, htw2, hget2]
    by_cases hdn : d = NUL
    · simp [hdn]
    · rw [if_neg hdn, if_neg hdn]
      rw [← List.length_append, ← List.length_append, set_mid]
  cases s with
  | some q => exact key q hfrom
  | none =>
    have h2 := key save hfrom
    simpa only [strtok] using h2
/-- The library function `strtok` on a buffer that holds a text and its terminator from
the position where the scan starts: the first token of the text is returned, and either
the text ends with it and the buffer is kept, or the space after it is overwritten. -/
theorem token_scan (pre t post : List Char) (s : Option Nat) (save : Nat)
    (hfrom : (match s with
      | some p => p
      | none => save) = pre.length)
    (hnul : NUL ∉ t) (htok : firstToken t ≠ []) :
    ∃ sp rest save1, (∀ c ∈ sp, c = ' ') ∧ (∀ c ∈ firstToken t, c ≠ ' ' ∧ c ≠ NUL) ∧
      strtok (pre ++ t ++ NUL :: post) s save =
        some (some (pre.length + sp.length), pre ++ sp ++ firstToken t ++ NUL :: rest, save1) ∧
      ((afterFirstToken t = [] ∧ t = sp ++ firstToken t ∧ rest = post ∧
          save1 = pre.length + sp.length + (firstToken t).length) ∨
        ∃ r, afterFirstToken t = ' ' :: r ∧ t = sp ++ firstToken t ++ ' ' :: r ∧
          rest = r ++ NUL :: post ∧
          save1 = pre.length + sp.length + (firstToken t).length + 1) := by
  obtain ⟨hsplit, hsp, htk, htail⟩ := text_split t
  have hts : ∀ c ∈ firstToken t, c ≠ ' ' ∧ c ≠ NUL := by
    intro c hc
    refine ⟨htk c hc, fun h => hnul ?_⟩
    rw [hsplit, ← h]
    simp [hc]
  rcases htail with h0 | ⟨r, hr⟩
  · refine ⟨t.takeWhile fun c => c = ' ', post, _, hsp, hts, ?_, Or.inl ⟨h0, ?_, rfl, rfl⟩⟩
    · have := strtok_layout pre (t.takeWhile fun c => c = ' ') (firstToken t) post NUL s save
        hfrom hsp htok hts (Or.inr rfl)
      rw [if_pos rfl, Nat.add_zero] at this
      rw [← this]
      congr 1
      conv_lhs => rw [hsplit, h0]
      simp
    · conv_lhs => rw [hsplit, h0]
      simp
  · refine ⟨t.takeWhile fun c => c = ' ', r ++ NUL :: post, _, hsp, hts, ?_,
      Or.inr ⟨r, hr, ?_, rfl, rfl⟩⟩
    · have := strtok_layout pre (t.takeWhile fun c => c = ' ') (firstToken t)
        (r ++ NUL :: post) ' ' s save hfrom hsp htok hts (Or.inl rfl)
      rw [if_neg (by decide)] at this
      rw [← this]
      congr 1
      conv_lhs => rw [hsplit, hr]
      simp
    · conv_lhs => rw [hsplit, hr]

/-- An external stage: the first `strtok` call and the restoring of the delimiter (lines
365-369) leave the line buffer as it was, and `runExternal` is called on the stage text. -/
theorem runCommand_external (os : StageOS) (sh : Shell) (pre t post : List Char)
    (inp out : Option EasyPipe)
    (hbuf : sh.cmd = pre ++ t ++ NUL :: post) (hnul : NUL ∉ t) (htok : firstToken t ≠ [])
    (hcd : firstToken t ≠ ['c', 'd']) (hexit : firstToken t ≠ ['e', 'x', 'i', 't'])
    (hhelp : firstToken t ≠ ['h', 'e', 'l', 'p']) :
    runCommand os sh (some pre.length) inp out =
      if (runExternal os t inp out).1 < 0 then
        some (1, { sh with trace := sh.trace ++ (runExternal os t inp out).2 ++
          [Event.printf "Warning: Some error occurred while executing, code: %d\n"
            (runExternal os t inp out).1] })
      else some (0, { sh with trace := sh.trace ++ (runExternal os t inp out).2 }) := by
  obtain ⟨sp, rest, save1, hsp, hts, hs, hcase⟩ :=
    token_scan pre t post (some pre.length) 0 rfl hnul htok
  rw [← hbuf] at hs
  have hlen : cstr sh.cmd pre.length = t := by
    rw [hbuf, List.append_assoc]
    exact cstr_mid pre t post hnul
  have hc1 : cstr (pre ++ sp ++ firstToken t ++ NUL :: rest) (pre.length + sp.length) =
      firstToken t := by
    rw [List.append_assoc (pre ++ sp), ← List.length_append]
    exact cstr_mid (pre ++ sp) (firstToken t) rest (fun h => (hts _ h).2 rfl)
  have hnsp : NUL ∉ sp ++ firstToken t := by
    intro h
    rcases List.mem_append.1 h with h | h
    · exact absurd (hsp _ h) (by decide)
    · exact (hts _ h).2 rfl
  have hc2 : cstr (pre ++ sp ++ firstToken t ++ NUL :: rest) pre.length =
      sp ++ firstToken t := by
    rw [List.append_assoc pre sp, List.append_assoc pre]
    exact cstr_mid pre (sp ++ firstToken t) rest hnsp
  have hset : (if pre.length + (sp ++ firstToken t).length ≠ pre.length + t.length then
      (pre ++ sp ++ firstToken t ++ NUL :: rest).set (pre.length + (sp ++ firstToken t).length)
        ' ' else pre ++ sp ++ firstToken t ++ NUL :: rest) = sh.cmd := by
    rcases hcase with ⟨-, ht, hrest, -⟩ | ⟨r, -, ht, hrest, -⟩
    · rw [if_neg (by rw [← ht]; simp), hrest, hbuf]
      conv_rhs => rw [ht]
      simp
    · have hne : pre.length + (sp ++ firstToken t).length ≠ pre.length + t.length := by
        conv_rhs => rw [ht]
        simp
      rw [if_pos hne, hbuf, hrest]
      have := set_mid (pre ++ sp ++ firstToken t) (r ++ NUL :: post) NUL ' '
      simp only [List.length_append] at this ⊢
      rw [Nat.add_assoc] at this
      rw [this]
      conv_rhs => rw [ht]
      simp
  simp only [runCommand, hs, hc1, hcd, hexit, hhelp, if_false, hlen, hc2, hset]
/-- A `cd` stage with an argument: the two `strtok` calls (lines 316, 321) return the
command word and the argument. -/
theorem cd_tokens (pre t post : List Char) (hnul : NUL ∉ t)
    (hcd : firstToken t = ['c', 'd']) (harg : firstToken (afterFirstToken t) ≠ []) :
    ∃ handle buf1 save1 tmp buf2 save2,
      strtok (pre ++ t ++ NUL :: post) (some pre.length) 0 = some (some handle, buf1, save1) ∧
      cstr buf1 handle = ['c', 'd'] ∧
      strtok buf1 none save1 = some (some tmp, buf2, save2) ∧
      cstr buf2 tmp = firstToken (afterFirstToken t) ∧
      buf2[tmp]? = (firstToken (afterFirstToken t)).head? := by
  obtain ⟨sp, rest, save1, hsp, hts, hs, hcase⟩ :=
    token_scan pre t post (some pre.length) 0 rfl hnul (by rw [hcd]; simp)
  have hc1 : cstr (pre ++ sp ++ firstToken t ++ NUL :: rest) (pre.length + sp.length) =
      firstToken t := by
    rw [List.append_assoc (pre ++ sp), ← List.length_append]
    exact cstr_mid (pre ++ sp) (firstToken t) rest (fun h => (hts _ h).2 rfl)
  rcases hcase with ⟨h0, -⟩ | ⟨r, hr, ht, hrest, hsave⟩
  · rw [h0] at harg
    exact absurd rfl harg
  · have harg2 : firstToken (afterFirstToken t) = firstToken r := by
      rw [hr]
      simp [firstToken]
    rw [harg2] at harg ⊢
    have hnr : NUL ∉ r := by
      intro h
      apply hnul
      rw [ht]
      simp [h]
    have hbuf1 : pre ++ sp ++ firstToken t ++ NUL :: rest =
        (pre ++ sp ++ firstToken t ++ [NUL]) ++ r ++ NUL :: post := by
      rw [hrest]
      simp
    have hfrom : save1 = (pre ++ sp ++ firstToken t ++ [NUL]).length := by
      rw [hsave]
      simp only [List.length_append, List.length_singleton]
    obtain ⟨sp2, rest2, save2, hsp2, hts2, hs2, -⟩ :=
      token_scan (pre ++ sp ++ firstToken t ++ [NUL]) r post none save1 hfrom hnr harg
    rw [← hbuf1] at hs2
    refine ⟨_, _, _, _, _, _, hs, by rw [hc1, hcd], hs2, ?_, ?_⟩
    · rw [List.append_assoc (_ ++ sp2), ← List.length_append]
      exact cstr_mid _ (firstToken r) rest2 (fun h => (hts2 _ h).2 rfl)
    · obtain ⟨a, tl, hatl⟩ : ∃ a tl, firstToken r = a :: tl := by
        cases h : firstToken r with
        | nil => exact absurd h harg
        | cons a tl => exact ⟨a, tl, rfl⟩
      rw [hatl, List.append_assoc (_ ++ sp2), ← List.length_append]
      exact getElem?_mid _ _ a
/-- A text with a character that is not a space has a first token. -/
theorem firstToken_ne_nil (t : List Char) (h : ∃ c ∈ t, c ≠ ' ') : firstToken t ≠ [] := by
  obtain ⟨c, hc, hcs⟩ := h
  have hne : (t.dropWhile fun c => c = ' ') ≠ [] := by
    intro h0
    have := List.dropWhile_eq_nil_iff.1 h0 c hc
    simp at this
    exact hcs this
  obtain ⟨a, r, har⟩ : ∃ a r, (t.dropWhile fun c => c = ' ') = a :: r := by
    cases h : (t.dropWhile fun c => c = ' ') with
    | nil => exact absurd h hne
    | cons a r => exact ⟨a, r, rfl⟩
  have ha := List.head_dropWhile_not (fun c => decide (c = ' ')) t hne
  simp only [har, List.head_cons] at ha
  have ha2 : a ≠ ' ' := by simpa using ha
  simp [firstToken, har, ha2]

/-- The loop that builds the fabric when the creation or the storing of the pair of
index `jj` fails after the pairs before it were created and stored: the flag is raised,
one message is printed and the pipe list holds the pairs built before. -/
theorem initPipe_fail (os : LineOS) (lmt jj : Nat) :
    ∀ (fuel i : Nat) (l : LinkList EasyPipe), Chain l → lmt - i < fuel → 1 ≤ i →
      i ≤ jj + 1 → jj + 1 < lmt →
      (∀ m, i ≤ m + 1 → m < jj →
        EasyPipe_Create (os.pipeMalloc m) (os.pipeSys m) ≠ none ∧ os.pipeAlloc m = true) →
      (EasyPipe_Create (os.pipeMalloc jj) (os.pipeSys jj) = none ∨
        (os.pipeAlloc jj = false ∧ l.maxLen ≤ l.curLen + (jj + 1 - i))) →
      ∃ l1 msg, initPipe os lmt fuel i (some l) = some (1, some l1, [Event.puts msg]) ∧
        Chain l1 ∧ l1.deleter = l.deleter ∧
        payloads l1 = payloads l ++ (List.range' i (jj + 1 - i)).map fun m =>
          EasyPipe_Create (os.pipeMalloc (m - 1)) (os.pipeSys (m - 1)) := by
  intro fuel
  induction fuel with
  | zero => intro i l _ h; omega
  | succ fuel ih =>
    intro i l hc hf hi1 hij hjl hok hfail
    rw [initPipe, if_pos (by omega)]
    by_cases hlast : i = jj + 1
    · subst hlast
      simp only [Nat.add_sub_cancel, Nat.sub_self, List.range'_zero, List.map_nil,
        List.append_nil, Nat.add_zero] at hfail ⊢
      cases hcr : EasyPipe_Create (os.pipeMalloc jj) (os.pipeSys jj) with
      | none => exact ⟨l, _, rfl, hc, rfl, rfl⟩
      | some tmp =>
        rw [hcr] at hfail
        obtain ⟨hal, hmax⟩ : os.pipeAlloc jj = false ∧ l.maxLen ≤ l.curLen := by
          rcases hfail with h | h
          · simp at h
          · exact h
        obtain ⟨r, l1, e, c1, hd, h⟩ := push_total l (some tmp) (os.pipeAlloc jj) hc
        rcases h with ⟨-, -, -, h | h⟩ | ⟨hr, hl, -, -⟩
        · omega
        · rw [hal] at h
          exact absurd h.2.1 (by decide)
        · subst hr
          subst hl
          exact ⟨l1, "Error: Fail to store pipe", by simp [e], c1, rfl, rfl⟩
    · have hlt : i < jj + 1 := by omega
      obtain ⟨hcr0, hal⟩ := hok (i - 1) (by omega) (by omega)
      cases hcr : EasyPipe_Create (os.pipeMalloc (i - 1)) (os.pipeSys (i - 1)) with
      | none => exact absurd hcr hcr0
      | some tmp =>
        obtain ⟨r, l1, e, c1, hd, h⟩ := push_total l (some tmp) (os.pipeAlloc (i - 1)) hc
        rcases h with ⟨hr, hlen, hp, hmx⟩ | ⟨-, -, hno, -⟩
        · subst hr
          simp only [e, lt_self_iff_false, if_false]
          have hfail1 : EasyPipe_Create (os.pipeMalloc jj) (os.pipeSys jj) = none ∨
              (os.pipeAlloc jj = false ∧ l1.maxLen ≤ l1.curLen + (jj + 1 - (i + 1))) := by
            rcases hfail with h | ⟨h1, h2⟩
            · exact Or.inl h
            · refine Or.inr ⟨h1, ?_⟩
              rcases hmx with ⟨-, hm, -⟩ | ⟨hm0, -, hm, -⟩ <;> omega
          obtain ⟨l2, msg, e2, c2, hd2, hp2⟩ := ih (i + 1) l1 c1 (by omega) (by omega)
            (by omega) hjl (fun m h1 h2 => hok m (by omega) h2) hfail1
          refine ⟨l2, msg, e2, c2, by rw [hd2, hd], ?_⟩
          rw [hp2, hp]
          have hsplit : jj + 1 - i = (jj + 1 - (i + 1)) + 1 := by omega
          rw [hsplit, List.range'_succ]
          simp [hcr]
        · rw [hal] at hno
          exact absurd hno (by decide)

/-! ### Joining the stages -/

theorem segments_ne_nil (rest : List Char) :
    ∀ (flag : Nat) (prev : Option Char) (cur : List Char), rest ≠ [] →
      segments flag prev cur rest ≠ [] := by
  induction rest with
  | nil => intro _ _ _ h; exact absurd rfl h
  | cons c rest ih =>
    intro flag prev cur _
    have key : ∀ (f : Nat) (pv : Option Char), segments f pv (cur ++ [c]) rest ≠ [] := by
      intro f pv
      cases rest with
      | nil => simp [segments]
      | cons d r => exact ih f pv _ (by simp)
    unfold segments
    split_ifs
    · exact key _ _
    · simp
    · exact key _ _

theorem intercalate_cons_ne_nil {β : Type} (sep x : List β) (xs : List (List β))
    (h : xs ≠ []) : List.intercalate sep (x :: xs) = x ++ sep ++ List.intercalate sep xs := by
  cases xs with
  | nil => exact absurd rfl h
  | cons y ys => simp [List.intercalate, List.intersperse]

/-- Joining the stage texts of a complete scan with pipes gives back the text scanned,
without its last character when that is a delimiter pipe. -/
theorem join_segments (rest : List Char) :
    ∀ (flag : Nat) (prev prevO : Option Char) (cur : List Char), flag < 2 →
      (prev = some BACKSLASH ↔ prevO = some BACKSLASH) →
      List.intercalate [PIPE] (segments flag prev cur rest) =
        cur ++ (if rest.getLast? = some PIPE ∧
            (flag + countUnescaped prevO rest.dropLast) % 2 = 0
          then rest.dropLast else rest) := by
  induction rest with
  | nil =>
    intro flag prev prevO cur _ _
    by_cases hc : cur = []
    · simp [segments, hc, List.intercalate]
    · simp [segments, hc, List.intercalate]
  | cons c rest ih =>
    intro flag prev prevO cur hf hprev
    have hflag : flag = 0 ∨ flag = 1 := by omega
    have hpq : PIPE ≠ QUOTE := by decide
    have hcond : (c = QUOTE ∧ prev ≠ some BACKSLASH) ↔ (c = QUOTE ∧ prevO ≠ some BACKSLASH) :=
      and_congr_right fun _ => not_congr hprev
    by_cases hr : rest = []
    · subst hr
      unfold segments
      by_cases hq : c = QUOTE ∧ prev ≠ some BACKSLASH
      · rw [if_pos hq]
        have : c ≠ PIPE := by rw [hq.1]; exact hpq.symm
        simp [segments, List.intercalate, this]
      · rw [if_neg hq]
        by_cases hp : c = PIPE ∧ flag = 0
        · rw [if_pos hp]
          simp [segments, List.intercalate, hp.1, hp.2, countUnescaped]
        · rw [if_neg hp]
          have : ¬ (c = PIPE ∧ (flag + countUnescaped prevO []) % 2 = 0) := by
            rintro ⟨h1, h2⟩
            apply hp
            refine ⟨h1, ?_⟩
            simp only [countUnescaped, Nat.add_zero] at h2
            omega
          simp [segments, List.intercalate, this]
    · obtain ⟨d, r, hdr⟩ : ∃ d r, rest = d :: r := by
        cases rest with
        | nil => exact absurd rfl hr
        | cons d r => exact ⟨d, r, rfl⟩
      have hlast : (c :: rest).getLast? = rest.getLast? := by rw [hdr]; simp [List.getLast?]
      have hdrop : (c :: rest).dropLast = c :: rest.dropLast := by rw [hdr]; simp
      rw [hlast, hdrop]
      unfold segments
      simp only [countUnescaped]
      by_cases hq : c = QUOTE ∧ prev ≠ some BACKSLASH
      · rw [if_pos hq]
        simp only [if_pos (hcond.1 hq)]
        have hf1 : flag ^^^ 1 < 2 := by rcases hflag with h | h <;> subst h <;> decide
        rw [ih (flag ^^^ 1) (some c) (some c) (cur ++ [c]) hf1 Iff.rfl]
        have hpar : ((flag ^^^ 1) + countUnescaped (some c) rest.dropLast) % 2 = 0 ↔
            (flag + (1 + countUnescaped (some c) rest.dropLast)) % 2 = 0 := by
          rcases hflag with h | h <;> subst h <;> first | (simp; done) | (simp; omega)
        by_cases hcase : rest.getLast? = some PIPE ∧
            ((flag ^^^ 1) + countUnescaped (some c) rest.dropLast) % 2 = 0
        · rw [if_pos hcase, if_pos ⟨hcase.1, hpar.1 hcase.2⟩]
          simp
        · rw [if_neg hcase, if_neg (fun h => hcase ⟨h.1, hpar.2 h.2⟩)]
          simp
      · rw [if_neg hq]
        simp only [if_neg (fun h => hq (hcond.2 h)), Nat.zero_add]
        by_cases hp : c = PIPE ∧ flag = 0
        · rw [if_pos hp]
          obtain ⟨hcp, hf0⟩ := hp
          subst hcp
          rw [intercalate_cons_ne_nil _ _ _ (segments_ne_nil rest flag (some NUL) [] hr),
            ih flag (some NUL) (some PIPE) [] hf (by decide)]
          split_ifs <;> simp
        · rw [if_neg hp, ih flag (some c) (some c) (cur ++ [c]) hf Iff.rfl]
          split_ifs <;> simp

/-- The tokens and the path of the stage text `longCd n` in the start state. -/
theorem longCd_facts (n : Nat) :
    NUL ∉ longCd n ∧ firstToken (longCd n) = ['c', 'd'] ∧
      firstToken (afterFirstToken (longCd n)) = List.replicate n 'a' ∧
      (cdPath startShell.g_Dir (firstToken (afterFirstToken (longCd n)))).length = n + 8 := by
  have h3 : firstToken (afterFirstToken (longCd n)) = List.replicate n 'a' := by
    simp [longCd, firstToken, afterFirstToken, List.takeWhile_replicate]
  refine ⟨?_, by simp [longCd, firstToken], h3, ?_⟩
  · simp only [longCd, List.mem_append, List.mem_replicate]
    intro h
    rcases h with h | h
    · revert h; decide
    · exact absurd h.2 (by decide)
  · rw [h3]
    cases n with
    | zero => simp [cdPath, startShell]
    | succ n => simp [cdPath, startShell, List.replicate_succ]

/-- C1 (amended): for every non-empty input line that contains no double quote and does
not end with a pipe, and for every prior content of the stage container, when no node
allocation fails `splitPipe` returns 0 and leaves the stage container holding exactly
the substrings of the line between consecutive pipe characters, in left-to-right order,
empty substrings between adjacent pipes included. -/
theorem C1_split_plain (alloc : Nat → Bool) (line : List Char) (l : LinkList Nat)
    (hl : Reachable l) (hne : line ≠ []) (hnul : NUL ∉ line) (hq : QUOTE ∉ line)
    (hlast : line.getLast? ≠ some PIPE) (halloc : ∀ n, alloc n = true) :
    ∃ buf l1, splitPipe alloc (line ++ [NUL]) (some l) = some (0, buf, some l1) ∧
      stagesOf buf (some l1) = some (line.splitOn PIPE) := by
  obtain ⟨ret, buf, l1, e, -, -, h⟩ := splitPipe_spec alloc line l (reachable_chain l hl) hnul
  rcases h with ⟨h1, -, -, h4⟩ | ⟨-, ⟨n, hn⟩, -⟩
  · subst h1
    refine ⟨buf, l1, e, ?_⟩
    rw [h4, segments_splitOn line none [] hq (by simpa using hne)]
    · congr 1
      cases line.splitOn PIPE <;> simp [List.modifyHead]
    · intro t h
      apply hlast
      simp only [List.nil_append] at h
      rw [h]
      simp
  · rw [halloc n] at hn
    exact absurd hn (by simp)

/-- C1, witness: the line `a|b|c` on a freshly created stage container yields exactly
the stages `a`, `b`, `c`. -/
theorem C1_split_plain_witness :
    Reachable (emptyList false : LinkList Nat) ∧
      ['a', '|', 'b', '|', 'c'] ≠ [] ∧ NUL ∉ ['a', '|', 'b', '|', 'c'] ∧
      QUOTE ∉ ['a', '|', 'b', '|', 'c'] ∧
      ['a', '|', 'b', '|', 'c'].getLast? ≠ some PIPE ∧
      (∀ n : Nat, (fun _ => true) n = true) ∧
      ∃ buf l1, splitPipe (fun _ => true) (['a', '|', 'b', '|', 'c'] ++ [NUL])
          (some (emptyList false)) = some (0, buf, some l1) ∧
        stagesOf buf (some l1) = some [['a'], ['b'], ['c']] :=
  ⟨⟨false, _, [], [], rfl, rfl, rfl⟩, by decide, by decide, by decide, by decide,
    fun _ => rfl,
    C1_split_plain (fun _ => true) ['a', '|', 'b', '|', 'c'] _
      ⟨false, _, [], [], rfl, rfl, rfl⟩ (by decide) (by decide) (by decide) (by decide)
      (fun _ => rfl)⟩

/-- C1, counterexample: on a freshly created stage container, when the node allocation of
the first push fails, `splitPipe` on the line `a|b|c` returns -2 and the container holds
no stage. -/
theorem C1_counterexample :
    Reachable (emptyList false : LinkList Nat) ∧
      ['a', '|', 'b', '|', 'c'] ≠ [] ∧ QUOTE ∉ ['a', '|', 'b', '|', 'c'] ∧
      ['a', '|', 'b', '|', 'c'].getLast? ≠ some PIPE ∧
      splitPipe (fun _ => false) (['a', '|', 'b', '|', 'c'] ++ [NUL])
          (some (emptyList false)) =
        some (-2, ['a', NUL, 'b', '|', 'c', NUL], some (emptyList false)) ∧
      stagesOf ['a', NUL, 'b', '|', 'c', NUL] (some (emptyList false)) = some [] :=
  ⟨⟨false, _, [], [], rfl, rfl, rfl⟩, by decide, by decide, by decide, by decide, by decide⟩

/-- C2: for every input line, a pipe at a position that an odd number of unescaped
double quotes precede (so it is scanned with the inside-quotes flag set) is not replaced
by a terminator, whatever the allocations do, and after a successful split it lies
inside the text of a stage of the container; the split succeeds when no allocation
fails; and splitting `echo "a|b"` successfully yields exactly one stage, the whole line. -/
theorem C2_quoted_pipe (alloc : Nat → Bool) (line : List Char) (l : LinkList Nat) (i : Nat)
    (hl : Reachable l) (hnul : NUL ∉ line) (hi : (line)[i]? = some PIPE)
    (hodd : countUnescaped none (line.take i) % 2 = 1) :
    ∃ ret buf l1, splitPipe alloc (line ++ [NUL]) (some l) = some (ret, buf, some l1) ∧
      buf[i]? = some PIPE ∧
      (ret = 0 → ∃ visits p, LinkList_iterate (some l1) = some visits ∧
        some p ∈ visits.map Prod.snd ∧ p ≤ i ∧ i < p + (cstr buf p).length) ∧
      ((∀ n, alloc n = true) → ret = 0) ∧
      (line = ['e', 'c', 'h', 'o', ' ', QUOTE, 'a', '|', 'b', QUOTE] → ret = 0 →
        stagesOf buf (some l1) = some [line]) := by
  obtain ⟨ret, buf, l1, e, c1, -, h⟩ := splitPipe_spec alloc line l (reachable_chain l hl) hnul
  have hchar := scanRest_char line 0 none none 0 0 i (by omega) Iff.rfl hi
  simp only [Nat.zero_add, hodd, if_true] at hchar
  have hlen := scanRest_length line 0 none 0 0
  have hilt : i < line.length := by
    rcases List.getElem?_eq_some.1 hi with ⟨h, -⟩
    exact h
  refine ⟨ret, buf, l1, e, ?_, ?_, ?_, ?_⟩
  · rcases h with ⟨-, h2, -⟩ | ⟨-, -, k, m, h3, -⟩
    · rw [h2, List.getElem?_append_left (by omega), hchar]
    · rw [h3]
      exact partial_buffer _ _ k i PIPE hlen hchar hi
  · intro hr
    rcases h with ⟨-, h2, h3, -⟩ | ⟨h1, -⟩
    · obtain ⟨visits, hv, hvp⟩ := iterate_values l1 c1
      obtain ⟨p, hp1, hp2, hp3⟩ :=
        scanRest_inside line 0 none none [] [] i (by omega) Iff.rfl (by simp) hnul hi
          (by simpa using hodd)
      simp only [List.length_nil, Nat.add_zero, Nat.zero_add, List.nil_append] at hp1 hp2 hp3
      refine ⟨visits, p, hv, ?_, hp2, ?_⟩
      · rw [hvp, h3]
        exact List.mem_map_of_mem _ hp1
      · rw [h2]
        exact hp3
    · omega
  · intro hall
    rcases h with ⟨h1, -⟩ | ⟨-, ⟨n, hn⟩, -⟩
    · exact h1
    · rw [hall n] at hn
      exact absurd hn (by simp)
  · intro hline hr
    rcases h with ⟨-, -, -, h4⟩ | ⟨h1, -⟩
    · rw [h4, hline]
      decide
    · omega

/-- C2, witness: the pipe at offset 7 of `echo "a|b"` follows one unescaped double quote. -/
theorem C2_quoted_pipe_witness :
    Reachable (emptyList false : LinkList Nat) ∧
      NUL ∉ ['e', 'c', 'h', 'o', ' ', QUOTE, 'a', '|', 'b', QUOTE] ∧
      ['e', 'c', 'h', 'o', ' ', QUOTE, 'a', '|', 'b', QUOTE][7]? = some PIPE ∧
      countUnescaped none (['e', 'c', 'h', 'o', ' ', QUOTE, 'a', '|', 'b', QUOTE].take 7) % 2 = 1 ∧
      ∃ ret buf l1,
        splitPipe (fun _ => true) (['e', 'c', 'h', 'o', ' ', QUOTE, 'a', '|', 'b', QUOTE] ++ [NUL])
          (some (emptyList false)) = some (ret, buf, some l1) ∧
        buf[7]? = some PIPE ∧
        (ret = 0 → ∃ visits p, LinkList_iterate (some l1) = some visits ∧
          some p ∈ visits.map Prod.snd ∧ p ≤ 7 ∧ 7 < p + (cstr buf p).length) ∧
        ((∀ n : Nat, (fun _ => true) n = true) → ret = 0) ∧
        (['e', 'c', 'h', 'o', ' ', QUOTE, 'a', '|', 'b', QUOTE] =
            ['e', 'c', 'h', 'o', ' ', QUOTE, 'a', '|', 'b', QUOTE] → ret = 0 →
          stagesOf buf (some l1) =
            some [['e', 'c', 'h', 'o', ' ', QUOTE, 'a', '|', 'b', QUOTE]]) :=
  ⟨⟨false, _, [], [], rfl, rfl, rfl⟩, by decide, by decide, by decide,
    C2_quoted_pipe (fun _ => true) ['e', 'c', 'h', 'o', ' ', QUOTE, 'a', '|', 'b', QUOTE]
      (emptyList false) 7 ⟨false, _, [], [], rfl, rfl, rfl⟩ (by decide) (by decide) (by decide)⟩

/-- C3: for every input line that ends with an unquoted pipe (an even number of
unescaped double quotes precede it), whatever the allocations do every stage held by the
container starts at or before that pipe, so none is pushed for the empty text after it;
after a successful split the pipe has been replaced by a terminator; the split succeeds
when no allocation fails; and when the text `s` before the pipe is non-empty and has no
pipe and no double quote, a successful split yields exactly one stage, `s`. -/
theorem C3_trailing_pipe (alloc : Nat → Bool) (s : List Char) (l : LinkList Nat)
    (hl : Reachable l) (hnul : NUL ∉ s) (heven : countUnescaped none s % 2 = 0) :
    ∃ ret buf l1, splitPipe alloc (s ++ [PIPE] ++ [NUL]) (some l) = some (ret, buf, some l1) ∧
      (∃ visits, LinkList_iterate (some l1) = some visits ∧
        ∀ v ∈ visits, ∃ p, v.2 = some p ∧ p ≤ s.length) ∧
      (ret = 0 → buf[s.length]? = some NUL) ∧
      ((∀ n, alloc n = true) → ret = 0) ∧
      (s ≠ [] → PIPE ∉ s → QUOTE ∉ s → ret = 0 → stagesOf buf (some l1) = some [s]) := by
  have hnul1 : NUL ∉ s ++ [PIPE] := by
    intro h
    rcases List.mem_append.1 h with h | h
    · exact hnul h
    · exact absurd h (by decide)
  obtain ⟨ret, buf, l1, e, c1, -, h⟩ :=
    splitPipe_spec alloc (s ++ [PIPE]) l (reachable_chain l hl) hnul1
  have hbound := scanRest_bound (s ++ [PIPE]) 0 none 0 0 (le_refl _)
  have hget : (s ++ [PIPE])[s.length]? = some PIPE := getElem?_mid s [] PIPE
  have hchar := scanRest_char (s ++ [PIPE]) 0 none none 0 0 s.length (by omega) Iff.rfl hget
  have hne : ¬ (countUnescaped none s % 2 = 1) := by omega
  simp only [Nat.zero_add, List.take_left, hne, if_false] at hchar
  have hlen := scanRest_length (s ++ [PIPE]) 0 none 0 0
  obtain ⟨visits, hv, hvp⟩ := iterate_values l1 c1
  refine ⟨ret, buf, l1, e, ⟨visits, hv, ?_⟩, ?_, ?_, ?_⟩
  · intro v hvm
    have hmem : v.2 ∈ payloads l1 := by
      rw [← hvp]
      exact List.mem_map_of_mem _ hvm
    have hsub : ∃ p, v.2 = some p ∧ p ∈ (scanRest 0 none 0 0 (s ++ [PIPE])).2 := by
      rcases h with ⟨-, -, h3, -⟩ | ⟨-, -, k, m, -, h4⟩
      · rw [h3] at hmem
        obtain ⟨p, hp, hpe⟩ := List.mem_map.1 hmem
        exact ⟨p, hpe.symm, hp⟩
      · rw [h4] at hmem
        obtain ⟨p, hp, hpe⟩ := List.mem_map.1 hmem
        exact ⟨p, hpe.symm, List.mem_of_mem_take hp⟩
    obtain ⟨p, hp1, hp2⟩ := hsub
    have := hbound p hp2
    simp only [List.length_append, List.length_singleton] at this
    exact ⟨p, hp1, by omega⟩
  · intro hr
    rcases h with ⟨-, h2, -⟩ | ⟨h1, -⟩
    · rw [h2, List.getElem?_append_left (by rw [hlen]; simp), hchar]
    · omega
  · intro hall
    rcases h with ⟨h1, -⟩ | ⟨-, ⟨n, hn⟩, -⟩
    · exact h1
    · rw [hall n] at hn
      exact absurd hn (by simp)
  · intro _ hp hq hr
    rcases h with ⟨-, -, -, h4⟩ | ⟨h1, -⟩
    · rw [h4, segments_single s none [] hp hq]
      simp
    · omega

/-- C3, witness: the line `ls|` on a freshly created stage container. -/
theorem C3_trailing_pipe_witness :
    Reachable (emptyList false : LinkList Nat) ∧ NUL ∉ ['l', 's'] ∧
      countUnescaped none ['l', 's'] % 2 = 0 ∧
      ∃ ret buf l1,
        splitPipe (fun _ => true) (['l', 's'] ++ [PIPE] ++ [NUL]) (some (emptyList false)) =
          some (ret, buf, some l1) ∧
        (∃ visits, LinkList_iterate (some l1) = some visits ∧
          ∀ v ∈ visits, ∃ p, v.2 = some p ∧ p ≤ ['l', 's'].length) ∧
        (ret = 0 → buf[['l', 's'].length]? = some NUL) ∧
        ((∀ n : Nat, (fun _ => true) n = true) → ret = 0) ∧
        (['l', 's'] ≠ [] → PIPE ∉ ['l', 's'] → QUOTE ∉ ['l', 's'] → ret = 0 →
          stagesOf buf (some l1) = some [['l', 's']]) :=
  ⟨⟨false, _, [], [], rfl, rfl, rfl⟩, by decide, by decide,
    C3_trailing_pipe (fun _ => true) ['l', 's'] (emptyList false)
      ⟨false, _, [], [], rfl, rfl, rfl⟩ (by decide) (by decide)⟩

/-- C4: for every pipeline of N ≥ 1 stages whose pipe container holds N-1 pairs, whatever
pooled nodes lie beyond the logical tails and whatever `runCommand` does, the stage loop
of `main` is the loop that runs the assigned calls in order while they return 0; the
call assigned to stage `k` (counted from 0) has the payload of stage `k`, as input
endpoint the pair before it (none for the first stage) and as output endpoint the pair
after it (none for the last stage). -/
theorem C4_endpoint_assignment {α β σ : Type}
    (run : Nat → σ → Option α → Option β → Option β → Option (Int × σ))
    (lS : LinkList α) (lP : LinkList β) (w : σ) (hS : Reachable lS) (hP : Reachable lP)
    (hN : LinkList_Size (some lS) = LinkList_Size (some lP) + 1) :
    ∃ vs vp, LinkList_iterate (some lS) = some vs ∧ LinkList_iterate (some lP) = some vp ∧
      runStages run (some lS) (some lP) w =
        driveSpec run 0 w (expectedCalls (vs.map Prod.snd) (vp.map Prod.snd)) ∧
      ∀ k, k < vs.length →
        (expectedCalls (vs.map Prod.snd) (vp.map Prod.snd))[k]? =
          some (((vs.map Prod.snd)[k]?).join,
            (if k = 0 then none else ((vp.map Prod.snd)[k - 1]?).join),
            (if k + 1 = vs.length then none else ((vp.map Prod.snd)[k]?).join)) := by
  have cS := reachable_chain lS hS
  have cP := reachable_chain lP hP
  simp only [LinkList_Size] at hN
  have hvS := iterate_payloads lS cS
  have hvP := iterate_payloads lP cP
  cases hiS : LinkList_iterate (some lS) with
  | none => rw [hiS] at hvS; simp at hvS
  | some vs =>
    cases hiP : LinkList_iterate (some lP) with
    | none => rw [hiP] at hvP; simp at hvP
    | some vp =>
      rw [hiS] at hvS
      rw [hiP] at hvP
      simp only [Option.map_some', Option.some.injEq] at hvS hvP
      refine ⟨vs, vp, rfl, rfl, ?_, ?_⟩
      · rw [hvS, hvP]
        exact runStages_spec run lS lP cS cP hN w
      · intro k hk
        have hlS : (vs.map Prod.snd).length = lS.curLen := by rw [hvS, payloads_length lS cS]
        have hlP : (vp.map Prod.snd).length = lP.curLen := by rw [hvP, payloads_length lP cP]
        have hlen : (vs.map Prod.snd).length = (vp.map Prod.snd).length + 1 := by
          rw [hlS, hlP, hN]
        have hk1 : k < (vs.map Prod.snd).length := by simpa using hk
        rw [expectedCalls_getElem? _ _ k _ (List.getElem?_eq_getElem hk1) hlen]
        have e1 : (k = (vp.map Prod.snd).length) = (k + 1 = vs.length) := by
          have : vs.length = (vp.map Prod.snd).length + 1 := by
            rw [← hlen]; simp
          apply propext
          omega
        simp only [List.getElem?_eq_getElem hk1, Option.join, e1]
        rfl

/-- C4, witness: three stages and two pairs, the pipe list keeping two stale nodes of an
earlier pipeline of five stages. -/
theorem C4_endpoint_assignment_witness :
    Reachable (listOf false [Op.push (some 10) true, Op.push (some 20) true,
        Op.push (some 30) true] : LinkList Nat) ∧
      Reachable (listOf true [Op.push (some 1) true, Op.push (some 2) true,
        Op.push (some 3) true, Op.push (some 4) true, Op.clear, Op.push (some 7) true,
        Op.push (some 8) true] : LinkList Nat) ∧
      LinkList_Size (some (listOf false [Op.push (some 10) true, Op.push (some 20) true,
        Op.push (some 30) true] : LinkList Nat)) =
        LinkList_Size (some (listOf true [Op.push (some 1) true, Op.push (some 2) true,
          Op.push (some 3) true, Op.push (some 4) true, Op.clear, Op.push (some 7) true,
          Op.push (some 8) true] : LinkList Nat)) + 1 ∧
      ∃ vs vp,
        LinkList_iterate (some (listOf false [Op.push (some 10) true, Op.push (some 20) true,
          Op.push (some 30) true] : LinkList Nat)) = some vs ∧
        LinkList_iterate (some (listOf true [Op.push (some 1) true, Op.push (some 2) true,
          Op.push (some 3) true, Op.push (some 4) true, Op.clear, Op.push (some 7) true,
          Op.push (some 8) true] : LinkList Nat)) = some vp ∧
        runStages (fun _ (w : Unit) _ _ _ => some (0, w))
            (some (listOf false [Op.push (some 10) true, Op.push (some 20) true,
              Op.push (some 30) true] : LinkList Nat))
            (some (listOf true [Op.push (some 1) true, Op.push (some 2) true,
              Op.push (some 3) true, Op.push (some 4) true, Op.clear, Op.push (some 7) true,
              Op.push (some 8) true] : LinkList Nat)) () =
          driveSpec (fun _ (w : Unit) _ _ _ => some (0, w)) 0 ()
            (expectedCalls (vs.map Prod.snd) (vp.map Prod.snd)) ∧
        ∀ k, k < vs.length →
          (expectedCalls (vs.map Prod.snd) (vp.map Prod.snd))[k]? =
            some (((vs.map Prod.snd)[k]?).join,
              (if k = 0 then none else ((vp.map Prod.snd)[k - 1]?).join),
              (if k + 1 = vs.length then none else ((vp.map Prod.snd)[k]?).join)) :=
  ⟨reachable_listOf _ _, reachable_listOf _ _, by decide,
    C4_endpoint_assignment (fun _ (w : Unit) _ _ _ => some (0, w)) _ _ ()
      (reachable_listOf _ _) (reachable_listOf _ _) (by decide)⟩

/-- C5: for every stage count N ≥ 1 and every prior content of the pipe container, when
every pipe creation and every push succeeds the clear-and-rebuild step of `main` returns
with both the clear and the flag at 0 and leaves the pipe container with logical size
exactly N-1; for N = 1 it holds zero pairs and the stage loop runs the single stage
with no input endpoint and no output endpoint. -/
theorem C5_fabric_size (os : LineOS) (N : Nat) (lP : LinkList EasyPipe) (hN : 1 ≤ N)
    (hP : Reachable lP) (hcreate : ∀ k, os.pipeMalloc k = true ∧ os.pipeSys k ≠ none)
    (hpush : ∀ k, os.pipeAlloc k = true) :
    ∃ l1 ev, rebuildPipes os N (some lP) = some (0, 0, some l1, ev) ∧
      LinkList_Size (some l1) = N - 1 ∧
      (N = 1 → LinkList_Size (some l1) = 0 ∧
        ∀ (α σ : Type) (run : Nat → σ → Option α → Option EasyPipe → Option EasyPipe →
            Option (Int × σ)) (lS : LinkList α) (w : σ),
          Reachable lS → LinkList_Size (some lS) = 1 →
          ∃ s, (LinkList_iterate (some lS)).map (fun v => v.map Prod.snd) = some [s] ∧
            runStages run (some lS) (some l1) w = driveSpec run 0 w [(s, none, none)]) := by
  obtain ⟨flag, l1, ev, e, c1, -, h⟩ := rebuildPipes_chain os N lP (reachable_chain lP hP)
  rcases h with ⟨hf0, hl, -, -⟩ | ⟨-, j, hj⟩
  · subst hf0
    refine ⟨l1, ev, e, hl, ?_⟩
    intro hN1
    subst hN1
    refine ⟨hl, ?_⟩
    intro α σ run lS w hS hsz
    have cS := reachable_chain lS hS
    simp only [LinkList_Size] at hsz
    have hlen := payloads_length lS cS
    rw [hsz] at hlen
    obtain ⟨s, hs⟩ : ∃ s, payloads lS = [s] := List.length_eq_one.1 hlen
    refine ⟨s, ?_, ?_⟩
    · rw [iterate_payloads lS cS, hs]
    · have hlen1 := payloads_length l1 c1
      rw [hl] at hlen1
      have hp1 : payloads l1 = [] := List.length_eq_zero.1 hlen1
      rw [runStages_spec run lS l1 cS c1 (by rw [hsz, hl]) w, hs, hp1]
      rfl
  · exfalso
    rcases hj with hj | hj | hj
    · rw [(hcreate j).1] at hj
      exact absurd hj (by simp)
    · exact (hcreate j).2 hj
    · rw [hpush j] at hj
      exact absurd hj (by simp)

/-- C5, witness: three stages, the pipe list still holding the four nodes of an earlier
pipeline. -/
theorem C5_fabric_size_witness :
    1 ≤ 3 ∧
      Reachable (listOf true [Op.push (some { fd0 := 3, fd1 := 4 }) true,
        Op.push (some { fd0 := 5, fd1 := 6 }) true, Op.push (some { fd0 := 7, fd1 := 8 }) true,
        Op.push (some { fd0 := 9, fd1 := 10 }) true] : LinkList EasyPipe) ∧
      (∀ k, benignOS.pipeMalloc k = true ∧ benignOS.pipeSys k ≠ none) ∧
      (∀ k, benignOS.pipeAlloc k = true) ∧
      ∃ l1 ev,
        rebuildPipes benignOS 3
            (some (listOf true [Op.push (some { fd0 := 3, fd1 := 4 }) true,
              Op.push (some { fd0 := 5, fd1 := 6 }) true,
              Op.push (some { fd0 := 7, fd1 := 8 }) true,
              Op.push (some { fd0 := 9, fd1 := 10 }) true])) =
          some (0, 0, some l1, ev) ∧
        LinkList_Size (some l1) = 3 - 1 ∧
        (3 = 1 → LinkList_Size (some l1) = 0 ∧
          ∀ (α σ : Type) (run : Nat → σ → Option α → Option EasyPipe → Option EasyPipe →
              Option (Int × σ)) (lS : LinkList α) (w : σ),
            Reachable lS → LinkList_Size (some lS) = 1 →
            ∃ s, (LinkList_iterate (some lS)).map (fun v => v.map Prod.snd) = some [s] ∧
              runStages run (some lS) (some l1) w = driveSpec run 0 w [(s, none, none)]) :=
  ⟨by decide, reachable_listOf _ _, fun _ => ⟨rfl, by simp [benignOS]⟩, fun _ => rfl,
    C5_fabric_size benignOS 3 _ (by decide) (reachable_listOf _ _)
      (fun _ => ⟨rfl, by simp [benignOS]⟩) (fun _ => rfl)⟩

/-- C6: for every sequence of pushes and clears applied to a freshly created container,
with every allocation succeeding, every call returns success; a further push made while
`curLen < maxLen` allocates no node and one made while `curLen = maxLen` allocates
exactly one (every push of a sequence is the further push of the calls before it); the
number of nodes allocated after the head guard, `maxLen`, equals the largest logical
length ever reached; and after push x3, clear, push x2 the size is 2 and `maxLen` is 3. -/
theorem C6_pool_reuse (deleter : Bool) (l0 : LinkList α) (ops : List (Op α))
    (hcreate : LinkList_Create deleter true true = some l0)
    (hok : ∀ dat, Op.push dat false ∉ ops) :
    ∃ tr, runOps l0 ops = some tr ∧ (∀ x ∈ tr, x.1 = 0) ∧
      (finalState l0 tr).maxLen = peakLen l0 tr ∧
      (finalState l0 tr).mem.length = (finalState l0 tr).maxLen + 1 ∧
      (∀ dat, ∃ l1, LinkList_Push (some (finalState l0 tr)) dat true = some (0, some l1) ∧
        ((finalState l0 tr).curLen < (finalState l0 tr).maxLen →
          l1.mem.length = (finalState l0 tr).mem.length ∧
            l1.maxLen = (finalState l0 tr).maxLen) ∧
        ((finalState l0 tr).curLen = (finalState l0 tr).maxLen →
          l1.mem.length = (finalState l0 tr).mem.length + 1 ∧
            l1.maxLen = (finalState l0 tr).maxLen + 1)) ∧
      (∀ d1 d2 d3 d4 d5,
        ops = [Op.push d1 true, Op.push d2 true, Op.push d3 true, Op.clear,
          Op.push d4 true, Op.push d5 true] →
        LinkList_Size (some (finalState l0 tr)) = 2 ∧ (finalState l0 tr).maxLen = 3) := by
  obtain ⟨hc0, hcur0, hmax0, -⟩ := chain_create deleter l0 hcreate
  obtain ⟨tr, e, hlen, c, -, -, hm, -, hz⟩ := runOps_chain ops l0 hc0
  refine ⟨tr, e, hz hok, ?_, c.mem_len, ?_, ?_⟩
  · rw [hm, hmax0]
    simp
  · intro dat
    obtain ⟨r, l1, e1, -, -, h⟩ := push_total (finalState l0 tr) dat true c
    rcases h with ⟨hr, -, -, h⟩ | ⟨-, -, hf, -⟩
    · subst hr
      refine ⟨l1, e1, ?_, ?_⟩
      · intro hlt
        rcases h with ⟨-, h1, h2⟩ | ⟨h0, -⟩
        · exact ⟨h2, h1⟩
        · omega
      · intro heq
        rcases h with ⟨h0, -⟩ | ⟨-, -, h1, h2⟩
        · omega
        · exact ⟨h2, h1⟩
    · exact absurd hf (by simp)
  · intro d1 d2 d3 d4 d5 hops
    subst hops
    simp [LinkList_Create, emptyList] at hcreate
    subst hcreate
    cases deleter <;>
    · simp [runOps, applyOp, LinkList_Push, LinkList_Extend, LinkList_Clear, LinkList_iterate,
        LinkList_Begin, LinkList_walk, LinkList_Next] at e
      subst e
      simp [finalState, LinkList_Size]

/-- C6, witness: three pushes, a clear and two pushes on a freshly created container. -/
theorem C6_pool_reuse_witness :
    (LinkList_Create false true true : Option (LinkList Nat)) = some (emptyList false) ∧
      (∀ dat, Op.push dat false ∉ [Op.push (some 1) true, Op.push (some 2) true,
        Op.push (some 3) true, Op.clear, Op.push (some 4) true, Op.push (some 5) true]) ∧
      ∃ tr, runOps (emptyList false) [Op.push (some 1) true, Op.push (some 2) true,
          Op.push (some 3) true, Op.clear, Op.push (some 4) true, Op.push (some 5) true] =
          some tr ∧
        (∀ x ∈ tr, x.1 = 0) ∧
        (finalState (emptyList false) tr).maxLen = peakLen (emptyList false) tr ∧
        (finalState (emptyList false) tr).mem.length =
          (finalState (emptyList false) tr).maxLen + 1 ∧
        (∀ dat, ∃ l1,
          LinkList_Push (some (finalState (emptyList false) tr)) dat true = some (0, some l1) ∧
          ((finalState (emptyList false) tr).curLen < (finalState (emptyList false) tr).maxLen →
            l1.mem.length = (finalState (emptyList false) tr).mem.length ∧
              l1.maxLen = (finalState (emptyList false) tr).maxLen) ∧
          ((finalState (emptyList false) tr).curLen = (finalState (emptyList false) tr).maxLen →
            l1.mem.length = (finalState (emptyList false) tr).mem.length + 1 ∧
              l1.maxLen = (finalState (emptyList false) tr).maxLen + 1)) ∧
        (∀ d1 d2 d3 d4 d5,
          [Op.push (some 1) true, Op.push (some 2) true, Op.push (some 3) true, Op.clear,
              Op.push (some 4) true, Op.push (some 5) true] =
            [Op.push d1 true, Op.push d2 true, Op.push d3 true, Op.clear,
              Op.push d4 true, Op.push d5 true] →
          LinkList_Size (some (finalState (emptyList false) tr)) = 2 ∧
            (finalState (emptyList false) tr).maxLen = 3) :=
  ⟨rfl, fun dat h => by simp at h,
    C6_pool_reuse false (emptyList false) [Op.push (some 1) true, Op.push (some 2) true,
      Op.push (some 3) true, Op.clear, Op.push (some 4) true, Op.push (some 5) true] rfl
      (fun dat h => by simp at h)⟩

/-- C7: in every container state reached from create by pushes and clears, forward
iteration with `LinkList_Begin` / `LinkList_Next` ends, visits exactly `LinkList_Size`
nodes, which are the first to the `curLen`-th node after the head guard (none beyond
the logical tail), and reads from them exactly the payloads pushed since the last
clear, in push order. -/
theorem C7_forward_iteration (deleter : Bool) (l0 : LinkList α) (ops : List (Op α))
    (hcreate : LinkList_Create deleter true true = some l0) :
    ∃ tr visits, runOps l0 ops = some tr ∧
      LinkList_iterate (some (finalState l0 tr)) = some visits ∧
      visits.length = LinkList_Size (some (finalState l0 tr)) ∧
      visits.map Prod.snd = pushedSinceClear (ops.zip (tr.map Prod.fst)) [] ∧
      visits.map (fun v => some v.1) =
        (List.range' 1 (finalState l0 tr).curLen).map
          (nthAfter (finalState l0 tr) (finalState l0 tr).head) := by
  obtain ⟨hc0, hcur0, -, -⟩ := chain_create deleter l0 hcreate
  obtain ⟨tr, e, -, c, -, hp, -⟩ := runOps_chain ops l0 hc0
  have hp0 : payloads l0 = [] := by simp [payloads, hcur0]
  refine ⟨tr, _, e, iterate_chain _ c, by simp [LinkList_Size], ?_, ?_⟩
  · rw [← hp0, ← hp, ← range_map_payloads _ c]
    simp
  · simp only [List.map_map]
    apply List.map_congr_left
    intro k hk
    simp only [List.mem_range'_1] at hk
    have := c.le
    rw [c.head_eq, nthAfter_chain _ c k 0 (by omega)]
    simp

/-- C7, witness: a round of three pushes, a clear and one push; the nodes of the first
round keep the payloads 2 and 3 beyond the logical tail. -/
theorem C7_forward_iteration_witness :
    (LinkList_Create true true true : Option (LinkList Nat)) = some (emptyList true) ∧
      ∃ tr visits, runOps (emptyList true) [Op.push (some 1) true, Op.push (some 2) true,
          Op.push (some 3) true, Op.clear, Op.push (some 4) true] = some tr ∧
        LinkList_iterate (some (finalState (emptyList true) tr)) = some visits ∧
        visits.length = LinkList_Size (some (finalState (emptyList true) tr)) ∧
        visits.map Prod.snd =
          pushedSinceClear ([Op.push (some 1) true, Op.push (some 2) true,
            Op.push (some 3) true, Op.clear, Op.push (some 4) true].zip (tr.map Prod.fst)) [] ∧
        visits.map (fun v => some v.1) =
          (List.range' 1 (finalState (emptyList true) tr).curLen).map
            (nthAfter (finalState (emptyList true) tr) (finalState (emptyList true) tr).head) :=
  ⟨rfl, C7_forward_iteration true (emptyList true) [Op.push (some 1) true,
    Op.push (some 2) true, Op.push (some 3) true, Op.clear, Op.push (some 4) true] rfl⟩

/-- C8: on every container reached from create by pushes and clears, `LinkList_Clear`
returns 0, sets the logical length to 0, calls the registered deleter (if any) exactly
on the payloads pushed since the last clear, once each and in push order (and makes no
call when no deleter is registered), and leaves `maxLen`, the node memory with its next
pointers, the head and the maximum tail unchanged. -/
theorem C8_clear_effect (deleter : Bool) (l0 : LinkList α) (ops : List (Op α))
    (hcreate : LinkList_Create deleter true true = some l0) :
    ∃ tr l1 calls, runOps l0 ops = some tr ∧
      LinkList_Clear (some (finalState l0 tr)) = some (0, some l1, calls) ∧
      l1.curLen = 0 ∧ LinkList_Size (some l1) = 0 ∧
      calls = (if deleter then pushedSinceClear (ops.zip (tr.map Prod.fst)) [] else []) ∧
      l1.maxLen = (finalState l0 tr).maxLen ∧ l1.mem = (finalState l0 tr).mem ∧
      l1.head = (finalState l0 tr).head ∧ l1.maxTail = (finalState l0 tr).maxTail ∧
      l1.deleter = (finalState l0 tr).deleter := by
  obtain ⟨hc0, hcur0, -, hd0⟩ := chain_create deleter l0 hcreate
  obtain ⟨tr, e, -, c, hd, hp, -⟩ := runOps_chain ops l0 hc0
  have hp0 : payloads l0 = [] := by simp [payloads, hcur0]
  obtain ⟨e1, -⟩ := clear_chain _ c
  refine ⟨tr, _, _, e, e1, rfl, rfl, ?_, rfl, rfl, rfl, rfl, rfl⟩
  rw [hd, hd0, hp, hp0]

/-- C8, witness: a container with a deleter after three pushes, a clear and two pushes. -/
theorem C8_clear_effect_witness :
    (LinkList_Create true true true : Option (LinkList Nat)) = some (emptyList true) ∧
      ∃ tr l1 calls, runOps (emptyList true) [Op.push (some 1) true, Op.push (some 2) true,
          Op.push (some 3) true, Op.clear, Op.push (some 4) true, Op.push (some 5) true] =
          some tr ∧
        LinkList_Clear (some (finalState (emptyList true) tr)) = some (0, some l1, calls) ∧
        l1.curLen = 0 ∧ LinkList_Size (some l1) = 0 ∧
        calls = (if true then pushedSinceClear ([Op.push (some 1) true, Op.push (some 2) true,
          Op.push (some 3) true, Op.clear, Op.push (some 4) true,
          Op.push (some 5) true].zip (tr.map Prod.fst)) [] else []) ∧
        l1.maxLen = (finalState (emptyList true) tr).maxLen ∧
        l1.mem = (finalState (emptyList true) tr).mem ∧
        l1.head = (finalState (emptyList true) tr).head ∧
        l1.maxTail = (finalState (emptyList true) tr).maxTail ∧
        l1.deleter = (finalState (emptyList true) tr).deleter :=
  ⟨rfl, C8_clear_effect true (emptyList true) [Op.push (some 1) true, Op.push (some 2) true,
    Op.push (some 3) true, Op.clear, Op.push (some 4) true, Op.push (some 5) true] rfl⟩

/-- C9: in every container state on the way from create through any sequence of pushes
and clears, failed allocations included, `curLen ≤ maxLen`, `curTail` is the node
reached from the head guard by `curLen` next pointers and `maxTail` the node reached by
`maxLen` next pointers; and a push that does not return 0 leaves the whole list, so
`curLen`, `maxLen` and both tails, unchanged. -/
theorem C9_length_invariant (deleter : Bool) (l0 : LinkList α) (ops : List (Op α))
    (hcreate : LinkList_Create deleter true true = some l0) :
    ∃ tr, runOps l0 ops = some tr ∧
      ∀ l ∈ l0 :: tr.map Prod.snd,
        l.curLen ≤ l.maxLen ∧
        nthAfter l l.head l.curLen = some l.curTail ∧
        nthAfter l l.head l.maxLen = some l.maxTail ∧
        (∀ dat ok, ∃ r l1, LinkList_Push (some l) dat ok = some (r, some l1) ∧
          (r ≠ 0 → ok = false ∧ l1 = l)) := by
  obtain ⟨hc0, -⟩ := chain_create deleter l0 hcreate
  obtain ⟨tr, e, -, -, -, -, -, hall, -⟩ := runOps_chain ops l0 hc0
  refine ⟨tr, e, ?_⟩
  intro l hl
  have c : Chain l := by
    rcases List.mem_cons.1 hl with h | h
    · subst h
      exact hc0
    · obtain ⟨x, hx, rfl⟩ := List.mem_map.1 h
      exact hall x hx
  have hle := c.le
  refine ⟨hle, ?_, ?_, ?_⟩
  · rw [c.head_eq, nthAfter_chain _ c _ 0 (by omega), c.curTail_eq]
    simp
  · rw [c.head_eq, nthAfter_chain _ c _ 0 (by omega), c.maxTail_eq]
    simp
  · intro dat ok
    obtain ⟨r, l1, e1, -, -, h⟩ := push_total l dat ok c
    refine ⟨r, l1, e1, ?_⟩
    intro hr
    rcases h with ⟨h0, -⟩ | ⟨-, h1, h2, -⟩
    · exact absurd h0 hr
    · exact ⟨h2, h1⟩

/-- C9, witness: a push, a push whose allocation fails, a clear and a push. -/
theorem C9_length_invariant_witness :
    (LinkList_Create false true true : Option (LinkList Nat)) = some (emptyList false) ∧
      ∃ tr, runOps (emptyList false) [Op.push (some 1) true, Op.push (some 2) false,
          Op.clear, Op.push (some 3) true] = some tr ∧
        ∀ l ∈ emptyList false :: tr.map Prod.snd,
          l.curLen ≤ l.maxLen ∧
          nthAfter l l.head l.curLen = some l.curTail ∧
          nthAfter l l.head l.maxLen = some l.maxTail ∧
          (∀ dat ok, ∃ r l1, LinkList_Push (some l) dat ok = some (r, some l1) ∧
            (r ≠ 0 → ok = false ∧ l1 = l)) :=
  ⟨rfl, C9_length_invariant false (emptyList false) [Op.push (some 1) true,
    Op.push (some 2) false, Op.clear, Op.push (some 3) true] rfl⟩

/-- C10: for every line read in a state of a run, once the line is split into the stage
list and the pipe fabric is built, if the stages before stage `k` (counted from 0) all
returned 0 and stage `k` has the command word `exit`, then the stage loop makes exactly
the calls of the stages up to and including `k`, none for a later stage, prints `Bye`,
and the main loop is left, which ends the session. -/
theorem C10_exit_ends_session (os : LineOS) (sh : Shell) (line cmd1 : List Char)
    (gl lS : LinkList Nat) (gp lP : LinkList EasyPipe) (ev : List Event) (k p : Nat)
    (inp out : Option EasyPipe) (shk : Shell)
    (hgl : sh.g_List = some gl) (hgp : sh.g_Pipe = some gp) (hRl : Reachable gl)
    (hRp : Reachable gp) (hne : line ≠ []) (hnul : NUL ∉ line)
    (hsplit : splitPipe os.listAlloc (line ++ [NUL]) sh.g_List = some (0, cmd1, some lS))
    (hbuild : rebuildPipes os (LinkList_Size (some lS)) sh.g_Pipe = some (0, 0, some lP, ev))
    (hk : (expectedCalls (payloads lS) (payloads lP))[k]? = some (some p, inp, out))
    (hcont : afterContinue (fun j w dat inp out => runCommand (os.stage j) w dat inp out) 0
        { sh with cmd := cmd1, g_List := some lS, g_Pipe := some lP, trace := sh.trace ++ ev }
        ((expectedCalls (payloads lS) (payloads lP)).take k) = some shk)
    (hexit : commandWord shk.cmd p = some ['e', 'x', 'i', 't']) :
    ∃ sh1, mainLoopBody os sh (some (line ++ [NUL])) = some (true, sh1) ∧
      sh1.trace = shk.trace ++ [Event.puts "Bye"] ∧
      runStages (fun j w dat inp out => runCommand (os.stage j) w dat inp out) (some lS)
          (some lP)
          { sh with cmd := cmd1, g_List := some lS, g_Pipe := some lP,
                    trace := sh.trace ++ ev } =
        some (1, sh1, (expectedCalls (payloads lS) (payloads lP)).take (k + 1)) := by
  -- the two lists keep the shape of the lists of a run
  have cS : Chain lS := by
    obtain ⟨ret, buf, l1, e, c1, -⟩ :=
      splitPipe_spec os.listAlloc line gl (reachable_chain gl hRl) hnul
    rw [hgl] at hsplit
    rw [hsplit] at e
    simp only [Option.some.injEq, Prod.mk.injEq] at e
    rw [e.2.2]
    exact c1
  obtain ⟨flag, l1, ev1, e, c1, -, h⟩ :=
    rebuildPipes_chain os (LinkList_Size (some lS)) gp (reachable_chain gp hRp)
  rw [hgp] at hbuild
  rw [hbuild] at e
  simp only [Option.some.injEq, Prod.mk.injEq] at e
  obtain ⟨-, hflag, hl1, -⟩ := e
  subst hl1
  have hM : lP.curLen = lS.curLen - 1 := by
    rcases h with ⟨-, hl, -⟩ | ⟨hf1, -⟩
    · simpa [LinkList_Size] using hl
    · rw [← hflag] at hf1
      exact absurd hf1 (by decide)
  have hkN : k < lS.curLen := by
    have hlt := (List.getElem?_eq_some.1 hk).1
    have : (expectedCalls (payloads lS) (payloads lP) : List (Call Nat EasyPipe)).length ≤
        (payloads lS).length := by
      simp [expectedCalls]
    rw [payloads_length lS cS] at this
    omega
  have hN : lS.curLen = lP.curLen + 1 := by omega
  -- stage k returns -2
  obtain ⟨buf1, hrun⟩ := runCommand_exit (os.stage k) shk p inp out hexit
  have hstop := driveSpec_stop (fun j w dat inp out => runCommand (os.stage j) w dat inp out)
    k (expectedCalls (payloads lS) (payloads lP)) 0 _ shk _ (some p, inp, out) (-2) hcont hk
    (by simpa using hrun) (by decide)
  have hstages := runStages_spec
    (fun j w dat inp out => runCommand (os.stage j) w dat inp out) lS lP cS c1 hN
    { sh with cmd := cmd1, g_List := some lS, g_Pipe := some lP, trace := sh.trace ++ ev }
  rw [hstop] at hstages
  refine ⟨_, ?_, rfl, hstages⟩
  obtain ⟨a, t, hline⟩ : ∃ a t, line = a :: t := by
    cases line with
    | nil => exact absurd rfl hne
    | cons a t => exact ⟨a, t, rfl⟩
  have ha : a ≠ NUL := fun h => hnul (by rw [hline, h]; simp)
  have hfirst : (line ++ [NUL])[0]? = some a := by rw [hline]; simp
  simp only [mainLoopBody, hfirst, ha, if_false, hsplit, lt_self_iff_false, hgp, hbuild,
    ne_eq, not_true_eq_false, hstages]
  simp

/-- C10, witness: the line `exit|ls` read in the start state; stage 0 is `exit`. -/
theorem C10_exit_ends_session_witness :
    startShell.g_List = some (emptyList false) ∧ startShell.g_Pipe = some (emptyList true) ∧
      Reachable (emptyList false : LinkList Nat) ∧
      Reachable (emptyList true : LinkList EasyPipe) ∧
      ['e', 'x', 'i', 't', '|', 'l', 's'] ≠ [] ∧ NUL ∉ ['e', 'x', 'i', 't', '|', 'l', 's'] ∧
      splitPipe benignOS.listAlloc (['e', 'x', 'i', 't', '|', 'l', 's'] ++ [NUL])
          startShell.g_List =
        some (0, ['e', 'x', 'i', 't', NUL, 'l', 's', NUL],
          some (listOf false [Op.push (some 0) true, Op.push (some 5) true])) ∧
      rebuildPipes benignOS
          (LinkList_Size (some (listOf false [Op.push (some 0) true, Op.push (some 5) true])))
          startShell.g_Pipe =
        some (0, 0, some (listOf true [Op.push (some (EasyPipe.mk 3 4)) true]), []) ∧
      (expectedCalls (payloads (listOf false [Op.push (some 0) true, Op.push (some 5) true]))
          (payloads (listOf true [Op.push (some (EasyPipe.mk 3 4)) true])))[0]? =
        some (some 0, none, some (EasyPipe.mk 3 4)) ∧
      afterContinue (fun j w dat inp out => runCommand (benignOS.stage j) w dat inp out) 0
          { startShell with
            cmd := ['e', 'x', 'i', 't', NUL, 'l', 's', NUL]
            g_List := some (listOf false [Op.push (some 0) true, Op.push (some 5) true])
            g_Pipe := some (listOf true [Op.push (some (EasyPipe.mk 3 4)) true])
            trace := startShell.trace ++ [] }
          ((expectedCalls
            (payloads (listOf false [Op.push (some 0) true, Op.push (some 5) true]))
            (payloads (listOf true [Op.push (some (EasyPipe.mk 3 4)) true]))).take 0) =
        some { startShell with
          cmd := ['e', 'x', 'i', 't', NUL, 'l', 's', NUL]
          g_List := some (listOf false [Op.push (some 0) true, Op.push (some 5) true])
          g_Pipe := some (listOf true [Op.push (some (EasyPipe.mk 3 4)) true])
          trace := startShell.trace ++ [] } ∧
      commandWord ['e', 'x', 'i', 't', NUL, 'l', 's', NUL] 0 = some ['e', 'x', 'i', 't'] ∧
      ∃ sh1,
        mainLoopBody benignOS startShell (some (['e', 'x', 'i', 't', '|', 'l', 's'] ++ [NUL])) =
          some (true, sh1) ∧
        sh1.trace = (startShell.trace ++ []) ++ [Event.puts "Bye"] ∧
        runStages (fun j w dat inp out => runCommand (benignOS.stage j) w dat inp out)
            (some (listOf false [Op.push (some 0) true, Op.push (some 5) true]))
            (some (listOf true [Op.push (some (EasyPipe.mk 3 4)) true]))
            { startShell with
              cmd := ['e', 'x', 'i', 't', NUL, 'l', 's', NUL]
              g_List := some (listOf false [Op.push (some 0) true, Op.push (some 5) true])
              g_Pipe := some (listOf true [Op.push (some (EasyPipe.mk 3 4)) true])
              trace := startShell.trace ++ [] } =
          some (1, sh1,
            (expectedCalls
              (payloads (listOf false [Op.push (some 0) true, Op.push (some 5) true]))
              (payloads (listOf true [Op.push (some (EasyPipe.mk 3 4)) true]))).take
                (0 + 1)) :=
  ⟨rfl, rfl, reachable_listOf false [], reachable_listOf true [], by decide, by decide,
    by decide, by decide, by decide, rfl, by decide,
    C10_exit_ends_session benignOS startShell ['e', 'x', 'i', 't', '|', 'l', 's']
      ['e', 'x', 'i', 't', NUL, 'l', 's', NUL] (emptyList false)
      (listOf false [Op.push (some 0) true, Op.push (some 5) true]) (emptyList true)
      (listOf true [Op.push (some (EasyPipe.mk 3 4)) true]) [] 0 0 none
      (some (EasyPipe.mk 3 4))
      { startShell with
        cmd := ['e', 'x', 'i', 't', NUL, 'l', 's', NUL]
        g_List := some (listOf false [Op.push (some 0) true, Op.push (some 5) true])
        g_Pipe := some (listOf true [Op.push (some (EasyPipe.mk 3 4)) true])
        trace := startShell.trace ++ [] }
      rfl rfl (reachable_listOf false []) (reachable_listOf true []) (by decide) (by decide)
      (by decide) (by decide) (by decide) rfl (by decide)⟩

/-- C11: for every line read in a state of a run, once the line is split into the stage
list and the pipe fabric is built, if the stages before stage `k` (counted from 0) all
returned 0 and stage `k` is an external stage (its command word is none of `cd`, `exit`,
`help`) whose fork fails or whose child does not exit or exits with a non-zero status,
then `runCommand` returns the positive value 1 for stage `k`, the stage loop makes exactly
the calls of the stages up to and including `k`, none for a later stage, with the flag
left at 0, and the main loop is not left: it goes on to read the next line. -/
theorem C11_external_failure (os : LineOS) (sh : Shell) (line cmd1 : List Char)
    (gl lS : LinkList Nat) (gp lP : LinkList EasyPipe) (ev : List Event) (k p : Nat)
    (inp out : Option EasyPipe) (shk : Shell) (w : List Char)
    (hgl : sh.g_List = some gl) (hgp : sh.g_Pipe = some gp) (hRl : Reachable gl)
    (hRp : Reachable gp) (hne : line ≠ []) (hnul : NUL ∉ line)
    (hsplit : splitPipe os.listAlloc (line ++ [NUL]) sh.g_List = some (0, cmd1, some lS))
    (hbuild : rebuildPipes os (LinkList_Size (some lS)) sh.g_Pipe = some (0, 0, some lP, ev))
    (hk : (expectedCalls (payloads lS) (payloads lP))[k]? = some (some p, inp, out))
    (hcont : afterContinue (fun j w dat inp out => runCommand (os.stage j) w dat inp out) 0
        { sh with cmd := cmd1, g_List := some lS, g_Pipe := some lP, trace := sh.trace ++ ev }
        ((expectedCalls (payloads lS) (payloads lP)).take k) = some shk)
    (hword : commandWord shk.cmd p = some w)
    (hext : w ≠ ['c', 'd'] ∧ w ≠ ['e', 'x', 'i', 't'] ∧ w ≠ ['h', 'e', 'l', 'p'])
    (hfail : (os.stage k).forkOk = false ∨ (os.stage k).wifexited = false ∨
      (os.stage k).wexitstatus ≠ 0) :
    ∃ sh1, runCommand (os.stage k) shk (some p) inp out = some (1, sh1) ∧
      runStages (fun j w dat inp out => runCommand (os.stage j) w dat inp out) (some lS)
          (some lP)
          { sh with cmd := cmd1, g_List := some lS, g_Pipe := some lP,
                    trace := sh.trace ++ ev } =
        some (0, sh1, (expectedCalls (payloads lS) (payloads lP)).take (k + 1)) ∧
      mainLoopBody os sh (some (line ++ [NUL])) = some (false, sh1) := by
  obtain ⟨-, -, -, hstages, hmain⟩ :=
    mainLoopBody_stages os sh line cmd1 gl lS gp lP ev hgl hgp hRl hRp hne hnul hsplit hbuild
  obtain ⟨sh1, hrun⟩ : ∃ sh1, runCommand (os.stage k) shk (some p) inp out = some (1, sh1) := by
    obtain ⟨buf2, text, hrun, -⟩ := runCommand_external_fail (os.stage k) shk p inp out w
      hword hext.1 hext.2.1 hext.2.2 hfail
    exact ⟨_, hrun⟩
  have hstop := driveSpec_halt (fun j w dat inp out => runCommand (os.stage j) w dat inp out)
    k (expectedCalls (payloads lS) (payloads lP)) 0 _ shk _ (some p, inp, out) 1 hcont hk
    (by simpa using hrun) (by decide)
  refine ⟨sh1, hrun, ?_, ?_⟩
  · exact hstages.trans hstop
  · rw [hmain, hstop]
    rfl

/-- C11, witness: the line `false|ls` read in the start state when the child of a stage
exits with status 1; stage 0 fails. -/
theorem C11_external_failure_witness :
    startShell.g_List = some (emptyList false) ∧ startShell.g_Pipe = some (emptyList true) ∧
      Reachable (emptyList false : LinkList Nat) ∧
      Reachable (emptyList true : LinkList EasyPipe) ∧
      ['f', 'a', 'l', 's', 'e', '|', 'l', 's'] ≠ [] ∧
      NUL ∉ ['f', 'a', 'l', 's', 'e', '|', 'l', 's'] ∧
      splitPipe exitOneOS.listAlloc (['f', 'a', 'l', 's', 'e', '|', 'l', 's'] ++ [NUL])
          startShell.g_List =
        some (0, ['f', 'a', 'l', 's', 'e', NUL, 'l', 's', NUL],
          some (listOf false [Op.push (some 0) true, Op.push (some 6) true])) ∧
      rebuildPipes exitOneOS
          (LinkList_Size (some (listOf false [Op.push (some 0) true, Op.push (some 6) true])))
          startShell.g_Pipe =
        some (0, 0, some (listOf true [Op.push (some (EasyPipe.mk 3 4)) true]), []) ∧
      (expectedCalls (payloads (listOf false [Op.push (some 0) true, Op.push (some 6) true]))
          (payloads (listOf true [Op.push (some (EasyPipe.mk 3 4)) true])))[0]? =
        some (some 0, none, some (EasyPipe.mk 3 4)) ∧
      afterContinue (fun j w dat inp out => runCommand (exitOneOS.stage j) w dat inp out) 0
          { startShell with
            cmd := ['f', 'a', 'l', 's', 'e', NUL, 'l', 's', NUL]
            g_List := some (listOf false [Op.push (some 0) true, Op.push (some 6) true])
            g_Pipe := some (listOf true [Op.push (some (EasyPipe.mk 3 4)) true])
            trace := startShell.trace ++ [] }
          ((expectedCalls
            (payloads (listOf false [Op.push (some 0) true, Op.push (some 6) true]))
            (payloads (listOf true [Op.push (some (EasyPipe.mk 3 4)) true]))).take 0) =
        some { startShell with
          cmd := ['f', 'a', 'l', 's', 'e', NUL, 'l', 's', NUL]
          g_List := some (listOf false [Op.push (some 0) true, Op.push (some 6) true])
          g_Pipe := some (listOf true [Op.push (some (EasyPipe.mk 3 4)) true])
          trace := startShell.trace ++ [] } ∧
      commandWord ['f', 'a', 'l', 's', 'e', NUL, 'l', 's', NUL] 0 =
        some ['f', 'a', 'l', 's', 'e'] ∧
      (['f', 'a', 'l', 's', 'e'] ≠ ['c', 'd'] ∧ ['f', 'a', 'l', 's', 'e'] ≠ ['e', 'x', 'i', 't'] ∧
        ['f', 'a', 'l', 's', 'e'] ≠ ['h', 'e', 'l', 'p']) ∧
      ((exitOneOS.stage 0).forkOk = false ∨ (exitOneOS.stage 0).wifexited = false ∨
        (exitOneOS.stage 0).wexitstatus ≠ 0) ∧
      ∃ sh1,
        runCommand (exitOneOS.stage 0)
            { startShell with
              cmd := ['f', 'a', 'l', 's', 'e', NUL, 'l', 's', NUL]
              g_List := some (listOf false [Op.push (some 0) true, Op.push (some 6) true])
              g_Pipe := some (listOf true [Op.push (some (EasyPipe.mk 3 4)) true])
              trace := startShell.trace ++ [] }
            (some 0) none (some (EasyPipe.mk 3 4)) = some (1, sh1) ∧
        runStages (fun j w dat inp out => runCommand (exitOneOS.stage j) w dat inp out)
            (some (listOf false [Op.push (some 0) true, Op.push (some 6) true]))
            (some (listOf true [Op.push (some (EasyPipe.mk 3 4)) true]))
            { startShell with
              cmd := ['f', 'a', 'l', 's', 'e', NUL, 'l', 's', NUL]
              g_List := some (listOf false [Op.push (some 0) true, Op.push (some 6) true])
              g_Pipe := some (listOf true [Op.push (some (EasyPipe.mk 3 4)) true])
              trace := startShell.trace ++ [] } =
          some (0, sh1,
            (expectedCalls
              (payloads (listOf false [Op.push (some 0) true, Op.push (some 6) true]))
              (payloads (listOf true [Op.push (some (EasyPipe.mk 3 4)) true]))).take
                (0 + 1)) ∧
        mainLoopBody exitOneOS startShell
            (some (['f', 'a', 'l', 's', 'e', '|', 'l', 's'] ++ [NUL])) = some (false, sh1) :=
  ⟨rfl, rfl, reachable_listOf false [], reachable_listOf true [], by decide, by decide,
    by decide, by decide, by decide, rfl, by decide, by decide, by decide,
    C11_external_failure exitOneOS startShell ['f', 'a', 'l', 's', 'e', '|', 'l', 's']
      ['f', 'a', 'l', 's', 'e', NUL, 'l', 's', NUL] (emptyList false)
      (listOf false [Op.push (some 0) true, Op.push (some 6) true]) (emptyList true)
      (listOf true [Op.push (some (EasyPipe.mk 3 4)) true]) [] 0 0 none
      (some (EasyPipe.mk 3 4))
      { startShell with
        cmd := ['f', 'a', 'l', 's', 'e', NUL, 'l', 's', NUL]
        g_List := some (listOf false [Op.push (some 0) true, Op.push (some 6) true])
        g_Pipe := some (listOf true [Op.push (some (EasyPipe.mk 3 4)) true])
        trace := startShell.trace ++ [] }
      ['f', 'a', 'l', 's', 'e']
      rfl rfl (reachable_listOf false []) (reachable_listOf true []) (by decide) (by decide)
      (by decide) (by decide) (by decide) rfl (by decide) (by decide) (by decide)⟩

/-- C13: for every stage text (held with its terminator at an offset of the line buffer)
that contains a character other than a space and whose first space-delimited token is
none of `cd`, `exit`, `help`, `runCommand` is the call of `runExternal` on exactly the
original stage text, followed by the warning and the return value 1 when that call
returns a negative value and by the return value 0 otherwise; the line buffer is left as
it was, and when the fork succeeds the child is started on the original stage text.
Leading spaces, trailing spaces and texts without a space are all covered. -/
theorem C13_external_text (os : StageOS) (sh : Shell) (pre t post : List Char)
    (inp out : Option EasyPipe)
    (hbuf : sh.cmd = pre ++ t ++ NUL :: post) (hnul : NUL ∉ t) (hchar : ∃ c ∈ t, c ≠ ' ')
    (hext : firstToken t ≠ ['c', 'd'] ∧ firstToken t ≠ ['e', 'x', 'i', 't'] ∧
      firstToken t ≠ ['h', 'e', 'l', 'p']) :
    runCommand os sh (some pre.length) inp out =
        (if (runExternal os t inp out).1 < 0 then
          some (1, { sh with trace := sh.trace ++ (runExternal os t inp out).2 ++
            [Event.printf "Warning: Some error occurred while executing, code: %d\n"
              (runExternal os t inp out).1] })
        else some (0, { sh with trace := sh.trace ++ (runExternal os t inp out).2 })) ∧
      (os.forkOk = true →
        (runExternal os t inp out).2.head? = some (Event.spawn t inp out)) := by
  refine ⟨runCommand_external os sh pre t post inp out hbuf hnul (firstToken_ne_nil t hchar)
    hext.1 hext.2.1 hext.2.2, ?_⟩
  intro hf
  unfold runExternal
  rw [if_neg (by simp [hf])]
  split_ifs <;> rfl

/-- C13, witness: the stage text ` ls -l `, with a leading and a trailing space, held
after the stage `a` in the line buffer. -/
theorem C13_external_text_witness :
    ({ startShell with cmd := ['a', NUL, ' ', 'l', 's', ' ', '-', 'l', ' ', NUL] } : Shell).cmd =
        ['a', NUL] ++ [' ', 'l', 's', ' ', '-', 'l', ' '] ++ NUL :: [] ∧
      NUL ∉ [' ', 'l', 's', ' ', '-', 'l', ' '] ∧
      (∃ c ∈ [' ', 'l', 's', ' ', '-', 'l', ' '], c ≠ ' ') ∧
      (firstToken [' ', 'l', 's', ' ', '-', 'l', ' '] ≠ ['c', 'd'] ∧
        firstToken [' ', 'l', 's', ' ', '-', 'l', ' '] ≠ ['e', 'x', 'i', 't'] ∧
        firstToken [' ', 'l', 's', ' ', '-', 'l', ' '] ≠ ['h', 'e', 'l', 'p']) ∧
      runCommand benignStage
          { startShell with cmd := ['a', NUL, ' ', 'l', 's', ' ', '-', 'l', ' ', NUL] }
          (some ['a', NUL].length) none none =
        (if (runExternal benignStage [' ', 'l', 's', ' ', '-', 'l', ' '] none none).1 < 0 then
          some (1, { ({ startShell with
              cmd := ['a', NUL, ' ', 'l', 's', ' ', '-', 'l', ' ', NUL] } : Shell) with
            trace := ({ startShell with
                cmd := ['a', NUL, ' ', 'l', 's', ' ', '-', 'l', ' ', NUL] } : Shell).trace ++
              (runExternal benignStage [' ', 'l', 's', ' ', '-', 'l', ' '] none none).2 ++
              [Event.printf "Warning: Some error occurred while executing, code: %d\n"
                (runExternal benignStage [' ', 'l', 's', ' ', '-', 'l', ' '] none none).1] })
        else some (0, { ({ startShell with
              cmd := ['a', NUL, ' ', 'l', 's', ' ', '-', 'l', ' ', NUL] } : Shell) with
            trace := ({ startShell with
                cmd := ['a', NUL, ' ', 'l', 's', ' ', '-', 'l', ' ', NUL] } : Shell).trace ++
              (runExternal benignStage [' ', 'l', 's', ' ', '-', 'l', ' '] none none).2 })) ∧
      (benignStage.forkOk = true →
        (runExternal benignStage [' ', 'l', 's', ' ', '-', 'l', ' '] none none).2.head? =
          some (Event.spawn [' ', 'l', 's', ' ', '-', 'l', ' '] none none)) :=
  ⟨rfl, by decide, by decide, by decide,
    C13_external_text benignStage
      { startShell with cmd := ['a', NUL, ' ', 'l', 's', ' ', '-', 'l', ' ', NUL] }
      ['a', NUL] [' ', 'l', 's', ' ', '-', 'l', ' '] [] none none rfl (by decide) (by decide)
      (by decide)⟩

/-- C14, the code on every `cd` stage with an argument: when the path (the argument
itself when it begins with `/`, else the cached working directory, a `/` and the
argument) has 1024 characters or more, `sprintf` writes past the 1024 bytes of `g_TmpDir`
(lines 323, 325) and the call of `runCommand` has no result; when the path is shorter
(and `g_UserHost` fits its 512 bytes) the call returns, the path is stored in `g_TmpDir`
and it is the path passed to the directory change, the first call the stage makes. -/
theorem C14_cd_path (os : StageOS) (sh : Shell) (pre t post : List Char)
    (inp out : Option EasyPipe)
    (hbuf : sh.cmd = pre ++ t ++ NUL :: post) (hnul : NUL ∉ t)
    (hcd : firstToken t = ['c', 'd']) (harg : firstToken (afterFirstToken t) ≠ []) :
    (1024 ≤ (cdPath sh.g_Dir (firstToken (afterFirstToken t))).length →
        runCommand os sh (some pre.length) inp out = none) ∧
      ((cdPath sh.g_Dir (firstToken (afterFirstToken t))).length < 1024 →
        sh.g_UserHost.length < 512 →
        ∃ ret sh1, runCommand os sh (some pre.length) inp out = some (ret, sh1) ∧
          sh1.g_TmpDir = cdPath sh.g_Dir (firstToken (afterFirstToken t)) ∧
          ∃ rest, sh1.trace =
            sh.trace ++ Event.chdir (cdPath sh.g_Dir (firstToken (afterFirstToken t))) ::
              rest) := by
  obtain ⟨handle, buf1, save1, tmp, buf2, save2, hs1, hc1, hs2, hc2, hhead⟩ :=
    cd_tokens pre t post hnul hcd harg
  rw [← hbuf] at hs1
  have hpath : (if buf2[tmp]? = some '/' then cstr buf2 tmp
      else sh.g_Dir ++ ['/'] ++ cstr buf2 tmp) =
      cdPath sh.g_Dir (firstToken (afterFirstToken t)) := by
    rw [hhead, hc2, cdPath]
  simp only [runCommand, hs1, hc1, if_true, hs2, hpath]
  generalize cdPath sh.g_Dir (firstToken (afterFirstToken t)) = path
  constructor
  · intro hlong
    rw [if_pos hlong]
  · intro hfit huh
    rw [if_neg (by omega)]
    split_ifs with h2
    · cases hg : os.getcwd with
      | none =>
        exact ⟨_, _, rfl, rfl,
          [Event.puts "Error: Cannot get current working diretory"], by simp⟩
      | some d =>
        simp only
        split_ifs with h3 h4
        · exact ⟨_, _, rfl, rfl,
            [Event.puts "Error: Cannot get current working diretory"], by simp⟩
        · simp only [List.length_append, List.length_cons, List.length_nil] at h4
          omega
        · exact ⟨_, _, rfl, rfl, [], by simp⟩
    · exact ⟨_, _, rfl, rfl,
        [Event.puts "Error: Fail to change directory, please check path"], by simp⟩

/-- C14, the code at the failing input: the stage text `cd` followed by a space and 1100
characters `a`, read when the cached working directory is `/home/u`.  The path has 1108
characters and the call has no result: the C code writes past `g_TmpDir`. -/
theorem C14_cd_path_witness :
    ({ startShell with cmd := longCd 1100 ++ [NUL] } : Shell).cmd =
        [] ++ longCd 1100 ++ NUL :: [] ∧
      NUL ∉ longCd 1100 ∧ firstToken (longCd 1100) = ['c', 'd'] ∧
      firstToken (afterFirstToken (longCd 1100)) ≠ [] ∧
      1024 ≤ (cdPath ({ startShell with cmd := longCd 1100 ++ [NUL] } : Shell).g_Dir
        (firstToken (afterFirstToken (longCd 1100)))).length ∧
      runCommand benignStage { startShell with cmd := longCd 1100 ++ [NUL] }
        (some ([] : List Char).length) none none = none :=
  have hfacts := longCd_facts 1100
  have harg : firstToken (afterFirstToken (longCd 1100)) ≠ [] := by decide
  have hlong : 1024 ≤ (cdPath ({ startShell with cmd := longCd 1100 ++ [NUL] } : Shell).g_Dir
      (firstToken (afterFirstToken (longCd 1100)))).length :=
    le_of_le_of_eq (by decide) hfacts.2.2.2.symm
  ⟨rfl, hfacts.1, hfacts.2.1, harg, hlong,
    (C14_cd_path benignStage { startShell with cmd := longCd 1100 ++ [NUL] } []
      (longCd 1100) [] none none rfl hfacts.1 hfacts.2.1 harg).1 hlong⟩

/-- C15, the code on every `cd` stage with an argument whose directory change fails: when
the path has 1024 characters or more, `sprintf` writes past the 1024 bytes of `g_TmpDir`
(lines 323, 325) before the directory change is called and the call of `runCommand` has
no result; when the path is shorter the call returns 0 after the directory change and the
error message, and the cached working directory and the prompt are exactly as they were
before the stage. -/
theorem C15_cd_failure (os : StageOS) (sh : Shell) (pre t post : List Char)
    (inp out : Option EasyPipe)
    (hbuf : sh.cmd = pre ++ t ++ NUL :: post) (hnul : NUL ∉ t)
    (hcd : firstToken t = ['c', 'd']) (harg : firstToken (afterFirstToken t) ≠ [])
    (hfail : os.chdirOk = false) :
    (1024 ≤ (cdPath sh.g_Dir (firstToken (afterFirstToken t))).length →
        runCommand os sh (some pre.length) inp out = none) ∧
      ((cdPath sh.g_Dir (firstToken (afterFirstToken t))).length < 1024 →
        ∃ sh1, runCommand os sh (some pre.length) inp out = some (0, sh1) ∧
          sh1.g_Dir = sh.g_Dir ∧ sh1.g_Prompt = sh.g_Prompt ∧
          sh1.trace = sh.trace ++
            [Event.chdir (cdPath sh.g_Dir (firstToken (afterFirstToken t))),
             Event.puts "Error: Fail to change directory, please check path"]) := by
  obtain ⟨handle, buf1, save1, tmp, buf2, save2, hs1, hc1, hs2, hc2, hhead⟩ :=
    cd_tokens pre t post hnul hcd harg
  rw [← hbuf] at hs1
  have hpath : (if buf2[tmp]? = some '/' then cstr buf2 tmp
      else sh.g_Dir ++ ['/'] ++ cstr buf2 tmp) =
      cdPath sh.g_Dir (firstToken (afterFirstToken t)) := by
    rw [hhead, hc2, cdPath]
  simp only [runCommand, hs1, hc1, if_true, hs2, hpath, hfail, Bool.false_eq_true, if_false]
  generalize cdPath sh.g_Dir (firstToken (afterFirstToken t)) = path
  constructor
  · intro hlong
    rw [if_pos hlong]
  · intro hfit
    rw [if_neg (by omega)]
    exact ⟨_, rfl, rfl, rfl, by simp⟩

/-- C15, the code at the failing input: the stage text `cd` followed by a space and 1100
characters `a`, read when the cached working directory is `/home/u` and the directory
change fails.  The call has no result: the C code writes past `g_TmpDir`. -/
theorem C15_cd_failure_witness :
    ({ startShell with cmd := longCd 1100 ++ [NUL] } : Shell).cmd =
        [] ++ longCd 1100 ++ NUL :: [] ∧
      NUL ∉ longCd 1100 ∧ firstToken (longCd 1100) = ['c', 'd'] ∧
      firstToken (afterFirstToken (longCd 1100)) ≠ [] ∧
      ({ benignStage with chdirOk := false } : StageOS).chdirOk = false ∧
      1024 ≤ (cdPath ({ startShell with cmd := longCd 1100 ++ [NUL] } : Shell).g_Dir
        (firstToken (afterFirstToken (longCd 1100)))).length ∧
      runCommand { benignStage with chdirOk := false }
        { startShell with cmd := longCd 1100 ++ [NUL] }
        (some ([] : List Char).length) none none = none :=
  have hfacts := longCd_facts 1100
  have harg : firstToken (afterFirstToken (longCd 1100)) ≠ [] := by decide
  have hlong : 1024 ≤ (cdPath ({ startShell with cmd := longCd 1100 ++ [NUL] } : Shell).g_Dir
      (firstToken (afterFirstToken (longCd 1100)))).length :=
    le_of_le_of_eq (by decide) hfacts.2.2.2.symm
  ⟨rfl, hfacts.1, hfacts.2.1, harg, rfl, hlong,
    (C15_cd_failure { benignStage with chdirOk := false }
      { startShell with cmd := longCd 1100 ++ [NUL] } []
      (longCd 1100) [] none none rfl hfacts.1 hfacts.2.1 harg rfl).1 hlong⟩

/-- C16, the code at the failing input: the line `ls|wc`, two external stages that run to
completion, read in the start state, followed by the line `ls`, whose fabric build clears
the pipe container.  The one pair has the descriptors 3 and 4.  The parent closes 4 while
it runs the first stage and 3 while it runs the second (lines 281-282), and the deleter
of the pipe container closes 3 and 4 again at the clear (line 218): each descriptor is
closed twice. -/
theorem C16_double_close :
    (mainLoopBody benignOS startShell (some (['l', 's', '|', 'w', 'c'] ++ [NUL]))).map
        (fun r => (r.1, r.2.g_Pipe.map payloads, r.2.trace)) =
      some (false, some [some (EasyPipe.mk 3 4)],
        [Event.spawn ['l', 's'] none (some (EasyPipe.mk 3 4)), Event.close 4, Event.wait,
         Event.spawn ['w', 'c'] (some (EasyPipe.mk 3 4)) none, Event.close 3, Event.wait]) ∧
    ((mainLoopBody benignOS startShell (some (['l', 's', '|', 'w', 'c'] ++ [NUL]))).bind
        fun r => (mainLoopBody benignOS r.2 (some (['l', 's'] ++ [NUL]))).map fun r2 =>
          (r2.2.trace, closeCount 3 r2.2.trace, closeCount 4 r2.2.trace)) =
      some ([Event.spawn ['l', 's'] none (some (EasyPipe.mk 3 4)), Event.close 4, Event.wait,
         Event.spawn ['w', 'c'] (some (EasyPipe.mk 3 4)) none, Event.close 3, Event.wait,
         Event.close 3, Event.close 4, Event.spawn ['l', 's'] none none, Event.wait],
        2, 2) := by
  decide

/-- C17 (amended): for every line read in a state of a run (the pipe container having the
deleter `EasyPipe_Destroy`) and split into at least two stages, if the pairs of index
below `j` are created and stored and the creation of the pair of index `j` fails, or its
storing fails (the allocation fails and the container has no spare node), then the main
loop goes on to the next line after one error message, leaving exactly the `j` pairs
built so far in the pipe container: no stage is run and the only `close` calls made are
those of the clear on the pairs of the line before.  The `j` pairs are released later:
the next clear of the pipe container hands exactly them to the deleter and leaves the
container empty. -/
theorem C17_fabric_failure (os : LineOS) (sh : Shell) (line cmd1 : List Char)
    (gl lS : LinkList Nat) (gp : LinkList EasyPipe) (j : Nat)
    (hgl : sh.g_List = some gl) (hgp : sh.g_Pipe = some gp) (hRl : Reachable gl)
    (hRp : Reachable gp) (hdel : gp.deleter = true) (hnul : NUL ∉ line)
    (hsplit : splitPipe os.listAlloc (line ++ [NUL]) sh.g_List = some (0, cmd1, some lS))
    (hj : j + 1 < LinkList_Size (some lS))
    (hok : ∀ m, m < j →
      EasyPipe_Create (os.pipeMalloc m) (os.pipeSys m) ≠ none ∧ os.pipeAlloc m = true)
    (hfail : EasyPipe_Create (os.pipeMalloc j) (os.pipeSys j) = none ∨
      (os.pipeAlloc j = false ∧ gp.maxLen ≤ j)) :
    ∃ lP lP2 msg,
      mainLoopBody os sh (some (line ++ [NUL])) =
        some (false,
          { sh with
            cmd := cmd1
            g_List := some lS
            g_Pipe := some lP
            trace := sh.trace ++ ((payloads gp).map EasyPipe_Destroy).flatten ++
              [Event.puts msg] }) ∧
      LinkList_Size (some lP) = j ∧
      payloads lP = (List.range j).map
        (fun m => EasyPipe_Create (os.pipeMalloc m) (os.pipeSys m)) ∧
      LinkList_Clear (some lP) = some (0, some lP2, payloads lP) ∧
      LinkList_Size (some lP2) = 0 := by
  have cP := reachable_chain gp hRp
  obtain ⟨e0, c0⟩ := clear_chain gp cP
  obtain ⟨l1, msg, e1, c1, hd1, hp1⟩ := initPipe_fail os (LinkList_Size (some lS)) j
    (LinkList_Size (some lS) + 1) 1 { gp with curTail := gp.head, curLen := 0 } c0
    (by omega) (le_refl 1) (by omega) hj (fun m _ h2 => hok m h2)
    (by
      rcases hfail with h | ⟨h1, h2⟩
      · exact Or.inl h
      · exact Or.inr ⟨h1, by simpa using h2⟩)
  have hp0 : payloads { gp with curTail := gp.head, curLen := 0 } = [] := by simp [payloads]
  have hpay : payloads l1 = (List.range j).map
      (fun m => EasyPipe_Create (os.pipeMalloc m) (os.pipeSys m)) := by
    rw [hp1, hp0, List.nil_append, Nat.add_sub_cancel, List.range_eq_range', List.range'_eq_map_range,
      List.range'_eq_map_range]
    simp [Function.comp_def]
  have hsize : LinkList_Size (some l1) = j := by
    have := payloads_length l1 c1
    rw [hpay] at this
    simpa [LinkList_Size] using this.symm
  obtain ⟨e2, c2⟩ := clear_chain l1 c1
  have hd : l1.deleter = true := by rw [hd1]; exact hdel
  rw [hd, if_pos rfl] at e2
  refine ⟨l1, _, msg, ?_, hsize, hpay, e2, rfl⟩
  have hne : line ≠ [] := by
    intro hl
    subst hl
    obtain ⟨r, buf, l0, e, cc, -, h0⟩ :=
      splitPipe_spec os.listAlloc [] gl (reachable_chain gl hRl) hnul
    rw [hgl] at hsplit
    rw [hsplit] at e
    simp only [Option.some.injEq, Prod.mk.injEq] at e
    obtain ⟨hr, -, hl0⟩ := e
    subst hl0
    rcases h0 with ⟨-, -, hp, -⟩ | ⟨h1, -⟩
    · have hlen := congrArg List.length hp
      rw [payloads_length lS cc] at hlen
      simp [scanRest] at hlen
      simp [LinkList_Size, hlen] at hj
    · rw [← hr] at h1
      exact absurd h1 (by decide)
  obtain ⟨a, t, hline⟩ : ∃ a t, line = a :: t := by
    cases line with
    | nil => exact absurd rfl hne
    | cons a t => exact ⟨a, t, rfl⟩
  have ha : a ≠ NUL := fun h => hnul (by rw [hline, h]; simp)
  have hfirst : (line ++ [NUL])[0]? = some a := by rw [hline]; simp
  simp only [mainLoopBody, hfirst, ha, if_false, hsplit, lt_self_iff_false, hgp, rebuildPipes,
    e0, e1]
  simp [hdel]

/-- C17, witness: the line `a|b|c` read in the start state when the second `pipe` call
fails; the first pair stays in the pipe container. -/
theorem C17_fabric_failure_witness :
    startShell.g_List = some (emptyList false) ∧ startShell.g_Pipe = some (emptyList true) ∧
      Reachable (emptyList false : LinkList Nat) ∧
      Reachable (emptyList true : LinkList EasyPipe) ∧
      (emptyList true : LinkList EasyPipe).deleter = true ∧
      NUL ∉ ['a', '|', 'b', '|', 'c'] ∧
      splitPipe secondPipeFailOS.listAlloc (['a', '|', 'b', '|', 'c'] ++ [NUL])
          startShell.g_List =
        some (0, ['a', NUL, 'b', NUL, 'c', NUL],
          some (listOf false
            [Op.push (some 0) true, Op.push (some 2) true, Op.push (some 4) true])) ∧
      1 + 1 < LinkList_Size (some (listOf false
        [Op.push (some 0) true, Op.push (some 2) true, Op.push (some 4) true])) ∧
      (∀ m, m < 1 →
        EasyPipe_Create (secondPipeFailOS.pipeMalloc m) (secondPipeFailOS.pipeSys m) ≠ none ∧
          secondPipeFailOS.pipeAlloc m = true) ∧
      (EasyPipe_Create (secondPipeFailOS.pipeMalloc 1) (secondPipeFailOS.pipeSys 1) = none ∨
        (secondPipeFailOS.pipeAlloc 1 = false ∧
          (emptyList true : LinkList EasyPipe).maxLen ≤ 1)) ∧
      ∃ lP lP2 msg,
        mainLoopBody secondPipeFailOS startShell
            (some (['a', '|', 'b', '|', 'c'] ++ [NUL])) =
          some (false, { startShell with
            cmd := ['a', NUL, 'b', NUL, 'c', NUL]
            g_List := some (listOf false
              [Op.push (some 0) true, Op.push (some 2) true, Op.push (some 4) true])
            g_Pipe := some lP
            trace := startShell.trace ++
              ((payloads (emptyList true : LinkList EasyPipe)).map EasyPipe_Destroy).flatten ++
              [Event.puts msg] }) ∧
        LinkList_Size (some lP) = 1 ∧
        payloads lP = (List.range 1).map
          (fun m => EasyPipe_Create (secondPipeFailOS.pipeMalloc m)
            (secondPipeFailOS.pipeSys m)) ∧
        LinkList_Clear (some lP) = some (0, some lP2, payloads lP) ∧
        LinkList_Size (some lP2) = 0 :=
  ⟨rfl, rfl, reachable_listOf false [], reachable_listOf true [], rfl, by decide, by decide,
    by decide, by decide, by decide,
    C17_fabric_failure secondPipeFailOS startShell ['a', '|', 'b', '|', 'c']
      ['a', NUL, 'b', NUL, 'c', NUL] (emptyList false)
      (listOf false [Op.push (some 0) true, Op.push (some 2) true, Op.push (some 4) true])
      (emptyList true) 1 rfl rfl (reachable_listOf false []) (reachable_listOf true []) rfl
      (by decide) (by decide) (by decide) (by decide) (by decide)⟩

/-- C17, counterexample: the line `a|b|c` read in the start state when the second `pipe`
call fails.  The main loop goes on to the next line with the first pair, of descriptors 3
and 4, still in the pipe container, and the only call made is the error message: no
descriptor has been closed. -/
theorem C17_counterexample :
    (mainLoopBody secondPipeFailOS startShell (some (['a', '|', 'b', '|', 'c'] ++ [NUL]))).map
        (fun r => (r.1, r.2.g_Pipe.map payloads, r.2.trace)) =
      some (false, some [some (EasyPipe.mk 3 4)], [Event.puts "Error: Fail to create pipe"]) ∧
    (mainLoopBody secondPipeFailOS startShell (some (['a', '|', 'b', '|', 'c'] ++ [NUL]))).map
        (fun r => LinkList_Size r.2.g_Pipe) = some 1 := by
  decide

/-- C18: in every state of the scan of `splitPipe` whose cursor is on a double quote, the
scan goes on with the inside-quotes flag toggled if the cursor is at the first character
of the line or the character right before the cursor is not a backslash, and with the
flag as it was otherwise; no other character is looked at.  So after a successful split
of any line a pipe is a delimiter exactly when an even number of the double quotes before
it are first in the line or not preceded by a backslash.  A double quote after two
backslashes is escaped (successfully splitting the line of the two backslashes, a double
quote, a pipe and a double quote yields two stages), and successfully splitting
`echo \"a|b` yields the two stages `echo \"a` and `b`; the split succeeds when no
allocation fails. -/
theorem C18_quote_toggle (alloc : Nat → Bool) (line : List Char) (l : LinkList Nat)
    (fuel : Nat) (cmd : List Char) (flag start i : Nat) (g : Option (LinkList Nat)) (j : Nat)
    (hl : Reachable l) (hnul : NUL ∉ line) (hq : cmd[i]? = some QUOTE)
    (hj : (line)[j]? = some PIPE) :
    splitPipe_scan (fuel + 1) alloc cmd flag start i g =
        splitPipe_scan fuel alloc cmd
          (if i = 0 ∨ cmd[i - 1]? ≠ some BACKSLASH then flag ^^^ 1 else flag) start (i + 1) g ∧
      ∃ ret buf l1, splitPipe alloc (line ++ [NUL]) (some l) = some (ret, buf, some l1) ∧
        (ret = 0 → (buf[j]? = some NUL ↔ countUnescaped none (line.take j) % 2 = 0)) ∧
        ((∀ n, alloc n = true) → ret = 0) ∧
        (line = [BACKSLASH, BACKSLASH, QUOTE, PIPE, QUOTE] → ret = 0 →
          stagesOf buf (some l1) = some [[BACKSLASH, BACKSLASH, QUOTE], [QUOTE]]) ∧
        (line = ['e', 'c', 'h', 'o', ' ', BACKSLASH, QUOTE, 'a', PIPE, 'b'] → ret = 0 →
          stagesOf buf (some l1) =
            some [['e', 'c', 'h', 'o', ' ', BACKSLASH, QUOTE, 'a'], ['b']]) := by
  constructor
  · have hqn : QUOTE ≠ NUL := by decide
    have hqp : QUOTE ≠ PIPE := by decide
    rw [splitPipe_scan]
    simp only [hq, hqn, if_false, true_and, hqp, false_and]
    split_ifs <;> rfl
  · obtain ⟨ret, buf, l1, e, c1, -, h⟩ :=
      splitPipe_spec alloc line l (reachable_chain l hl) hnul
    have hchar := scanRest_char line 0 none none 0 0 j (by omega) Iff.rfl hj
    simp only [Nat.zero_add] at hchar
    have hlen := scanRest_length line 0 none 0 0
    have hjlt : j < line.length := (List.getElem?_eq_some.1 hj).1
    refine ⟨ret, buf, l1, e, ?_, ?_, ?_, ?_⟩
    · intro hr
      rcases h with ⟨-, h2, -⟩ | ⟨h1, -⟩
      · rw [h2, List.getElem?_append_left (by omega), hchar]
        have hpn : PIPE ≠ NUL := by decide
        by_cases hpar : countUnescaped none (line.take j) % 2 = 1
        · simp [hpar, hpn]
        · have : countUnescaped none (line.take j) % 2 = 0 := by omega
          simp [this]
      · omega
    · intro hall
      rcases h with ⟨h1, -⟩ | ⟨-, ⟨n, hn⟩, -⟩
      · exact h1
      · rw [hall n] at hn
        exact absurd hn (by simp)
    · intro hline hr
      rcases h with ⟨-, -, -, h4⟩ | ⟨h1, -⟩
      · rw [h4, hline]
        decide
      · omega
    · intro hline hr
      rcases h with ⟨-, -, -, h4⟩ | ⟨h1, -⟩
      · rw [h4, hline]
        decide
      · omega

/-- C18, witness: the scan of `a"` with the cursor on the double quote at offset 1, and
the pipe at offset 8 of the line `echo \"a|b`. -/
theorem C18_quote_toggle_witness :
    Reachable (emptyList false : LinkList Nat) ∧
      NUL ∉ ['e', 'c', 'h', 'o', ' ', BACKSLASH, QUOTE, 'a', PIPE, 'b'] ∧
      ['a', QUOTE, NUL][1]? = some QUOTE ∧
      (['e', 'c', 'h', 'o', ' ', BACKSLASH, QUOTE, 'a', PIPE, 'b'])[8]? = some PIPE ∧
      splitPipe_scan (2 + 1) (fun _ => true) ['a', QUOTE, NUL] 0 0 1 (some (emptyList false)) =
        splitPipe_scan 2 (fun _ => true) ['a', QUOTE, NUL]
          (if 1 = 0 ∨ ['a', QUOTE, NUL][1 - 1]? ≠ some BACKSLASH then 0 ^^^ 1 else 0) 0 (1 + 1)
          (some (emptyList false)) ∧
      ∃ ret buf l1,
        splitPipe (fun _ => true)
            (['e', 'c', 'h', 'o', ' ', BACKSLASH, QUOTE, 'a', PIPE, 'b'] ++ [NUL])
            (some (emptyList false)) = some (ret, buf, some l1) ∧
        (ret = 0 → (buf[8]? = some NUL ↔
          countUnescaped none
            (['e', 'c', 'h', 'o', ' ', BACKSLASH, QUOTE, 'a', PIPE, 'b'].take 8) % 2 = 0)) ∧
        ((∀ n, (fun (_ : Nat) => true) n = true) → ret = 0) ∧
        (['e', 'c', 'h', 'o', ' ', BACKSLASH, QUOTE, 'a', PIPE, 'b'] =
            [BACKSLASH, BACKSLASH, QUOTE, PIPE, QUOTE] → ret = 0 →
          stagesOf buf (some l1) = some [[BACKSLASH, BACKSLASH, QUOTE], [QUOTE]]) ∧
        (['e', 'c', 'h', 'o', ' ', BACKSLASH, QUOTE, 'a', PIPE, 'b'] =
            ['e', 'c', 'h', 'o', ' ', BACKSLASH, QUOTE, 'a', PIPE, 'b'] → ret = 0 →
          stagesOf buf (some l1) =
            some [['e', 'c', 'h', 'o', ' ', BACKSLASH, QUOTE, 'a'], ['b']]) :=
  ⟨reachable_listOf false [], by decide, by decide, by decide,
    C18_quote_toggle (fun _ => true)
      ['e', 'c', 'h', 'o', ' ', BACKSLASH, QUOTE, 'a', PIPE, 'b'] (emptyList false) 2
      ['a', QUOTE, NUL] 0 0 1 (some (emptyList false)) 8 (reachable_listOf false [])
      (by decide) (by decide) (by decide)⟩

/-- C19: for every input line, with or without quotes, and every prior content of the
stage container, joining the stages that a successful `splitPipe` leaves in the container
with pipes gives back the line, without its last character when that is a delimiter pipe
(a pipe scanned outside quotes) and whole otherwise; the split succeeds when no
allocation fails. -/
theorem C19_join_stages (alloc : Nat → Bool) (line : List Char) (l : LinkList Nat)
    (hl : Reachable l) (hnul : NUL ∉ line) :
    ∃ ret buf l1, splitPipe alloc (line ++ [NUL]) (some l) = some (ret, buf, some l1) ∧
      (ret = 0 → ∃ stages, stagesOf buf (some l1) = some stages ∧
        List.intercalate [PIPE] stages =
          (if line.getLast? = some PIPE ∧ countUnescaped none line.dropLast % 2 = 0
            then line.dropLast else line)) ∧
      ((∀ n, alloc n = true) → ret = 0) := by
  obtain ⟨ret, buf, l1, e, c1, -, h⟩ :=
    splitPipe_spec alloc line l (reachable_chain l hl) hnul
  refine ⟨ret, buf, l1, e, ?_, ?_⟩
  · intro hr
    rcases h with ⟨-, -, -, h4⟩ | ⟨h1, -⟩
    · refine ⟨_, h4, ?_⟩
      have := join_segments line 0 none none [] (by omega) Iff.rfl
      simpa using this
    · omega
  · intro hall
    rcases h with ⟨h1, -⟩ | ⟨-, ⟨n, hn⟩, -⟩
    · exact h1
    · rw [hall n] at hn
      exact absurd hn (by simp)

/-- C19, witness: the line `a "b|c" | d|` read with a fresh stage container; its last
character is a delimiter pipe. -/
theorem C19_join_stages_witness :
    Reachable (emptyList false : LinkList Nat) ∧
      NUL ∉ ['a', ' ', QUOTE, 'b', PIPE, 'c', QUOTE, ' ', PIPE, ' ', 'd', PIPE] ∧
      (['a', ' ', QUOTE, 'b', PIPE, 'c', QUOTE, ' ', PIPE, ' ', 'd', PIPE].getLast? =
          some PIPE ∧
        countUnescaped none
          ['a', ' ', QUOTE, 'b', PIPE, 'c', QUOTE, ' ', PIPE, ' ', 'd', PIPE].dropLast % 2 =
            0) ∧
      ∃ ret buf l1,
        splitPipe (fun _ => true)
            (['a', ' ', QUOTE, 'b', PIPE, 'c', QUOTE, ' ', PIPE, ' ', 'd', PIPE] ++ [NUL])
            (some (emptyList false)) = some (ret, buf, some l1) ∧
        (ret = 0 → ∃ stages, stagesOf buf (some l1) = some stages ∧
          List.intercalate [PIPE] stages =
            (if ['a', ' ', QUOTE, 'b', PIPE, 'c', QUOTE, ' ', PIPE, ' ', 'd', PIPE].getLast? =
                  some PIPE ∧
                countUnescaped none
                  ['a', ' ', QUOTE, 'b', PIPE, 'c', QUOTE, ' ', PIPE, ' ', 'd',
                    PIPE].dropLast % 2 = 0
              then ['a', ' ', QUOTE, 'b', PIPE, 'c', QUOTE, ' ', PIPE, ' ', 'd', PIPE].dropLast
              else ['a', ' ', QUOTE, 'b', PIPE, 'c', QUOTE, ' ', PIPE, ' ', 'd', PIPE])) ∧
        ((∀ n, (fun (_ : Nat) => true) n = true) → ret = 0) :=
  ⟨reachable_listOf false [], by decide, by decide,
    C19_join_stages (fun _ => true)
      ['a', ' ', QUOTE, 'b', PIPE, 'c', QUOTE, ' ', PIPE, ' ', 'd', PIPE] (emptyList false)
      (reachable_listOf false []) (by decide)⟩

/-- C20: the main loop passes no empty line on (it goes on to the next line without a
call), and for every non-empty input line and every prior content of the stage container,
a successful `splitPipe` leaves at least one stage in the container, so the fabric build
is run for a stage count `N` of at least 1 and, when it succeeds, leaves `N - 1` pairs
with `(N - 1) + 1 = N`: the subtraction does not underflow.  The split succeeds when no
allocation fails. -/
theorem C20_stage_count (alloc : Nat → Bool) (line : List Char) (l : LinkList Nat)
    (hl : Reachable l) (hnul : NUL ∉ line) (hne : line ≠ []) :
    (∀ (os : LineOS) (sh : Shell), mainLoopBody os sh (some ([] ++ [NUL])) = some (false, sh)) ∧
    ∃ ret buf l1, splitPipe alloc (line ++ [NUL]) (some l) = some (ret, buf, some l1) ∧
      (ret = 0 → 1 ≤ LinkList_Size (some l1) ∧
        ∀ (os : LineOS) (gp : LinkList EasyPipe), Reachable gp →
          ∃ flag lP ev, rebuildPipes os (LinkList_Size (some l1)) (some gp) =
              some (0, flag, some lP, ev) ∧
            (flag = 0 → LinkList_Size (some lP) = LinkList_Size (some l1) - 1 ∧
              LinkList_Size (some lP) + 1 = LinkList_Size (some l1))) ∧
      ((∀ n, alloc n = true) → ret = 0) := by
  obtain ⟨ret, buf, l1, e, c1, -, h⟩ :=
    splitPipe_spec alloc line l (reachable_chain l hl) hnul
  refine ⟨fun os sh => by simp [mainLoopBody], ret, buf, l1, e, ?_, ?_⟩
  · intro hr
    have hpos : 1 ≤ LinkList_Size (some l1) := by
      rcases h with ⟨-, -, hp, -⟩ | ⟨h1, -⟩
      · have hlen := congrArg List.length hp
        rw [payloads_length l1 c1, List.length_map] at hlen
        have := List.length_pos.2 (scanRest_nonempty line 0 none 0 0 hne (le_refl 0))
        simp only [LinkList_Size]
        omega
      · omega
    refine ⟨hpos, ?_⟩
    intro os gp hgp
    obtain ⟨flag, lP, ev, e2, -, -, h2⟩ :=
      rebuildPipes_chain os (LinkList_Size (some l1)) gp (reachable_chain gp hgp)
    refine ⟨flag, lP, ev, e2, ?_⟩
    intro hf
    rcases h2 with ⟨-, hl2, -⟩ | ⟨hf1, -⟩
    · have : LinkList_Size (some lP) = LinkList_Size (some l1) - 1 := by
        simpa [LinkList_Size] using hl2
      exact ⟨this, by omega⟩
    · omega
  · intro hall
    rcases h with ⟨h1, -⟩ | ⟨-, ⟨n, hn⟩, -⟩
    · exact h1
    · rw [hall n] at hn
      exact absurd hn (by simp)

/-- C20, witness: the line `|` read with a fresh stage container: one stage, the empty
text before the pipe, and no pair. -/
theorem C20_stage_count_witness :
    Reachable (emptyList false : LinkList Nat) ∧ NUL ∉ [PIPE] ∧ [PIPE] ≠ [] ∧
      (∀ (os : LineOS) (sh : Shell),
        mainLoopBody os sh (some ([] ++ [NUL])) = some (false, sh)) ∧
      ∃ ret buf l1,
        splitPipe (fun _ => true) ([PIPE] ++ [NUL]) (some (emptyList false)) =
          some (ret, buf, some l1) ∧
        (ret = 0 → 1 ≤ LinkList_Size (some l1) ∧
          ∀ (os : LineOS) (gp : LinkList EasyPipe), Reachable gp →
            ∃ flag lP ev, rebuildPipes os (LinkList_Size (some l1)) (some gp) =
                some (0, flag, some lP, ev) ∧
              (flag = 0 → LinkList_Size (some lP) = LinkList_Size (some l1) - 1 ∧
                LinkList_Size (some lP) + 1 = LinkList_Size (some l1))) ∧
        ((∀ n, (fun (_ : Nat) => true) n = true) → ret = 0) :=
  ⟨reachable_listOf false [], by decide, by decide,
    C20_stage_count (fun _ => true) [PIPE] (emptyList false) (reachable_listOf false [])
      (by decide) (by decide)⟩

end MyShell
